import Mathlib

/-! Record table synchronisation (MySQL build).

A shallow embedding of `daos/record_table_sync_mysql.go`:
`SyncRecordTableSchema`, `normalizeSingleVsMultipleFieldChanges`,
`dropCollectionIndex` and `createCollectionIndexes`.

The Go code talks to a database through `dbx`.  Here every statement the code
hands to the database is a value of `Stmt`; a `Backend` says what executing a
statement does to a database state, and a `World` carries the database state
together with the list of statements issued so far.
-/

namespace PocketBase

/-! ## Data model -/

/-- Kind of a collection (`models.Collection.Type`). -/
inductive CollectionType
  | base
  | auth
  | view
deriving DecidableEq, Repr

/-- One schema field (`schema.SchemaField`), cut down to what the synchronisation reads.
`Options` is the `schema.MultiValuer` view of the field options: `none` when the
options do not implement `MultiValuer`, `some b` when `IsMultiple()` returns `b`.
`ColDefinition` is the text returned by the method of the same name. -/
structure SchemaField where
  Id : String
  Name : String
  Options : Option Bool
  ColDefinition : String
deriving DecidableEq, Repr

/-- A collection (`models.Collection`), cut down to what the synchronisation reads. -/
structure Collection where
  Id : String
  Name : String
  Kind : CollectionType
  Schema : List SchemaField
  Indexes : List String
deriving DecidableEq, Repr

/-- A parsed index (`dbutils.Index`). -/
structure Index where
  Unique : Bool
  IndexName : String
  TableName : String
  Columns : String
deriving DecidableEq, Repr

/-- What the code uses from packages that are not part of the synchronisation file:
the index parser of `tools/dbutils`, `security.PseudorandomString`,
`strings.EqualFold`, the id generator behind `RefreshId`, and the order in which
Go ranges over the `toRename` map. -/
structure External where
  /-- The function `dbutils.ParseIndex`. -/
  ParseIndex : String → Index
  /-- The method `IsValid` of a parsed index. -/
  IsValid : Index → Bool
  /-- The method `Build` of a parsed index: the text of its CREATE statement. -/
  Build : Index → String
  /-- The string returned by the `n`-th call of `security.PseudorandomString(5)`. -/
  PseudorandomString : Nat → String
  /-- The function `strings.EqualFold`. -/
  EqualFold : String → String → Bool
  /-- The id that `RefreshId` assigns. -/
  RefreshId : String
  /-- The order in which `range` visits the entries of a map. -/
  rangeOrder : List (String × String) → List (String × String)

/-- Modelled from the spec: `Collection.IsAuth` (models package, not in the
synchronisation file) - the collection is of kind auth. -/
def Collection.IsAuth (c : Collection) : Bool := c.Kind == CollectionType.auth

/-- Modelled from the spec: `Collection.IsView` (models package, not in the
synchronisation file) - the collection is a view. -/
def Collection.IsView (c : Collection) : Bool := c.Kind == CollectionType.view

/-- Modelled from the spec: `Collection.HasId` (models package) - an id has been assigned. -/
def Collection.HasId (c : Collection) : Bool := c.Id != ""

/-- Modelled from the spec: `Schema.GetFieldById` (schema package, not in the
synchronisation file) - "look up the field with the same identity": the first
field of the schema carrying the id, if any. -/
def GetFieldById (schema : List SchemaField) (id : String) : Option SchemaField :=
  schema.find? (fun f => f.Id == id)

/-- Assignment `m[k] = v` on a Go map kept as a list of entries: an entry with the key
is overwritten in place, a new key is appended. -/
def mapSet {β : Type} : List (String × β) → String → β → List (String × β)
  | [], k, v => [(k, v)]
  | (k0, v0) :: rest, k, v =>
    if k0 = k then (k, v) :: rest else (k0, v0) :: mapSet rest k v

/-! ## Statements, backends and worlds -/

/-- The statements the synchronisation hands to the database. -/
inductive Stmt
  /-- The call `DB().CreateTable(table, cols)`. -/
  | CreateTable (table : String) (cols : List (String × String))
  /-- The call `DB().NewQuery(sql)`, executed. -/
  | NewQuery (sql : String)
  /-- The `information_schema.STATISTICS` lookup with its two bound parameters. -/
  | SelectIndexes (tableName indexName : String)
  /-- The call `DB().RenameTable(old, new)`. -/
  | RenameTable (oldName newName : String)
  /-- The call `DB().DropColumn(table, col)`. -/
  | DropColumn (table col : String)
  /-- The call `DB().AddColumn(table, col, typ)`. -/
  | AddColumn (table col typ : String)
  /-- The call `RenameColumn(table, old, new)`. -/
  | RenameColumn (table oldName newName : String)
  /-- The `UPDATE table SET target = (single -> multiple CASE expression over source)`. -/
  | UpdateSingleToMultiple (table target source : String)
  /-- The `UPDATE table SET target = (multiple -> single CASE expression over source)`. -/
  | UpdateMultipleToSingle (table target source : String)
deriving DecidableEq, Repr

/-- A database: what executing a statement does to a state (an error message, or the
state after), and how many rows the index lookup returns. -/
structure Backend (σ : Type) where
  exec : Stmt → σ → Except String σ
  indexRows : String → String → σ → Except String Nat

/-- A validation error (`validation.NewError(code, message)`). -/
structure ValidationError where
  code : String
  message : String
deriving DecidableEq, Repr

/-- Errors returned by the synchronisation: a database or `fmt.Errorf` error with its
message, or `validation.Errors` with the single key "indexes" holding the keyed index errors. -/
inductive Error
  | plain (msg : String)
  | indexes (errs : List (String × ValidationError))
deriving DecidableEq, Repr

/-- The running state: the database, the statements issued so far (oldest first), the
number of `PseudorandomString` calls made so far, and whether a transaction is open. -/
structure World (σ : Type) where
  db : σ
  log : List Stmt
  rng : Nat
  inTx : Bool

deriving instance DecidableEq for Except

/-- The world with a transaction open. -/
def World.enter {σ : Type} (w : World σ) : World σ := { w with inTx := true }

/-- Outcome of a step: its result and the world after it. -/
abbrev Step (σ : Type) (α : Type) := Except Error α × World σ

/-- Hand one statement to the database: it is logged, and the database state changes
only when the statement succeeds. -/
def execute {σ : Type} (B : Backend σ) (s : Stmt) (w : World σ) : Step σ Unit :=
  match B.exec s w.db with
  | .error e => (.error (Error.plain e), { w with log := w.log ++ [s] })
  | .ok d => (.ok (), { w with db := d, log := w.log ++ [s] })

/-- The metadata lookup `query.All(&indexes)`: the number of rows found. -/
def queryIndexes {σ : Type} (B : Backend σ) (tableName indexName : String) (w : World σ) :
    Step σ Nat :=
  match B.indexRows tableName indexName w.db with
  | .error e =>
    (.error (Error.plain e), { w with log := w.log ++ [Stmt.SelectIndexes tableName indexName] })
  | .ok n => (.ok n, { w with log := w.log ++ [Stmt.SelectIndexes tableName indexName] })

/-- Modelled from the spec: `Dao.RunInTransaction` (daos package, not in the
synchronisation file) - "run within a transaction", with rollback of every prior
statement when the callback fails.  Inside an open transaction the callback runs
in that transaction. -/
def RunInTransaction {σ : Type} (fn : World σ → Step σ Unit) (w : World σ) : Step σ Unit :=
  if w.inTx then fn w
  else
    match fn w.enter with
    | (.error e, w1) => (.error e, { w1 with db := w.db, inTx := false })
    | (.ok u, w1) => (.ok u, { w1 with inTx := false })

/-! ## String helpers of the Go standard library -/

/-- First-occurrence replacement on characters: `strings.Replace(s, old, new, 1)` for a
non-empty `old`. -/
def replaceFirstChars (old new : List Char) : List Char → List Char
  | [] => []
  | c :: cs =>
    if old.isPrefixOf (c :: cs) then new ++ (c :: cs).drop old.length
    else c :: replaceFirstChars old new cs

/-- The call `strings.HasPrefix(s, p)`. -/
def HasPrefix (s p : String) : Bool := p.data.isPrefixOf s.data

/-- The call `strings.Replace(s, old, new, 1)` (non-empty `old`). -/
def ReplaceFirst (s old new : String) : String :=
  String.mk (replaceFirstChars old.data new.data s.data)

/-- The decimal digit with value `d` (for `d < 10`). -/
def digitChar (d : Nat) : Char := Char.ofNat (48 + d)

/-- Decimal digits of `n`, most significant first; the first argument bounds their number. -/
def decimalDigits : Nat → Nat → List Char
  | 0, _ => []
  | f + 1, n =>
    if n < 10 then [digitChar n] else decimalDigits f (n / 10) ++ [digitChar (n % 10)]

/-- The call `strconv.Itoa(n)` for a non-negative `n`: its decimal text. -/
def Itoa (n : Nat) : String := String.mk (decimalDigits (n + 1) n)

/-! ## Index reconciliation -/

/-- Text of `fmt.Sprintf("DROP INDEX [[%s]] ON [[%s]]", indexName, tableName)`. -/
def dropIndexSql (indexName tableName : String) : String :=
  "DROP INDEX [[" ++ indexName ++ "]] ON [[" ++ tableName ++ "]]"

/-- The loop of `dropCollectionIndex` (lines 301-328) over the raw index specs. -/
def dropCollectionIndexLoop {σ : Type} (D : External) (B : Backend σ) :
    List String → World σ → Step σ Unit
  | [], w => (.ok (), w)
  | raw :: rest, w =>
    let parsed := D.ParseIndex raw
    if !D.IsValid parsed then dropCollectionIndexLoop D B rest w
    else
      match queryIndexes B parsed.TableName parsed.IndexName w with
      | (.error e, w1) => (.error e, w1)
      | (.ok n, w1) =>
        if n > 0 then
          match execute B (Stmt.NewQuery (dropIndexSql parsed.IndexName parsed.TableName)) w1 with
          | (.error e, w2) => (.error e, w2)
          | (.ok _, w2) => (.ok (), w2)
        else (.ok (), w1)

/-- The function `dropCollectionIndex` (lines 295-332). -/
def dropCollectionIndex {σ : Type} (D : External) (B : Backend σ) (collection : Collection)
    (w : World σ) : Step σ Unit :=
  if collection.IsView then (.ok (), w)
  else RunInTransaction (dropCollectionIndexLoop D B collection.Indexes) w

/-- The parsed index with `parsed.TableName = collection.Name` (lines 352-355). -/
def parsedFor (D : External) (collection : Collection) (idx : String) : Index :=
  { D.ParseIndex idx with TableName := collection.Name }

/-- The statement text computed at lines 366-369. -/
def createIndexSql (D : External) (parsed : Index) : String :=
  if HasPrefix (D.Build parsed) "CREATE INDEX" then
    ReplaceFirst (D.Build parsed) "INDEX" "FULLTEXT INDEX"
  else D.Build parsed

/-- The validation error of an invalid index expression (lines 358-361). -/
def invalidIndexError : ValidationError :=
  { code := "validation_invalid_index_expression", message := "Invalid CREATE INDEX expression." }

/-- The validation error of a failed CREATE statement (lines 372-375). -/
def failedIndexError (indexName cause : String) : ValidationError :=
  { code := "validation_invalid_index_expression",
    message := "Failed to create index " ++ indexName ++ " - " ++ cause ++ "." }

/-- Message of an error (`err.Error()`). -/
def Error.text : Error → String
  | .plain msg => msg
  | .indexes _ => "indexes: validation failed"

/-- The loop of `createCollectionIndexes` (lines 351-378): position, remaining specs,
errors collected so far. -/
def createIndexesLoop {σ : Type} (D : External) (B : Backend σ) (collection : Collection) :
    Nat → List String → List (String × ValidationError) → World σ →
      List (String × ValidationError) × World σ
  | _, [], errs, w => (errs, w)
  | i, idx :: rest, errs, w =>
    let parsed := parsedFor D collection idx
    if !D.IsValid parsed then
      createIndexesLoop D B collection (i + 1) rest (mapSet errs (Itoa i) invalidIndexError) w
    else
      match execute B (Stmt.NewQuery (createIndexSql D parsed)) w with
      | (.error e, w1) =>
        createIndexesLoop D B collection (i + 1) rest
          (mapSet errs (Itoa i) (failedIndexError parsed.IndexName e.text)) w1
      | (.ok _, w1) => createIndexesLoop D B collection (i + 1) rest errs w1

/-- The transaction body of `createCollectionIndexes` (lines 340-384). -/
def createCollectionIndexesBody {σ : Type} (D : External) (B : Backend σ)
    (collection : Collection) (w : World σ) : Step σ Unit :=
  match dropCollectionIndex D B collection w with
  | (.error e, w1) => (.error e, w1)
  | (.ok _, w1) =>
    match createIndexesLoop D B collection 0 collection.Indexes [] w1 with
    | (errs, w2) =>
      if errs.length > 0 then (.error (Error.indexes errs), w2) else (.ok (), w2)

/-- The function `createCollectionIndexes` (lines 334-386). -/
def createCollectionIndexes {σ : Type} (D : External) (B : Backend σ) (collection : Collection)
    (w : World σ) : Step σ Unit :=
  if collection.IsView then (.ok (), w)
  else RunInTransaction (createCollectionIndexesBody D B collection) w

/-! ## Cardinality normalisation -/

/-- The flag `isOldMultiple` (lines 184-189). -/
def isOldMultiple (oldCollection : Collection) (newField : SchemaField) : Bool :=
  match GetFieldById oldCollection.Schema newField.Id with
  | some oldField =>
    (match oldField.Options with
     | some b => b
     | none => false)
  | none => false

/-- The flag `isNewMultiple` (lines 191-194). -/
def isNewMultiple (newField : SchemaField) : Bool :=
  match newField.Options with
  | some b => b
  | none => false

/-- The copy statement chosen at lines 217-267. -/
def copyQuery (table tempName originalName : String) (wasMultiple nowMultiple : Bool) : Stmt :=
  if !wasMultiple && nowMultiple then Stmt.UpdateSingleToMultiple table tempName originalName
  else Stmt.UpdateMultipleToSingle table tempName originalName

/-- The loop of `normalizeSingleVsMultipleFieldChanges` (lines 181-288). -/
def normalizeLoop {σ : Type} (D : External) (B : Backend σ)
    (newCollection oldCollection : Collection) : List SchemaField → World σ → Step σ Unit
  | [], w => (.ok (), w)
  | newField :: rest, w =>
    if isOldMultiple oldCollection newField = isNewMultiple newField then
      normalizeLoop D B newCollection oldCollection rest w
    else
      let originalName := newField.Name
      let tempName := "_" ++ newField.Name ++ D.PseudorandomString w.rng
      let w0 := { w with rng := w.rng + 1 }
      match execute B (Stmt.AddColumn newCollection.Name tempName newField.ColDefinition) w0 with
      | (.error e, w1) => (.error e, w1)
      | (.ok _, w1) =>
        match execute B (copyQuery newCollection.Name tempName originalName
            (isOldMultiple oldCollection newField) (isNewMultiple newField)) w1 with
        | (.error e, w2) => (.error e, w2)
        | (.ok _, w2) =>
          match execute B (Stmt.DropColumn newCollection.Name originalName) w2 with
          | (.error e, w3) => (.error e, w3)
          | (.ok _, w3) =>
            match execute B (Stmt.RenameColumn newCollection.Name tempName originalName) w3 with
            | (.error e, w4) => (.error e, w4)
            | (.ok _, w4) => normalizeLoop D B newCollection oldCollection rest w4

/-- The function `normalizeSingleVsMultipleFieldChanges` (lines 172-293). -/
def normalizeSingleVsMultipleFieldChanges {σ : Type} (D : External) (B : Backend σ)
    (newCollection : Collection) (oldCollection : Option Collection) (w : World σ) :
    Step σ Unit :=
  match oldCollection with
  | none => (.ok (), w)
  | some old =>
    if newCollection.IsView then (.ok (), w)
    else RunInTransaction (normalizeLoop D B newCollection old newCollection.Schema) w

/-! ## Column migration and the orchestrator -/

/-- The loop "check for deleted columns" (lines 108-119).  The slice
`deletedFieldNames` it fills is never read and is left out. -/
def dropDeletedColumns {σ : Type} (B : Backend σ) (newTableName : String)
    (newSchema : List SchemaField) : List SchemaField → World σ → Step σ Unit
  | [], w => (.ok (), w)
  | oldField :: rest, w =>
    match GetFieldById newSchema oldField.Id with
    | some _ => dropDeletedColumns B newTableName newSchema rest w
    | none =>
      match execute B (Stmt.DropColumn newTableName oldField.Name) w with
      | (.error e, w1) =>
        (.error (Error.plain ("failed to drop column " ++ oldField.Name ++ " - " ++ e.text)), w1)
      | (.ok _, w1) => dropDeletedColumns B newTableName newSchema rest w1

/-- The loop "check for new or renamed columns" (lines 123-153): it returns the
`toRename` map.  The map `renamedFieldNames` it fills is never read and is left out. -/
def addOrRenameColumns {σ : Type} (D : External) (B : Backend σ) (newTableName : String)
    (oldSchema : List SchemaField) :
    List SchemaField → List (String × String) → World σ → Step σ (List (String × String))
  | [], toRename, w => (.ok toRename, w)
  | field :: rest, toRename, w =>
    match GetFieldById oldSchema field.Id with
    | none =>
      let tempName := field.Name ++ D.PseudorandomString w.rng
      let w0 := { w with rng := w.rng + 1 }
      match execute B (Stmt.AddColumn newTableName tempName field.ColDefinition) w0 with
      | (.error e, w1) =>
        (.error (Error.plain ("failed to add column " ++ field.Name ++ " - " ++ e.text)), w1)
      | (.ok _, w1) =>
        addOrRenameColumns D B newTableName oldSchema rest (mapSet toRename tempName field.Name) w1
    | some oldField =>
      if oldField.Name != field.Name then
        let tempName := field.Name ++ D.PseudorandomString w.rng
        let w0 := { w with rng := w.rng + 1 }
        match execute B (Stmt.RenameColumn newTableName oldField.Name tempName) w0 with
        | (.error e, w1) =>
          (.error (Error.plain ("failed to rename column " ++ oldField.Name ++ " - " ++ e.text)),
            w1)
        | (.ok _, w1) =>
          addOrRenameColumns D B newTableName oldSchema rest
            (mapSet toRename tempName field.Name) w1
      else addOrRenameColumns D B newTableName oldSchema rest toRename w

/-- The loop "set the actual columns name" (lines 156-162) over the entries of
`toRename` in the order `range` yields them. -/
def applyRenames {σ : Type} (B : Backend σ) (newTableName : String) :
    List (String × String) → World σ → Step σ Unit
  | [], w => (.ok (), w)
  | (tempName, actualName) :: rest, w =>
    match execute B (Stmt.RenameColumn newTableName tempName actualName) w with
    | (.error e, w1) => (.error e, w1)
    | (.ok _, w1) => applyRenames B newTableName rest w1

/-- Lines 107-162 of `SyncRecordTableSchema`: the drops, the first pass of adds and
renames under temporary names, and the second pass of renames to the final names. -/
def syncColumns {σ : Type} (D : External) (B : Backend σ) (newTableName : String)
    (oldSchema newSchema : List SchemaField) (w : World σ) : Step σ Unit :=
  match dropDeletedColumns B newTableName newSchema oldSchema w with
  | (.error e, w1) => (.error e, w1)
  | (.ok _, w1) =>
    match addOrRenameColumns D B newTableName oldSchema newSchema [] w1 with
    | (.error e, w2) => (.error e, w2)
    | (.ok toRename, w2) => applyRenames B newTableName (D.rangeOrder toRename) w2

/-- The "check for renamed table" step (lines 100-105). -/
def renameTableIfNeeded {σ : Type} (D : External) (B : Backend σ)
    (oldTableName newTableName : String) (w : World σ) : Step σ Unit :=
  if !D.EqualFold oldTableName newTableName then
    execute B (Stmt.RenameTable ("\x7b\x7b" ++ oldTableName ++ "\x7d\x7d")
      ("\x7b\x7b" ++ newTableName ++ "\x7d\x7d")) w
  else (.ok (), w)

/-- The update branch of the transaction body of `SyncRecordTableSchema` (lines 87-168). -/
def syncUpdate {σ : Type} (D : External) (B : Backend σ)
    (newCollection oldCollection : Collection) (w : World σ) : Step σ Unit :=
  match dropCollectionIndex D B oldCollection w with
  | (.error e, w1) => (.error e, w1)
  | (.ok _, w1) =>
    match renameTableIfNeeded D B oldCollection.Name newCollection.Name w1 with
    | (.error e, w2) => (.error e, w2)
    | (.ok _, w2) =>
      match syncColumns D B newCollection.Name oldCollection.Schema newCollection.Schema w2 with
      | (.error e, w3) => (.error e, w3)
      | (.ok _, w3) =>
        match normalizeSingleVsMultipleFieldChanges D B newCollection (some oldCollection) w3 with
        | (.error e, w4) => (.error e, w4)
        | (.ok _, w4) => createCollectionIndexes D B newCollection w4

/-- Modelled from the spec: the constant `schema.FieldNameId` (schema package, not in the
synchronisation file) - the system column `id`. -/
def FieldNameId : String := "id"

/-- Modelled from the spec: the constant `schema.FieldNameCreated` (schema package, not in the
synchronisation file) - the system column `created`. -/
def FieldNameCreated : String := "created"

/-- Modelled from the spec: the constant `schema.FieldNameUpdated` (schema package, not in the
synchronisation file) - the system column `updated`. -/
def FieldNameUpdated : String := "updated"

/-- Modelled from the spec: the constant `schema.FieldNameUsername` (schema package, not in the
synchronisation file) - the auth column `username`. -/
def FieldNameUsername : String := "username"

/-- Modelled from the spec: the constant `schema.FieldNameEmail` (schema package, not in the
synchronisation file) - the auth column `email`. -/
def FieldNameEmail : String := "email"

/-- Modelled from the spec: the constant `schema.FieldNameEmailVisibility` (schema package, not in the
synchronisation file) - the auth column `emailVisibility`. -/
def FieldNameEmailVisibility : String := "emailVisibility"

/-- Modelled from the spec: the constant `schema.FieldNameVerified` (schema package, not in the
synchronisation file) - the auth column `verified`. -/
def FieldNameVerified : String := "verified"

/-- Modelled from the spec: the constant `schema.FieldNameTokenKey` (schema package, not in the
synchronisation file) - the auth column `tokenKey`. -/
def FieldNameTokenKey : String := "tokenKey"

/-- Modelled from the spec: the constant `schema.FieldNamePasswordHash` (schema package, not in the
synchronisation file) - the auth column `passwordHash`. -/
def FieldNamePasswordHash : String := "passwordHash"

/-- Modelled from the spec: the constant `schema.FieldNameLastResetSentAt` (schema package, not in the
synchronisation file) - the auth column `lastResetSentAt`. -/
def FieldNameLastResetSentAt : String := "lastResetSentAt"

/-- Modelled from the spec: the constant `schema.FieldNameLastVerificationSentAt` (schema package, not in the
synchronisation file) - the auth column `lastVerificationSentAt`. -/
def FieldNameLastVerificationSentAt : String := "lastVerificationSentAt"

/-- The column map assembled at lines 26-60 for the CREATE TABLE statement. -/
def createCols (newCollection : Collection) : List (String × String) :=
  let cols0 : List (String × String) :=
    [(FieldNameId, "VARCHAR(100) NOT NULL"),
     (FieldNameCreated, "TIMESTAMP DEFAULT NOW() NOT NULL"),
     (FieldNameUpdated, "TIMESTAMP DEFAULT NOW() NOT NULL")]
  let cols1 :=
    if newCollection.IsAuth then
      mapSet (mapSet (mapSet (mapSet (mapSet (mapSet (mapSet (mapSet cols0
        FieldNameUsername "VARCHAR(255) NOT NULL")
        FieldNameEmail "VARCHAR(100) NOT NULL")
        FieldNameEmailVisibility "TINYINT(1) NOT NULL DEFAULT 0")
        FieldNameVerified "TINYINT(1) NOT NULL DEFAULT 0")
        FieldNameTokenKey "VARCHAR(255) NOT NULL")
        FieldNamePasswordHash "TEXT NOT NULL")
        FieldNameLastResetSentAt "TEXT NOT NULL")
        FieldNameLastVerificationSentAt "TEXT NOT NULL"
    else cols0
  let cols2 := if newCollection.Name = "_params" then mapSet cols1 "value" "JSON NOT NULL" else cols1
  newCollection.Schema.foldl (fun cols field => mapSet cols field.Name field.ColDefinition) cols2

/-- The three unique index statements of an auth collection (lines 69-73). -/
def authIndexes (id tableName : String) : List String :=
  ["CREATE UNIQUE INDEX _" ++ id ++ "_username_idx ON \x7b\x7b" ++ tableName ++
     "\x7d\x7d ([[username]]);",
   "CREATE UNIQUE INDEX _" ++ id ++ "_email_idx ON \x7b\x7b" ++ tableName ++
     "\x7d\x7d ([[email]]);",
   "CREATE UNIQUE INDEX _" ++ id ++ "_tokenKey_idx ON \x7b\x7b" ++ tableName ++
     "\x7d\x7d ([[tokenKey]]);"]

/-- The loop over the auth index statements (lines 74-79). -/
def runQueries {σ : Type} (B : Backend σ) : List String → World σ → Step σ Unit
  | [], w => (.ok (), w)
  | sql :: rest, w =>
    match execute B (Stmt.NewQuery sql) w with
    | (.error e, w1) => (.error e, w1)
    | (.ok _, w1) => runQueries B rest w1

/-- The collection after "ensure that the new collection has an id" (lines 50-53). -/
def ensureId (D : External) (newCollection : Collection) : Collection :=
  if !newCollection.HasId then { newCollection with Id := D.RefreshId } else newCollection

/-- The create branch of the transaction body of `SyncRecordTableSchema` (lines 25-83). -/
def syncCreate {σ : Type} (D : External) (B : Backend σ) (newCollection : Collection)
    (w : World σ) : Step σ Unit :=
  let cols := createCols newCollection
  let newCollection := ensureId D newCollection
  let tableName := newCollection.Name
  match execute B (Stmt.CreateTable tableName cols) w with
  | (.error e, w1) => (.error e, w1)
  | (.ok _, w1) =>
    match (if newCollection.IsAuth then runQueries B (authIndexes newCollection.Id tableName) w1
           else (.ok (), w1)) with
    | (.error e, w2) => (.error e, w2)
    | (.ok _, w2) => createCollectionIndexes D B newCollection w2

/-- The function `SyncRecordTableSchema` (lines 21-170). -/
def SyncRecordTableSchema {σ : Type} (D : External) (B : Backend σ) (newCollection : Collection)
    (oldCollection : Option Collection) (w : World σ) : Step σ Unit :=
  RunInTransaction
    (fun tx =>
      match oldCollection with
      | none => syncCreate D B newCollection tx
      | some old => syncUpdate D B newCollection old tx)
    w

/-! ## The JSON functions of MySQL used by the copy statements -/

/-- JSON whitespace. -/
def isWs (c : Char) : Bool := c = ' ' || c = '\t' || c = '\n' || c = '\r'

/-- Drop leading JSON whitespace. -/
def skipWs : List Char → List Char
  | [] => []
  | c :: cs => if isWs c then skipWs cs else c :: cs

/-- An ASCII decimal digit. -/
def isDigit (c : Char) : Bool := decide (48 ≤ c.toNat) && decide (c.toNat ≤ 57)

/-- Value of a hexadecimal digit. -/
def hexVal (c : Char) : Option Nat :=
  if 48 ≤ c.toNat ∧ c.toNat ≤ 57 then some (c.toNat - 48)
  else if 97 ≤ c.toNat ∧ c.toNat ≤ 102 then some (c.toNat - 87)
  else if 65 ≤ c.toNat ∧ c.toNat ≤ 70 then some (c.toNat - 55)
  else none

/-- The lower-case hexadecimal digit with value `n` (for `n < 16`). -/
def hexDigit (n : Nat) : Char := if n < 10 then Char.ofNat (48 + n) else Char.ofNat (87 + n)

/-- A character that stands for itself inside a JSON string: not the double quote, not
the backslash, not a control character. -/
def plainChar (c : Char) : Bool := c != '"' && c != '\\' && decide (32 ≤ c.toNat)

/-- How the JSON writer of MySQL prints one character of a string. -/
def escapeChar (c : Char) : List Char :=
  if c = '"' then ['\\', '"']
  else if c = '\\' then ['\\', '\\']
  else if c = '\x08' then ['\\', 'b']
  else if c = '\x0c' then ['\\', 'f']
  else if c = '\n' then ['\\', 'n']
  else if c = '\r' then ['\\', 'r']
  else if c = '\t' then ['\\', 't']
  else if c.toNat < 32 then ['\\', 'u', '0', '0', hexDigit (c.toNat / 16), hexDigit (c.toNat % 16)]
  else [c]

/-- How the JSON writer of MySQL prints a string: quoted, with escapes. -/
def quoteJson (s : List Char) : List Char := '"' :: (s.map escapeChar).flatten ++ ['"']

/-- The character a two-character escape of a JSON string stands for. -/
def unescape (e : Char) : Option Char :=
  if e = '"' then some '"'
  else if e = '\\' then some '\\'
  else if e = '/' then some '/'
  else if e = 'b' then some '\x08'
  else if e = 'f' then some '\x0c'
  else if e = 'n' then some '\n'
  else if e = 'r' then some '\r'
  else if e = 't' then some '\t'
  else none

/-- Read a JSON string after its opening quote: the characters it stands for and the
input after the closing quote.  A `\uXXXX` escape is taken as the character with that
code; surrogate pairs are not combined. -/
def scanString : List Char → Option (List Char × List Char)
  | [] => none
  | c :: cs =>
    if c = '"' then some ([], cs)
    else if c = '\\' then
      match cs with
      | [] => none
      | e :: cs1 =>
        if e = 'u' then
          match cs1 with
          | a :: b :: c2 :: d :: cs2 =>
            match hexVal a, hexVal b, hexVal c2, hexVal d with
            | some x, some y, some z, some u =>
              (scanString cs2).map
                (fun p => (Char.ofNat (((x * 16 + y) * 16 + z) * 16 + u) :: p.1, p.2))
            | _, _, _, _ => none
          | _ => none
        else
          match unescape e with
          | none => none
          | some ch => (scanString cs1).map (fun p => (ch :: p.1, p.2))
    else if c.toNat < 32 then none
    else (scanString cs).map (fun p => (c :: p.1, p.2))


/-- Split off the leading decimal digits. -/
def takeDigits : List Char → List Char × List Char
  | [] => ([], [])
  | c :: cs => if isDigit c then ((takeDigits cs).1.cons c, (takeDigits cs).2) else ([], c :: cs)

/-- A JSON number: `-? (0 | [1-9][0-9]*) (. [0-9]+)? ([eE] [+-]? [0-9]+)?`. -/
def scanNumber (cs : List Char) : Option (List Char × List Char) :=
  let signed : List Char × List Char :=
    match cs with
    | c :: r => if c = '-' then (['-'], r) else ([], cs)
    | [] => ([], cs)
  let whole : Option (List Char × List Char) :=
    match signed.2 with
    | c :: r =>
      if c = '0' then some (['0'], r)
      else if isDigit c then some (takeDigits signed.2)
      else none
    | [] => none
  match whole with
  | none => none
  | some (ds, r1) =>
    let frac : Option (List Char × List Char) :=
      match r1 with
      | c :: r2 =>
        if c = '.' then
          (if (takeDigits r2).1 = [] then none
           else some ('.' :: (takeDigits r2).1, (takeDigits r2).2))
        else some ([], r1)
      | [] => some ([], r1)
    match frac with
    | none => none
    | some (fs, r3) =>
      let expo : Option (List Char × List Char) :=
        match r3 with
        | c :: r4 =>
          if c = 'e' ∨ c = 'E' then
            let sg : List Char × List Char :=
              match r4 with
              | s :: r5 => if s = '+' ∨ s = '-' then ([s], r5) else ([], r4)
              | [] => ([], r4)
            (if (takeDigits sg.2).1 = [] then none
             else some (c :: sg.1 ++ (takeDigits sg.2).1, (takeDigits sg.2).2))
          else some ([], r3)
        | [] => some ([], r3)
      match expo with
      | none => none
      | some (es, r6) => some (signed.1 ++ ds ++ fs ++ es, r6)

/-- The kinds of JSON value that `JSON_TYPE` tells apart here. -/
inductive JsonType
  | NULL | BOOLEAN | NUMBER | STRING | ARRAY | OBJECT
deriving DecidableEq, Repr

/-- A JSON value read from text: its kind, the text MySQL prints for it, and its own
text (for a string the characters it stands for, for any other value the printed text). -/
structure JsonItem where
  type : JsonType
  text : List Char
  own : List Char
deriving DecidableEq, Repr

/-- A JSON value together with its elements when it is an array. -/
structure JsonValue where
  item : JsonItem
  elems : List JsonItem
deriving DecidableEq, Repr

/-- Texts separated by a comma and a blank, as MySQL prints array elements. -/
def joinTexts : List (List Char) → List Char
  | [] => []
  | [t] => t
  | t :: ts => t ++ [',', ' '] ++ joinTexts ts

/-- A value that is not an array. -/
def scalarValue (ty : JsonType) (text own : List Char) : JsonValue :=
  { item := { type := ty, text := text, own := own }, elems := [] }

/-- Read one object member `"key" : value`. -/
def jsonMember (value : List Char → Option (JsonValue × List Char)) (cs : List Char) :
    Option (JsonItem × List Char) :=
  match cs with
  | c :: r =>
    if c = '"' then
      match scanString r with
      | none => none
      | some (k, r1) =>
        match skipWs r1 with
        | c1 :: r2 =>
          if c1 = ':' then
            match value (skipWs r2) with
            | none => none
            | some (v, r3) =>
              some ({ type := v.item.type, text := quoteJson k ++ [':', ' '] ++ v.item.text,
                      own := v.item.own }, r3)
          else none
        | [] => none
    else none
  | [] => none

/-- Read comma separated items up to the closing bracket `close`; the first argument
bounds the number of items. -/
def jsonItems (item : List Char → Option (JsonItem × List Char)) (close : Char) :
    Nat → List Char → Option (List JsonItem × List Char)
  | 0, _ => none
  | n + 1, cs =>
    match item cs with
    | none => none
    | some (it, rest) =>
      match skipWs rest with
      | c :: rest2 =>
        if c = ',' then
          (jsonItems item close n (skipWs rest2)).map (fun p => (it :: p.1, p.2))
        else if c = close then some ([it], rest2)
        else none
      | [] => none

/-- Read one JSON value (RFC 8259 grammar); the first argument bounds the nesting depth.
Strings are read and printed as MySQL does, apart from surrogate escapes.  Numbers keep
their text and object members their order and their duplicates, where MySQL prints a
number in its own normal form and an object with its keys sorted and made unique: the
printed text stands for that of MySQL only on documents built from strings, `true`,
`false`, `null` and arrays of these. -/
def jsonValue : Nat → List Char → Option (JsonValue × List Char)
  | 0, _ => none
  | n + 1, cs =>
    match cs with
    | [] => none
    | c :: rest =>
      if c = '[' then
        match skipWs rest with
        | c1 :: r1 =>
          if c1 = ']' then
            some ({ item := { type := JsonType.ARRAY, text := ['[', ']'], own := ['[', ']'] },
                    elems := [] }, r1)
          else
            (jsonItems (fun xs => (jsonValue n xs).map (fun p => (p.1.item, p.2))) ']'
                (c1 :: r1).length (c1 :: r1)).map
              (fun p =>
                ({ item := { type := JsonType.ARRAY,
                             text := '[' :: joinTexts (p.1.map JsonItem.text) ++ [']'],
                             own := '[' :: joinTexts (p.1.map JsonItem.text) ++ [']'] },
                   elems := p.1 }, p.2))
        | [] => none
      else if c = '{' then
        match skipWs rest with
        | c1 :: r1 =>
          if c1 = '}' then some (scalarValue JsonType.OBJECT ['{', '}'] ['{', '}'], r1)
          else
            (jsonItems (jsonMember (jsonValue n)) '}' (c1 :: r1).length (c1 :: r1)).map
              (fun p =>
                (scalarValue JsonType.OBJECT ('{' :: joinTexts (p.1.map JsonItem.text) ++ ['}'])
                  ('{' :: joinTexts (p.1.map JsonItem.text) ++ ['}']), p.2))
        | [] => none
      else if c = '"' then
        (scanString rest).map (fun p => (scalarValue JsonType.STRING (quoteJson p.1) p.1, p.2))
      else if ['t', 'r', 'u', 'e'].isPrefixOf cs then
        some (scalarValue JsonType.BOOLEAN ['t', 'r', 'u', 'e'] ['t', 'r', 'u', 'e'], cs.drop 4)
      else if ['f', 'a', 'l', 's', 'e'].isPrefixOf cs then
        some (scalarValue JsonType.BOOLEAN ['f', 'a', 'l', 's', 'e'] ['f', 'a', 'l', 's', 'e'],
          cs.drop 5)
      else if ['n', 'u', 'l', 'l'].isPrefixOf cs then
        some (scalarValue JsonType.NULL ['n', 'u', 'l', 'l'] ['n', 'u', 'l', 'l'], cs.drop 4)
      else
        (scanNumber cs).map (fun p => (scalarValue JsonType.NUMBER p.1 p.1, p.2))

/-- Read a whole text as one JSON document, whitespace around it allowed. -/
def jsonDocument (s : String) : Option JsonValue :=
  match jsonValue (s.data.length + 1) (skipWs s.data) with
  | none => none
  | some (v, rest) => if skipWs rest = [] then some v else none



/-! ## The copy expressions of the cardinality normalisation

A stored value is `none` for SQL NULL and `some s` for the text `s`.  Text is compared
character by character. -/

/-- A value stored in a text column: NULL or a text. -/
abbrev SqlValue := Option String

/-- The function `COALESCE(v, d)` with a text default. -/
def COALESCE (v : SqlValue) (d : String) : String :=
  match v with
  | none => d
  | some s => s

/-- The function `JSON_VALID(v)`: NULL for NULL. -/
def JSON_VALID (v : SqlValue) : Option Bool := v.map (fun s => (jsonDocument s).isSome)

/-- Name of a JSON kind as `JSON_TYPE` prints it (numbers are not told apart further). -/
def JsonType.name : JsonType → String
  | .NULL => "NULL"
  | .BOOLEAN => "BOOLEAN"
  | .NUMBER => "INTEGER"
  | .STRING => "STRING"
  | .ARRAY => "ARRAY"
  | .OBJECT => "OBJECT"

/-- The function `JSON_TYPE(v)` on a valid document (it is only evaluated after
`JSON_VALID(v)` held). -/
def JSON_TYPE (v : SqlValue) : SqlValue :=
  v.bind (fun s => (jsonDocument s).map (fun d => d.item.type.name))

/-- The condition `JSON_VALID(v) AND JSON_TYPE(v) = 'ARRAY'`, true or not. -/
def isJsonArray (v : SqlValue) : Bool :=
  JSON_VALID v == some true && JSON_TYPE v == some "ARRAY"

/-- The function `JSON_ARRAY(v)` of one text argument, as text: a one-element array
holding the text as a JSON string (`null` for NULL). -/
def JSON_ARRAY (v : SqlValue) : String :=
  match v with
  | none => "[null]"
  | some s => String.mk ('[' :: quoteJson s.data ++ [']'])

/-- The function `JSON_EXTRACT(v, '$[0]')`, as text: the first element of an array
document as `jsonValue` prints it, NULL when there is none; a document that is not an
array is its own first element.  It stands for the function of MySQL where the printed
text of `jsonValue` does. -/
def JSON_EXTRACT_0 (v : SqlValue) : SqlValue :=
  v.bind (fun s =>
    match jsonDocument s with
    | none => none
    | some d =>
      if d.item.type = JsonType.ARRAY then d.elems.head?.map (fun e => String.mk e.text)
      else some (String.mk d.item.text))

/-- Replace every occurrence of the non-empty `old` by `new`, left to right; the first
argument bounds the number of steps. -/
def replaceAllChars (old new : List Char) : Nat → List Char → List Char
  | 0, cs => cs
  | _ + 1, [] => []
  | n + 1, c :: cs =>
    if old ≠ [] ∧ old.isPrefixOf (c :: cs) then
      new ++ replaceAllChars old new n ((c :: cs).drop old.length)
    else c :: replaceAllChars old new n cs

/-- The function `REPLACE(v, old, new)`: NULL for NULL. -/
def REPLACE (v : SqlValue) (old new : String) : SqlValue :=
  v.map (fun s => String.mk (replaceAllChars old.data new.data s.data.length s.data))

/-- The single -> multiple CASE expression (lines 221-230) on the stored value `v`. -/
def singleToMultiple (v : SqlValue) : SqlValue :=
  if COALESCE v "" = "" then some "[]"
  else if isJsonArray v then v
  else some (JSON_ARRAY v)

/-- The multiple -> single CASE expression (lines 247-257) on the stored value `v`. -/
def multipleToSingle (v : SqlValue) : SqlValue :=
  if COALESCE v "[]" = "[]" then some ""
  else if isJsonArray v then some (COALESCE (REPLACE (JSON_EXTRACT_0 v) "\"" "") "")
  else v

/-! ## The multiple -> single copy expression over any JSON reader

The JSON functions belong to the database server.  Here the copy expression is read
once more with the reader left open: `read s` is `none` when `JSON_VALID` is 0 for the
text `s`, and else the value the server reads, with the text the server prints for it
and for each of its elements. -/

/-- What the JSON functions of the database make of a text. -/
structure JsonReader where
  /-- The value read from a text, `none` when the text is no valid JSON document. -/
  read : String → Option JsonValue

/-- The function `JSON_VALID(v)`: NULL for NULL. -/
def JsonReader.JSON_VALID (R : JsonReader) (v : SqlValue) : Option Bool :=
  v.map (fun s => (R.read s).isSome)

/-- The function `JSON_TYPE(v)` on a valid document (it is only evaluated after
`JSON_VALID(v)` held). -/
def JsonReader.JSON_TYPE (R : JsonReader) (v : SqlValue) : SqlValue :=
  v.bind (fun s => (R.read s).map (fun d => d.item.type.name))

/-- The condition `JSON_VALID(v) AND JSON_TYPE(v) = 'ARRAY'`, true or not. -/
def JsonReader.isJsonArray (R : JsonReader) (v : SqlValue) : Bool :=
  R.JSON_VALID v == some true && R.JSON_TYPE v == some "ARRAY"

/-- The function `JSON_EXTRACT(v, '$[0]')`, as text: the printed text of the first element
of an array document, NULL when there is none; a document that is not an array is its own
first element. -/
def JsonReader.JSON_EXTRACT_0 (R : JsonReader) (v : SqlValue) : SqlValue :=
  v.bind (fun s =>
    match R.read s with
    | none => none
    | some d =>
      if d.item.type = JsonType.ARRAY then d.elems.head?.map (fun e => String.mk e.text)
      else some (String.mk d.item.text))

/-- The multiple -> single CASE expression (lines 247-257) on the stored value `v`. -/
def JsonReader.multipleToSingle (R : JsonReader) (v : SqlValue) : SqlValue :=
  if COALESCE v "[]" = "[]" then some ""
  else if R.isJsonArray v then some (COALESCE (REPLACE (R.JSON_EXTRACT_0 v) "\"" "") "")
  else v

/-- The three-case definition of the multiple -> single conversion in the words of the
specification: an absent value and the empty array `[]` give the empty text, a well-formed
array its first element as the element's own text (an array without elements the empty
text), anything else is copied. -/
def JsonReader.multipleToSingleSpec (R : JsonReader) (v : SqlValue) : SqlValue :=
  match v with
  | none => some ""
  | some s =>
    if s = "[]" then some ""
    else
      match R.read s with
      | none => some s
      | some d =>
        if d.item.type = JsonType.ARRAY then
          (match d.elems with
           | [] => some ""
           | e :: _ => some (String.mk e.own))
        else some s

/-- The three-case definition, amended: an absent value and the empty array `[]` give the
empty text, a well-formed array the printed text of its first element with every double
quote removed (an array without elements the empty text), anything else is copied. -/
def JsonReader.multipleToSingleStripped (R : JsonReader) (v : SqlValue) : SqlValue :=
  match v with
  | none => some ""
  | some s =>
    if s = "[]" then some ""
    else
      match R.read s with
      | none => some s
      | some d =>
        if d.item.type = JsonType.ARRAY then
          (match d.elems with
           | [] => some ""
           | e :: _ => some (String.mk (e.text.filter (fun ch => ch != '"'))))
        else some s

/-- The first element of an array document needs no escape and holds no double quote of
its own: a string of plain characters, or a value that is not a string and is printed
without a double quote.  True when there is no first element. -/
def JsonReader.plainFirstElement (R : JsonReader) (v : SqlValue) : Bool :=
  match v with
  | none => true
  | some s =>
    match R.read s with
    | none => true
    | some d =>
      match d.elems with
      | [] => true
      | e :: _ =>
        if e.type = JsonType.STRING then e.own.all plainChar
        else e.text.all (fun ch => ch != '"')

/-- The reader written out above, `jsonDocument`. -/
def textReader : JsonReader := { read := jsonDocument }

/-! ## A table as a map from column names to column data -/

/-- A table: the data of each column it has. -/
abbrev Table (δ : Type) := String → Option δ

/-- The table with column `c` set to `v` (`none` removes the column). -/
def Table.set {δ : Type} (T : Table δ) (c : String) (v : Option δ) : Table δ :=
  fun x => if x = c then v else T x

/-- What a column statement does to a table: dropping or renaming a column that is not
there fails, adding or renaming to a name that is there fails; the other statements leave
the columns alone.  An added column holds `fresh`. -/
def tableExec {δ : Type} (fresh : δ) (s : Stmt) (T : Table δ) : Except String (Table δ) :=
  match s with
  | .DropColumn _ c =>
    (match T c with
     | some _ => .ok (T.set c none)
     | none => .error ("unknown column " ++ c))
  | .AddColumn _ c _ =>
    (match T c with
     | none => .ok (T.set c (some fresh))
     | some _ => .error ("duplicate column " ++ c))
  | .RenameColumn _ a b =>
    (match T a, T b with
     | some d, none => .ok ((T.set a none).set b (some d))
     | some _, some _ => .error ("duplicate column " ++ b)
     | none, _ => .error ("unknown column " ++ a))
  | _ => .ok T

/-- The database that is one table of columns. -/
def tableBackend {δ : Type} (fresh : δ) : Backend (Table δ) :=
  { exec := tableExec fresh, indexRows := fun _ _ _ => .ok 0 }

/-- The table holding one column per field of a schema, with the data `data` gives
for the field id. -/
def tableOf {δ : Type} (schema : List SchemaField) (data : String → δ) : Table δ :=
  fun c => (schema.find? (fun f => f.Name == c)).map (fun f => data f.Id)

/-! ## Concrete collaborators for worked examples -/

/-- Split a text at blanks. -/
def splitWords : List Char → List (List Char)
  | [] => [[]]
  | c :: cs =>
    if c = ' ' then [] :: splitWords cs
    else
      match splitWords cs with
      | [] => [[c]]
      | w :: ws => (c :: w) :: ws

/-- Modelled from the spec: a stand-in for `dbutils.ParseIndex` (tools/dbutils, not in the
synchronisation file) reading `CREATE [UNIQUE] INDEX name ON table (columns)` written
with single blanks into "target table, index name, uniqueness, expression". -/
def demoParseIndex (raw : String) : Index :=
  match (splitWords raw.data).map String.mk with
  | ["CREATE", "INDEX", name, "ON", table, cols] =>
    { Unique := false, IndexName := name, TableName := table, Columns := cols }
  | ["CREATE", "UNIQUE", "INDEX", name, "ON", table, cols] =>
    { Unique := true, IndexName := name, TableName := table, Columns := cols }
  | _ => { Unique := false, IndexName := "", TableName := "", Columns := "" }

/-- Modelled from the spec: a stand-in for `Index.IsValid` (tools/dbutils) - the parsed
index names an index, a table and columns. -/
def demoIsValid (idx : Index) : Bool :=
  idx.IndexName != "" && idx.TableName != "" && idx.Columns != ""

/-- Modelled from the spec: a stand-in for `Index.Build` (tools/dbutils) - "the CREATE INDEX
(or CREATE UNIQUE INDEX) statement". -/
def demoBuild (idx : Index) : String :=
  "CREATE " ++ (if idx.Unique then "UNIQUE " else "") ++ "INDEX " ++ idx.IndexName ++ " ON " ++
    idx.TableName ++ " " ++ idx.Columns

/-- Equality of texts up to the case of the ASCII letters, as `strings.EqualFold` decides
it for ASCII texts. -/
def asciiEqualFold (s t : String) : Bool := s.data.map Char.toLower == t.data.map Char.toLower

/-- Concrete collaborators: the stand-in index parser, suffixes `_tmp0`, `_tmp1`, ...,
ASCII case folding, and a map visited in reverse order of insertion. -/
def demoExternal : External :=
  { ParseIndex := demoParseIndex
    IsValid := demoIsValid
    Build := demoBuild
    PseudorandomString := fun n => "_tmp" ++ Itoa n
    EqualFold := asciiEqualFold
    RefreshId := "r0a1b2c3d4e5f6"
    rangeOrder := List.reverse }

/-- A database without state: the statements `failing` picks fail, every index lookup
finds `rows` rows. -/
def scriptedBackend (failing : Stmt → Bool) (rows : Nat) : Backend Unit :=
  { exec := fun s _ => if failing s then .error "statement failed" else .ok ()
    indexRows := fun _ _ _ => .ok rows }

/-- The world before anything was issued. -/
def World.start {σ : Type} (db : σ) : World σ := { db := db, log := [], rng := 0, inTx := false }


/-! ## Collections of the worked examples -/

/-- A base collection `posts` with two valid index specs. -/
def postsTwoIndexes : Collection :=
  { Id := "c1", Name := "posts", Kind := CollectionType.base, Schema := [],
    Indexes := ["CREATE INDEX idx_a ON posts (a)", "CREATE INDEX idx_b ON posts (b)"] }

/-- A base collection `posts` with one non-unique and one unique index spec. -/
def postsPlainAndUnique : Collection :=
  { Id := "c1", Name := "posts", Kind := CollectionType.base, Schema := [],
    Indexes := ["CREATE INDEX idx_a ON posts (a)", "CREATE UNIQUE INDEX idx_b ON posts (b)"] }

/-- A base collection `posts` whose index spec names the table `users`. -/
def postsForeignIndex : Collection :=
  { Id := "c1", Name := "posts", Kind := CollectionType.base, Schema := [],
    Indexes := ["CREATE INDEX idx_u ON users (a)"] }

/-- A base collection `posts` with one invalid and one valid index spec. -/
def postsBadAndGood : Collection :=
  { Id := "c1", Name := "posts", Kind := CollectionType.base, Schema := [],
    Indexes := ["CREATE INDEX", "CREATE INDEX idx_a ON posts (a)"] }

/-- A database in which every statement succeeds and every looked-up index exists. -/
def allExist : Backend Unit := scriptedBackend (fun _ => false) 1

/-- A database in which every statement succeeds and no looked-up index exists. -/
def noneExist : Backend Unit := scriptedBackend (fun _ => false) 0

/-! ## Reading the log -/

/-- The table a column statement addresses (`none` for the other statements). -/
def Stmt.columnTable : Stmt → Option String
  | .DropColumn t _ => some t
  | .AddColumn t _ _ => some t
  | .RenameColumn t _ _ => some t
  | _ => none

/-- The statement renames a table. -/
def Stmt.isRenameTable : Stmt → Bool
  | .RenameTable _ _ => true
  | _ => false

/-- The statement is an index statement: the metadata lookup or a `NewQuery` text. -/
def Stmt.isIndexStmt : Stmt → Bool
  | .SelectIndexes _ _ => true
  | .NewQuery _ => true
  | _ => false

/-- The world `w2` continues `w1` by statements that all satisfy `P`. -/
def Extends {σ : Type} (P : Stmt → Prop) (w1 w2 : World σ) : Prop :=
  ∃ ext : List Stmt, w2.log = w1.log ++ ext ∧ ∀ s ∈ ext, P s

/-- The statement may follow the table rename: it renames no table, and if it is a column
statement it addresses the table `tbl`. -/
def Stmt.addresses (tbl : String) (s : Stmt) : Prop :=
  s.isRenameTable = false ∧ (s.columnTable = none ∨ s.columnTable = some tbl)

/-- The collection `Posts` before an edit: two fields `x` and `y`. -/
def postsBefore : Collection :=
  { Id := "c1", Name := "Posts", Kind := CollectionType.base,
    Schema := [{ Id := "fa", Name := "x", Options := none, ColDefinition := "TEXT" },
               { Id := "fb", Name := "y", Options := none, ColDefinition := "TEXT" }],
    Indexes := [] }

/-- The collection after the edit: renamed to `articles`, the two fields swap their names. -/
def articlesAfter : Collection :=
  { Id := "c1", Name := "articles", Kind := CollectionType.base,
    Schema := [{ Id := "fa", Name := "y", Options := none, ColDefinition := "TEXT" },
               { Id := "fb", Name := "x", Options := none, ColDefinition := "TEXT" }],
    Indexes := [] }

/-- The collection `Posts` without fields. -/
def upperPosts : Collection :=
  { Id := "c1", Name := "Posts", Kind := CollectionType.base, Schema := [], Indexes := [] }

/-- The same collection renamed to `posts`. -/
def lowerPosts : Collection :=
  { Id := "c1", Name := "posts", Kind := CollectionType.base, Schema := [], Indexes := [] }

/-- A collection `posts` without fields. -/
def postsNoFields : Collection :=
  { Id := "c1", Name := "posts", Kind := CollectionType.base, Schema := [], Indexes := [] }

/-- The collection `posts` with a new multi-valued field `tags`. -/
def postsWithTags : Collection :=
  { Id := "c1", Name := "posts", Kind := CollectionType.base,
    Schema := [{ Id := "f1", Name := "tags", Options := some true, ColDefinition := "JSON" }],
    Indexes := [] }

/-- The collection `posts` with the field `tags` single-valued and a field `title`. -/
def postsSingleTag : Collection :=
  { Id := "c1", Name := "posts", Kind := CollectionType.base,
    Schema := [{ Id := "f1", Name := "tags", Options := some false, ColDefinition := "TEXT" },
               { Id := "f2", Name := "title", Options := none, ColDefinition := "TEXT" }],
    Indexes := [] }

/-- The collection `posts` with the field `tags` multi-valued and a field `title`. -/
def postsMultiTag : Collection :=
  { Id := "c1", Name := "posts", Kind := CollectionType.base,
    Schema := [{ Id := "f1", Name := "tags", Options := some true, ColDefinition := "JSON" },
               { Id := "f2", Name := "title", Options := none, ColDefinition := "TEXT" }],
    Indexes := [] }

/-- The statements by which a field is normalised under the temporary name `temp`
(lines 210-287). -/
def normalizeStmts (table temp : String) (f : SchemaField) (wasMultiple nowMultiple : Bool) :
    List Stmt :=
  [Stmt.AddColumn table temp f.ColDefinition,
   copyQuery table temp f.Name wasMultiple nowMultiple,
   Stmt.DropColumn table f.Name,
   Stmt.RenameColumn table temp f.Name]

/-- Position `i` of the index specs of `c` is rejected by the create loop started in the
world `w`: there is a spec at `i`, and it is invalid or its CREATE statement fails in the
world the loop has reached after the specs before `i`. -/
def indexRejected {σ : Type} (D : External) (B : Backend σ) (c : Collection) (w : World σ)
    (i : Nat) : Bool :=
  match c.Indexes[i]? with
  | none => false
  | some idx =>
    !D.IsValid (parsedFor D c idx) ||
    (match (execute B (Stmt.NewQuery (createIndexSql D (parsedFor D c idx)))
        (createIndexesLoop D B c 0 (c.Indexes.take i) [] w).2).1 with
     | .error _ => true
     | .ok _ => false)

/-- The validation error the create loop started in the world `w` records for position `i`
of the index specs of `c`: the error of an invalid spec, the error of a CREATE statement
that fails in the world the loop has reached after the specs before `i`, none when the
CREATE statement is accepted or there is no position `i`. -/
def indexError {σ : Type} (D : External) (B : Backend σ) (c : Collection) (w : World σ)
    (i : Nat) : Option ValidationError :=
  match c.Indexes[i]? with
  | none => none
  | some idx =>
    if !D.IsValid (parsedFor D c idx) then some invalidIndexError
    else
      match (execute B (Stmt.NewQuery (createIndexSql D (parsedFor D c idx)))
          (createIndexesLoop D B c 0 (c.Indexes.take i) [] w).2).1 with
      | .error e => some (failedIndexError (parsedFor D c idx).IndexName e.text)
      | .ok _ => none

/-- The keyed errors of all positions, in the order of the positions: the entry of position
`i` has the decimal text of `i` as key. -/
def indexErrors {σ : Type} (D : External) (B : Backend σ) (c : Collection) (w : World σ) :
    List (String × ValidationError) :=
  (List.range c.Indexes.length).filterMap
    (fun i => (indexError D B c w i).map (fun e => (Itoa i, e)))

/-- A database that keeps the statements it has executed, oldest first; every statement
succeeds and no looked-up index exists. -/
def recordingBackend : Backend (List Stmt) :=
  { exec := fun s db => .ok (db ++ [s]), indexRows := fun _ _ _ => .ok 0 }

/-- The number a decimal text stands for. -/
def decimalValue (l : List Char) : Nat := l.foldl (fun acc ch => 10 * acc + (ch.toNat - 48)) 0

/-- A database in which dropping an index fails (say, a foreign key needs it); every
looked-up index exists. -/
def dropIndexFails : Backend Unit :=
  scriptedBackend (fun s => s = Stmt.NewQuery "DROP INDEX [[idx_a]] ON [[posts]]") 1

/-- A database in which creating the index `idx_a` fails (say, the column is missing); no
looked-up index exists. -/
def createIndexFails : Backend Unit :=
  scriptedBackend (fun s => s = Stmt.NewQuery "CREATE FULLTEXT INDEX idx_a ON posts (a)") 0

/-- The collection `posts` with a valid index spec followed by an invalid one. -/
def postsGoodAndBad : Collection :=
  { Id := "c1", Name := "posts", Kind := CollectionType.base, Schema := [],
    Indexes := ["CREATE INDEX idx_a ON posts (a)", "CREATE INDEX"] }

/-- The DROP COLUMN statements of the old fields `olds`: one for each field whose Id no
field of the new schema carries. -/
def dropStmts (tbl : String) (news olds : List SchemaField) : List Stmt :=
  (olds.map (fun g =>
    if (GetFieldById news g.Id).isNone then [Stmt.DropColumn tbl g.Name] else [])).flatten

/-- The statements `ss` are what the first pass issues for the new field `f`: an ADD COLUMN
under a temporary name when no old field has its Id, a RENAME COLUMN from the old name to
a temporary name when the old field with its Id has another Name, nothing when that old
field has the same Name. -/
def firstPassFor (tbl : String) (olds : List SchemaField) (f : SchemaField)
    (ss : List Stmt) : Prop :=
  match GetFieldById olds f.Id with
  | none => ∃ suffix : String, ss = [Stmt.AddColumn tbl (f.Name ++ suffix) f.ColDefinition]
  | some g =>
    if g.Name = f.Name then ss = []
    else ∃ suffix : String, ss = [Stmt.RenameColumn tbl g.Name (f.Name ++ suffix)]

/-- An old schema: fields `x`, `y`, `gone` and `keep`. -/
def schemaBefore : List SchemaField :=
  [{ Id := "fa", Name := "x", Options := none, ColDefinition := "TEXT" },
   { Id := "fb", Name := "y", Options := none, ColDefinition := "TEXT" },
   { Id := "fc", Name := "gone", Options := none, ColDefinition := "TEXT" },
   { Id := "fd", Name := "keep", Options := none, ColDefinition := "TEXT" }]

/-- The new schema: `x` and `y` swap their names, `gone` is removed, `keep` is unchanged and
`fresh` is added. -/
def schemaAfter : List SchemaField :=
  [{ Id := "fa", Name := "y", Options := none, ColDefinition := "TEXT" },
   { Id := "fb", Name := "x", Options := none, ColDefinition := "TEXT" },
   { Id := "fd", Name := "keep", Options := none, ColDefinition := "TEXT" },
   { Id := "fe", Name := "fresh", Options := none, ColDefinition := "TEXT" }]

/-- The texts of a read item fit together: a string is printed as its quoted own text, any
other value has its printed text as own text. -/
def JsonItem.wf (e : JsonItem) : Prop :=
  (e.type = JsonType.STRING → e.text = quoteJson e.own) ∧
  (e.type ≠ JsonType.STRING → e.own = e.text)

/-- The multiple -> single conversion read off the value `jsonDocument` reads: an absent
or empty array gives the empty text, a well-formed array the printed text of its first
element with every double quote removed, anything else is copied. -/
def multipleToSingleStripped (v : SqlValue) : SqlValue :=
  match v with
  | none => some ""
  | some s =>
    match jsonDocument s with
    | none => some s
    | some d =>
      if d.item.type = JsonType.ARRAY then
        (match d.elems with
         | [] => some ""
         | e :: _ => some (String.mk (e.text.filter (fun ch => ch != '"'))))
      else some s

/-! ## The column plan of the update path, read on a table -/

/-- The column a statement takes away: the dropped column, or the old name of a rename. -/
def Stmt.src : Stmt → Option String
  | .DropColumn _ c => some c
  | .RenameColumn _ a _ => some a
  | _ => none

/-- The column a statement brings in: the added column, or the new name of a rename. -/
def Stmt.dst : Stmt → Option String
  | .AddColumn _ c _ => some c
  | .RenameColumn _ _ b => some b
  | _ => none

/-- The statement is a column statement. -/
def Stmt.isColumn : Stmt → Bool
  | .DropColumn _ _ => true
  | .AddColumn _ _ _ => true
  | .RenameColumn _ _ _ => true
  | _ => false

/-- Two statements take away different columns and bring in different columns. -/
def Stmt.independent (s t : Stmt) : Prop :=
  (∀ a, s.src = some a → t.src ≠ some a) ∧ (∀ b, s.dst = some b → t.dst ≠ some b)

/-- Run statements on a table one after the other; `none` when one of them fails. -/
def runTable {δ : Type} (fresh : δ) : List Stmt → Table δ → Option (Table δ)
  | [], T => some T
  | s :: rest, T =>
    match tableExec fresh s T with
    | .ok T1 => runTable fresh rest T1
    | .error _ => none

/-- The statements the first pass issues for the new fields, the `n`-th call of
`PseudorandomString` being the next one. -/
def firstPassStmts (D : External) (tbl : String) (olds : List SchemaField) :
    List SchemaField → Nat → List Stmt
  | [], _ => []
  | f :: rest, n =>
    match GetFieldById olds f.Id with
    | none =>
      Stmt.AddColumn tbl (f.Name ++ D.PseudorandomString n) f.ColDefinition ::
        firstPassStmts D tbl olds rest (n + 1)
    | some g =>
      if g.Name = f.Name then firstPassStmts D tbl olds rest n
      else
        Stmt.RenameColumn tbl g.Name (f.Name ++ D.PseudorandomString n) ::
          firstPassStmts D tbl olds rest (n + 1)

/-- The entries (temporary name, final name) the first pass records, in order. -/
def firstPassRenames (D : External) (olds : List SchemaField) :
    List SchemaField → Nat → List (String × String)
  | [], _ => []
  | f :: rest, n =>
    match GetFieldById olds f.Id with
    | none => (f.Name ++ D.PseudorandomString n, f.Name) :: firstPassRenames D olds rest (n + 1)
    | some g =>
      if g.Name = f.Name then firstPassRenames D olds rest n
      else (f.Name ++ D.PseudorandomString n, f.Name) :: firstPassRenames D olds rest (n + 1)

/-- The temporary names the first pass generates, in order. -/
def tempNames (D : External) (olds news : List SchemaField) (n : Nat) : List String :=
  (firstPassRenames D olds news n).map Prod.fst

/-- The map `toRename` when the first pass is over: the entries the first pass records,
assigned one after the other to the empty map. -/
def recordedRenames (D : External) (olds news : List SchemaField) (n : Nat) :
    List (String × String) :=
  (firstPassRenames D olds news n).foldl (fun m p => mapSet m p.1 p.2) []

/-- The assumptions under which the column statements are read on a table: field Ids and
field names are unique in the old and in the new schema; the temporary names generated
from the `n`-th call of `PseudorandomString` on are distinct from each other and from every
old and new column name; and `range` visits each recorded entry once, in some order. -/
structure CleanMigration (D : External) (olds news : List SchemaField) (n : Nat) : Prop where
  oldIds : (olds.map SchemaField.Id).Nodup
  oldNames : (olds.map SchemaField.Name).Nodup
  newIds : (news.map SchemaField.Id).Nodup
  newNames : (news.map SchemaField.Name).Nodup
  temps : (tempNames D olds news n).Nodup
  tempsOld : ∀ t ∈ tempNames D olds news n, t ∉ olds.map SchemaField.Name
  tempsNew : ∀ t ∈ tempNames D olds news n, t ∉ news.map SchemaField.Name
  order : (D.rangeOrder (firstPassRenames D olds news n)).Perm (firstPassRenames D olds news n)

/-- The data a column of the new schema must hold: the data of the old column with the same
Id, or `fresh` data when no old field has the Id. -/
def migratedData {δ : Type} (fresh : δ) (olds : List SchemaField) (data : String → δ)
    (id : String) : δ :=
  if (GetFieldById olds id).isSome then data id else fresh

/-- Column data for the worked example: the column of the field with Id `id` holds the
text `data of id`. -/
def exampleData (id : String) : String := "data of " ++ id

/-! ## The create path, in the words of the specification -/

/-- The three system columns with their fixed definitions. -/
def systemCols : List (String × String) :=
  [("id", "VARCHAR(100) NOT NULL"),
   ("created", "TIMESTAMP DEFAULT NOW() NOT NULL"),
   ("updated", "TIMESTAMP DEFAULT NOW() NOT NULL")]

/-- The eight columns of an auth collection with their fixed definitions. -/
def authCols : List (String × String) :=
  [("username", "VARCHAR(255) NOT NULL"),
   ("email", "VARCHAR(100) NOT NULL"),
   ("emailVisibility", "TINYINT(1) NOT NULL DEFAULT 0"),
   ("verified", "TINYINT(1) NOT NULL DEFAULT 0"),
   ("tokenKey", "VARCHAR(255) NOT NULL"),
   ("passwordHash", "TEXT NOT NULL"),
   ("lastResetSentAt", "TEXT NOT NULL"),
   ("lastVerificationSentAt", "TEXT NOT NULL")]

/-- The fixed columns of a collection: the system columns, the auth columns exactly when
the collection is of kind auth, the column `value` exactly when it is named `_params`. -/
def fixedCols (c : Collection) : List (String × String) :=
  systemCols ++ (if c.IsAuth then authCols else []) ++
    (if c.Name = "_params" then [("value", "JSON NOT NULL")] else [])

/-- The column of a schema field: its Name with its ColDefinition. -/
def fieldCol (f : SchemaField) : String × String := (f.Name, f.ColDefinition)

/-- The names of the three unique indexes of the auth collection with Id `id`. -/
def authIndexNames (id : String) : List String :=
  ["_" ++ id ++ "_username_idx", "_" ++ id ++ "_email_idx", "_" ++ id ++ "_tokenKey_idx"]

/-- The statement creating the unique index `name` on the column `col` of `tableName`. -/
def authIndexSql (tableName : String) (name col : String) : String :=
  "CREATE UNIQUE INDEX " ++ name ++ " ON \x7b\x7b" ++ tableName ++ "\x7d\x7d ([[" ++ col ++ "]]);"

/-- The statements of the create path that come before the reconciliation of the
collection's own indexes: CREATE TABLE, then the three unique index statements exactly
when the collection is of kind auth. -/
def createPrelude (D : External) (c : Collection) : List Stmt :=
  Stmt.CreateTable c.Name (createCols c) ::
    (if c.IsAuth then (authIndexes (ensureId D c).Id c.Name).map Stmt.NewQuery else [])

/-- An auth collection `users` without Id yet, with the fields `name` and `age`. -/
def usersAuth : Collection :=
  { Id := "", Name := "users", Kind := CollectionType.auth,
    Schema := [{ Id := "f1", Name := "name", Options := none, ColDefinition := "TEXT" },
               { Id := "f2", Name := "age", Options := none, ColDefinition := "NUMERIC" }],
    Indexes := [] }

/-- The old collection of a failing edit: fields `x` and `y`. -/
def clashBefore : Collection :=
  { Id := "c1", Name := "posts", Kind := CollectionType.base,
    Schema := [{ Id := "fa", Name := "x", Options := none, ColDefinition := "TEXT" },
               { Id := "fb", Name := "y", Options := none, ColDefinition := "TEXT" }],
    Indexes := [] }

/-- The new collection of the failing edit: both fields are renamed to `z`. -/
def clashAfter : Collection :=
  { Id := "c1", Name := "posts", Kind := CollectionType.base,
    Schema := [{ Id := "fa", Name := "z", Options := none, ColDefinition := "TEXT" },
               { Id := "fb", Name := "z", Options := none, ColDefinition := "TEXT" }],
    Indexes := [] }

/-! ## Basic facts about steps -/

@[simp] theorem execute_log {σ : Type} (B : Backend σ) (s : Stmt) (w : World σ) :
    (execute B s w).2.log = w.log ++ [s] := by
  unfold execute; split <;> rfl

@[simp] theorem execute_rng {σ : Type} (B : Backend σ) (s : Stmt) (w : World σ) :
    (execute B s w).2.rng = w.rng := by
  unfold execute; split <;> rfl

@[simp] theorem execute_inTx {σ : Type} (B : Backend σ) (s : Stmt) (w : World σ) :
    (execute B s w).2.inTx = w.inTx := by
  unfold execute; split <;> rfl

@[simp] theorem queryIndexes_log {σ : Type} (B : Backend σ) (t i : String) (w : World σ) :
    (queryIndexes B t i w).2.log = w.log ++ [Stmt.SelectIndexes t i] := by
  unfold queryIndexes; split <;> rfl

@[simp] theorem enter_log {σ : Type} (w : World σ) : w.enter.log = w.log := rfl

@[simp] theorem enter_rng {σ : Type} (w : World σ) : w.enter.rng = w.rng := rfl

@[simp] theorem enter_db {σ : Type} (w : World σ) : w.enter.db = w.db := rfl

theorem enter_of_inTx {σ : Type} (w : World σ) (h : w.inTx = true) : w.enter = w := by
  cases w; simp_all [World.enter]

theorem RunInTransaction_fst {σ : Type} (fn : World σ → Step σ Unit) (w : World σ) :
    (RunInTransaction fn w).1 = (fn w.enter).1 := by
  unfold RunInTransaction
  by_cases h : w.inTx = true
  · simp [h, enter_of_inTx w h]
  · simp only [h]
    rcases hfn : fn w.enter with ⟨r, w1⟩
    cases r <;> simp

theorem RunInTransaction_log {σ : Type} (fn : World σ → Step σ Unit) (w : World σ) :
    (RunInTransaction fn w).2.log = (fn w.enter).2.log := by
  unfold RunInTransaction
  by_cases h : w.inTx = true
  · simp [h, enter_of_inTx w h]
  · simp only [h]
    rcases hfn : fn w.enter with ⟨r, w1⟩
    cases r <;> simp

theorem RunInTransaction_rng {σ : Type} (fn : World σ → Step σ Unit) (w : World σ) :
    (RunInTransaction fn w).2.rng = (fn w.enter).2.rng := by
  unfold RunInTransaction
  by_cases h : w.inTx = true
  · simp [h, enter_of_inTx w h]
  · simp only [h]
    rcases hfn : fn w.enter with ⟨r, w1⟩
    cases r <;> simp

/-! ## Continuations of the log -/

theorem Extends.refl {σ : Type} (P : Stmt → Prop) (w : World σ) : Extends P w w :=
  ⟨[], by simp, by simp⟩

theorem Extends.trans {σ : Type} {P : Stmt → Prop} {w1 w2 w3 : World σ}
    (h12 : Extends P w1 w2) (h23 : Extends P w2 w3) : Extends P w1 w3 := by
  obtain ⟨e1, he1, hp1⟩ := h12
  obtain ⟨e2, he2, hp2⟩ := h23
  refine ⟨e1 ++ e2, by rw [he2, he1, List.append_assoc], ?_⟩
  intro s hs
  rcases List.mem_append.mp hs with h | h
  · exact hp1 s h
  · exact hp2 s h

theorem Extends.of_log_eq {σ : Type} {P : Stmt → Prop} {w1 w2 w3 : World σ}
    (h : Extends P w1 w2) (hlog : w3.log = w2.log) : Extends P w1 w3 := by
  obtain ⟨e, he, hp⟩ := h
  exact ⟨e, by rw [hlog, he], hp⟩

theorem Extends.from_log_eq {σ : Type} {P : Stmt → Prop} {w0 w1 w2 : World σ}
    (h : Extends P w1 w2) (hlog : w0.log = w1.log) : Extends P w0 w2 := by
  obtain ⟨e, he, hp⟩ := h
  exact ⟨e, by rw [hlog, he], hp⟩

theorem Extends.execute {σ : Type} {P : Stmt → Prop} (B : Backend σ) (s : Stmt) (w : World σ)
    (hs : P s) : Extends P w (execute B s w).2 :=
  ⟨[s], by simp, by simpa using hs⟩

theorem Extends.queryIndexes {σ : Type} {P : Stmt → Prop} (B : Backend σ) (t i : String)
    (w : World σ) (hs : P (Stmt.SelectIndexes t i)) : Extends P w (queryIndexes B t i w).2 :=
  ⟨[Stmt.SelectIndexes t i], by simp, by simpa using hs⟩

theorem Extends.runInTransaction {σ : Type} {P : Stmt → Prop} (fn : World σ → Step σ Unit)
    (w : World σ) (h : Extends P w.enter (fn w.enter).2) :
    Extends P w (RunInTransaction fn w).2 :=
  (h.of_log_eq (RunInTransaction_log fn w)).from_log_eq (enter_log w).symm

theorem Extends.mono {σ : Type} {P Q : Stmt → Prop} {w1 w2 : World σ}
    (h : Extends P w1 w2) (hPQ : ∀ s, P s → Q s) : Extends Q w1 w2 := by
  obtain ⟨e, he, hp⟩ := h
  exact ⟨e, he, fun s hs => hPQ s (hp s hs)⟩

theorem dropCollectionIndexLoop_extends {σ : Type} (D : External) (B : Backend σ)
    (P : Stmt → Prop) (hP : ∀ s, s.isIndexStmt = true → P s) (l : List String) (w : World σ) :
    Extends P w (dropCollectionIndexLoop D B l w).2 := by
  induction l generalizing w with
  | nil => exact Extends.refl P w
  | cons raw rest ih =>
    unfold dropCollectionIndexLoop
    by_cases hv : D.IsValid (D.ParseIndex raw) = true
    · simp only [hv, Bool.not_true, Bool.false_eq_true, if_false]
      have hq := Extends.queryIndexes (P := P) B (D.ParseIndex raw).TableName
        (D.ParseIndex raw).IndexName w (hP _ rfl)
      rcases hqe : queryIndexes B (D.ParseIndex raw).TableName (D.ParseIndex raw).IndexName w
        with ⟨r, w1⟩
      rw [hqe] at hq
      cases r with
      | error e => exact hq
      | ok n =>
        simp only
        by_cases hn : n > 0
        · simp only [hn, if_true]
          have hx := Extends.execute (P := P) B
            (Stmt.NewQuery (dropIndexSql (D.ParseIndex raw).IndexName
              (D.ParseIndex raw).TableName)) w1 (hP _ rfl)
          rcases hxe : execute B (Stmt.NewQuery (dropIndexSql (D.ParseIndex raw).IndexName
              (D.ParseIndex raw).TableName)) w1 with ⟨r2, w2⟩
          rw [hxe] at hx
          cases r2 <;> exact hq.trans hx
        · simp only [hn, if_false]
          exact hq
    · simp only [hv, Bool.not_false, if_true]
      simpa using ih w

theorem dropCollectionIndex_extends {σ : Type} (D : External) (B : Backend σ)
    (P : Stmt → Prop) (hP : ∀ s, s.isIndexStmt = true → P s) (c : Collection) (w : World σ) :
    Extends P w (dropCollectionIndex D B c w).2 := by
  unfold dropCollectionIndex
  split
  · exact Extends.refl P w
  · exact Extends.runInTransaction _ w (dropCollectionIndexLoop_extends D B P hP _ _)

theorem createIndexesLoop_extends {σ : Type} (D : External) (B : Backend σ)
    (P : Stmt → Prop) (hP : ∀ s, s.isIndexStmt = true → P s) (c : Collection)
    (l : List String) (i : Nat) (errs : List (String × ValidationError)) (w : World σ) :
    Extends P w (createIndexesLoop D B c i l errs w).2 := by
  induction l generalizing i errs w with
  | nil => exact Extends.refl P w
  | cons idx rest ih =>
    unfold createIndexesLoop
    by_cases hv : D.IsValid (parsedFor D c idx) = true
    · simp only [hv, Bool.not_true, Bool.false_eq_true, if_false]
      have hx := Extends.execute (P := P) B
        (Stmt.NewQuery (createIndexSql D (parsedFor D c idx))) w (hP _ rfl)
      rcases hxe : execute B (Stmt.NewQuery (createIndexSql D (parsedFor D c idx))) w
        with ⟨r, w1⟩
      rw [hxe] at hx
      cases r <;> exact hx.trans (ih _ _ _)
    · simp only [hv, Bool.not_false, if_true]
      exact ih _ _ _

theorem createCollectionIndexes_extends {σ : Type} (D : External) (B : Backend σ)
    (P : Stmt → Prop) (hP : ∀ s, s.isIndexStmt = true → P s) (c : Collection) (w : World σ) :
    Extends P w (createCollectionIndexes D B c w).2 := by
  unfold createCollectionIndexes
  split
  · exact Extends.refl P w
  · refine Extends.runInTransaction _ w ?_
    unfold createCollectionIndexesBody
    have hd := dropCollectionIndex_extends D B P hP c w.enter
    rcases hde : dropCollectionIndex D B c w.enter with ⟨r, w1⟩
    rw [hde] at hd
    cases r with
    | error e => exact hd
    | ok u =>
      simp only
      have hl := createIndexesLoop_extends D B P hP c c.Indexes 0 [] w1
      rcases hle : createIndexesLoop D B c 0 c.Indexes [] w1 with ⟨errs, w2⟩
      rw [hle] at hl
      simp only
      split <;> exact hd.trans hl

theorem addresses_of_index {tbl : String} (s : Stmt) (h : s.isIndexStmt = true) :
    s.addresses tbl := by
  cases s <;> simp_all [Stmt.isIndexStmt, Stmt.addresses, Stmt.isRenameTable, Stmt.columnTable]

theorem addresses_of_column {tbl : String} (s : Stmt) (h : s.columnTable = some tbl) :
    s.addresses tbl := by
  cases s <;> simp_all [Stmt.addresses, Stmt.isRenameTable, Stmt.columnTable]

theorem dropDeletedColumns_extends {σ : Type} (B : Backend σ) (tbl : String)
    (news olds : List SchemaField) (w : World σ) :
    Extends (Stmt.addresses tbl) w (dropDeletedColumns B tbl news olds w).2 := by
  induction olds generalizing w with
  | nil => exact Extends.refl _ w
  | cons g rest ih =>
    unfold dropDeletedColumns
    cases GetFieldById news g.Id with
    | some f => exact ih w
    | none =>
      simp only
      have hx := Extends.execute (P := Stmt.addresses tbl) B (Stmt.DropColumn tbl g.Name) w
        (addresses_of_column _ rfl)
      rcases hxe : execute B (Stmt.DropColumn tbl g.Name) w with ⟨r, w1⟩
      rw [hxe] at hx
      cases r with
      | error e => exact hx
      | ok u => exact hx.trans (ih w1)

theorem addOrRenameColumns_extends {σ : Type} (D : External) (B : Backend σ) (tbl : String)
    (olds news : List SchemaField) (m : List (String × String)) (w : World σ) :
    Extends (Stmt.addresses tbl) w (addOrRenameColumns D B tbl olds news m w).2 := by
  induction news generalizing m w with
  | nil => exact Extends.refl _ w
  | cons f rest ih =>
    unfold addOrRenameColumns
    cases GetFieldById olds f.Id with
    | none =>
      simp only
      have hx := Extends.execute (P := Stmt.addresses tbl) B
        (Stmt.AddColumn tbl (f.Name ++ D.PseudorandomString w.rng) f.ColDefinition)
        { w with rng := w.rng + 1 } (addresses_of_column _ rfl)
      rcases hxe : execute B
        (Stmt.AddColumn tbl (f.Name ++ D.PseudorandomString w.rng) f.ColDefinition)
        { w with rng := w.rng + 1 } with ⟨r, w1⟩
      rw [hxe] at hx
      cases r with
      | error e => exact hx
      | ok u => exact hx.trans (ih _ w1)
    | some g =>
      simp only
      split
      · have hx := Extends.execute (P := Stmt.addresses tbl) B
          (Stmt.RenameColumn tbl g.Name (f.Name ++ D.PseudorandomString w.rng))
          { w with rng := w.rng + 1 } (addresses_of_column _ rfl)
        rcases hxe : execute B
          (Stmt.RenameColumn tbl g.Name (f.Name ++ D.PseudorandomString w.rng))
          { w with rng := w.rng + 1 } with ⟨r, w1⟩
        rw [hxe] at hx
        cases r with
        | error e => exact hx
        | ok u => exact hx.trans (ih _ w1)
      · exact ih _ w

theorem applyRenames_extends {σ : Type} (B : Backend σ) (tbl : String)
    (m : List (String × String)) (w : World σ) :
    Extends (Stmt.addresses tbl) w (applyRenames B tbl m w).2 := by
  induction m generalizing w with
  | nil => exact Extends.refl _ w
  | cons p rest ih =>
    obtain ⟨t, a⟩ := p
    unfold applyRenames
    have hx := Extends.execute (P := Stmt.addresses tbl) B (Stmt.RenameColumn tbl t a) w
      (addresses_of_column _ rfl)
    rcases hxe : execute B (Stmt.RenameColumn tbl t a) w with ⟨r, w1⟩
    rw [hxe] at hx
    cases r with
    | error e => exact hx
    | ok u => exact hx.trans (ih w1)

theorem syncColumns_extends {σ : Type} (D : External) (B : Backend σ) (tbl : String)
    (olds news : List SchemaField) (w : World σ) :
    Extends (Stmt.addresses tbl) w (syncColumns D B tbl olds news w).2 := by
  unfold syncColumns
  have h1 := dropDeletedColumns_extends B tbl news olds w
  rcases h1e : dropDeletedColumns B tbl news olds w with ⟨r1, w1⟩
  rw [h1e] at h1
  cases r1 with
  | error e => exact h1
  | ok u =>
    simp only
    have h2 := addOrRenameColumns_extends D B tbl olds news [] w1
    rcases h2e : addOrRenameColumns D B tbl olds news [] w1 with ⟨r2, w2⟩
    rw [h2e] at h2
    cases r2 with
    | error e => exact h1.trans h2
    | ok m => exact (h1.trans h2).trans (applyRenames_extends B tbl _ w2)

theorem copyQuery_addresses (tbl t o : String) (a b : Bool) :
    (copyQuery tbl t o a b).addresses tbl := by
  unfold copyQuery
  split <;> simp [Stmt.addresses, Stmt.isRenameTable, Stmt.columnTable]

theorem normalizeLoop_extends {σ : Type} (D : External) (B : Backend σ)
    (newC oldC : Collection) (l : List SchemaField) (w : World σ) :
    Extends (Stmt.addresses newC.Name) w (normalizeLoop D B newC oldC l w).2 := by
  induction l generalizing w with
  | nil => exact Extends.refl _ w
  | cons f rest ih =>
    unfold normalizeLoop
    split
    · exact ih w
    · simp only
      have hx1 := Extends.execute (P := Stmt.addresses newC.Name) B
        (Stmt.AddColumn newC.Name ("_" ++ f.Name ++ D.PseudorandomString w.rng) f.ColDefinition)
        { w with rng := w.rng + 1 } (addresses_of_column _ rfl)
      rcases hx1e : execute B
        (Stmt.AddColumn newC.Name ("_" ++ f.Name ++ D.PseudorandomString w.rng) f.ColDefinition)
        { w with rng := w.rng + 1 } with ⟨r1, w1⟩
      rw [hx1e] at hx1
      cases r1 with
      | error e => exact hx1
      | ok u1 =>
        simp only
        have hx2 := Extends.execute (P := Stmt.addresses newC.Name) B
          (copyQuery newC.Name ("_" ++ f.Name ++ D.PseudorandomString w.rng) f.Name
            (isOldMultiple oldC f) (isNewMultiple f)) w1 (copyQuery_addresses _ _ _ _ _)
        rcases hx2e : execute B
          (copyQuery newC.Name ("_" ++ f.Name ++ D.PseudorandomString w.rng) f.Name
            (isOldMultiple oldC f) (isNewMultiple f)) w1 with ⟨r2, w2⟩
        rw [hx2e] at hx2
        cases r2 with
        | error e => exact hx1.trans hx2
        | ok u2 =>
          simp only
          have hx3 := Extends.execute (P := Stmt.addresses newC.Name) B
            (Stmt.DropColumn newC.Name f.Name) w2 (addresses_of_column _ rfl)
          rcases hx3e : execute B (Stmt.DropColumn newC.Name f.Name) w2 with ⟨r3, w3⟩
          rw [hx3e] at hx3
          cases r3 with
          | error e => exact (hx1.trans hx2).trans hx3
          | ok u3 =>
            simp only
            have hx4 := Extends.execute (P := Stmt.addresses newC.Name) B
              (Stmt.RenameColumn newC.Name ("_" ++ f.Name ++ D.PseudorandomString w.rng) f.Name)
              w3 (addresses_of_column _ rfl)
            rcases hx4e : execute B
              (Stmt.RenameColumn newC.Name ("_" ++ f.Name ++ D.PseudorandomString w.rng) f.Name)
              w3 with ⟨r4, w4⟩
            rw [hx4e] at hx4
            cases r4 with
            | error e => exact ((hx1.trans hx2).trans hx3).trans hx4
            | ok u4 => exact (((hx1.trans hx2).trans hx3).trans hx4).trans (ih w4)

theorem normalize_extends {σ : Type} (D : External) (B : Backend σ)
    (newC : Collection) (oldC : Option Collection) (w : World σ) :
    Extends (Stmt.addresses newC.Name) w
      (normalizeSingleVsMultipleFieldChanges D B newC oldC w).2 := by
  unfold normalizeSingleVsMultipleFieldChanges
  cases oldC with
  | none => exact Extends.refl _ w
  | some o =>
    simp only
    split
    · exact Extends.refl _ w
    · exact Extends.runInTransaction _ w (normalizeLoop_extends D B newC o _ _)

/-! ## Facts about the JSON reader and writer -/

theorem replaceAll_quote (n : Nat) (cs : List Char) (h : cs.length ≤ n) :
    replaceAllChars ['"'] [] n cs = cs.filter (fun c => c != '"') := by
  induction n generalizing cs with
  | zero =>
    have : cs = [] := List.length_eq_zero.mp (by omega)
    subst this
    simp [replaceAllChars]
  | succ n ih =>
    cases cs with
    | nil => simp [replaceAllChars]
    | cons c rest =>
      simp only [List.length_cons] at h
      unfold replaceAllChars
      by_cases hc : c = '"'
      · subst hc
        simp [List.isPrefixOf, ih rest (by omega)]
      · have : (['"'].isPrefixOf (c :: rest)) = false := by
          simp [List.isPrefixOf, Ne.symm hc]
        simp [this, hc, ih rest (by omega)]

theorem escapeChar_plain (c : Char) (h : plainChar c = true) : escapeChar c = [c] := by
  simp only [plainChar, Bool.and_eq_true, bne_iff_ne, ne_eq, decide_eq_true_eq] at h
  obtain ⟨⟨h1, h2⟩, h3⟩ := h
  unfold escapeChar
  have e1 : c ≠ '\x08' := by rintro rfl; revert h3; decide
  have e2 : c ≠ '\x0c' := by rintro rfl; revert h3; decide
  have e3 : c ≠ '\n' := by rintro rfl; revert h3; decide
  have e4 : c ≠ '\r' := by rintro rfl; revert h3; decide
  have e5 : c ≠ '\t' := by rintro rfl; revert h3; decide
  have e6 : ¬ c.toNat < 32 := by omega
  simp [h1, h2, e1, e2, e3, e4, e5, e6]

theorem quoteJson_plain (s : List Char) (h : ∀ c ∈ s, plainChar c = true) :
    quoteJson s = '"' :: s ++ ['"'] := by
  have : (s.map escapeChar).flatten = s := by
    induction s with
    | nil => rfl
    | cons c rest ih =>
      simp only [List.map_cons, List.flatten_cons]
      rw [escapeChar_plain c (h c (by simp)), ih (fun d hd => h d (by simp [hd]))]
      rfl
  simp [quoteJson, this]

theorem scanString_quote (rest : List Char) : scanString ('"' :: rest) = some ([], rest) := by
  rw [scanString.eq_def]
  simp

theorem scanString_cons_plain (c : Char) (cs : List Char) (h : plainChar c = true) :
    scanString (c :: cs) = (scanString cs).map (fun p => (c :: p.1, p.2)) := by
  simp only [plainChar, Bool.and_eq_true, bne_iff_ne, ne_eq, decide_eq_true_eq] at h
  obtain ⟨⟨h1, h2⟩, h3⟩ := h
  have e6 : ¬ c.toNat < 32 := by omega
  rw [scanString.eq_def]
  simp [h1, h2, e6]

theorem scanString_plain (s rest : List Char) (h : ∀ c ∈ s, plainChar c = true) :
    scanString (s ++ '"' :: rest) = some (s, rest) := by
  induction s with
  | nil => exact scanString_quote rest
  | cons c cs ih =>
    simp only [List.cons_append]
    rw [scanString_cons_plain c _ (h c (by simp)), ih (fun d hd => h d (by simp [hd]))]
    rfl


theorem jsonValue_string (n : Nat) (r : List Char) :
    jsonValue (n + 1) ('"' :: r) =
      (scanString r).map (fun p => (scalarValue JsonType.STRING (quoteJson p.1) p.1, p.2)) := by
  rw [jsonValue]
  simp

theorem jsonItems_last (item : List Char → Option (JsonItem × List Char)) (close : Char)
    (n : Nat) (cs rest : List Char) (it : JsonItem) (hclose : close ≠ ',')
    (h : item cs = some (it, close :: rest)) (hws : isWs close = false) :
    jsonItems item close (n + 1) cs = some ([it], rest) := by
  rw [jsonItems]
  simp [h, skipWs, hws, hclose]

theorem jsonValue_singleton (n : Nat) (s : List Char) (h : ∀ c ∈ s, plainChar c = true) :
    jsonValue (n + 2) ('[' :: '"' :: s ++ ['"', ']']) =
      some ({ item := { type := JsonType.ARRAY, text := '[' :: quoteJson s ++ [']'],
                        own := '[' :: quoteJson s ++ [']'] },
              elems := [{ type := JsonType.STRING, text := quoteJson s, own := s }] }, []) := by
  have hitem : (fun xs => (jsonValue (n + 1) xs).map (fun p => (p.1.item, p.2)))
      ('"' :: s ++ ['"', ']']) =
      some ({ type := JsonType.STRING, text := quoteJson s, own := s }, ']' :: []) := by
    simp only [List.cons_append]
    rw [jsonValue_string, scanString_plain s [']'] h]
    rfl
  show jsonValue (n + 1 + 1) ('[' :: '"' :: s ++ ['"', ']']) = _
  simp only [List.cons_append]
  rw [jsonValue]
  have hws : skipWs ('"' :: (s ++ ['"', ']'])) = '"' :: (s ++ ['"', ']']) := by
    simp [skipWs, isWs]
  simp only [hws, if_true]
  have hne : ('"' : Char) ≠ ']' := by decide
  simp only [hne, if_false]
  rw [List.length_cons, jsonItems_last _ ']' _ _ [] _ (by decide) hitem (by decide)]
  simp [joinTexts]


theorem jsonItems_forall (P : JsonItem → Prop)
    (item : List Char → Option (JsonItem × List Char)) (close : Char)
    (hitem : ∀ xs it r, item xs = some (it, r) → P it) :
    ∀ (n : Nat) (cs : List Char) (its : List JsonItem) (r : List Char),
      jsonItems item close n cs = some (its, r) → ∀ e ∈ its, P e := by
  intro n
  induction n with
  | zero => intro cs its r h; simp [jsonItems] at h
  | succ n ih =>
    intro cs its r h
    rw [jsonItems] at h
    cases hi : item cs with
    | none => simp [hi] at h
    | some p =>
      obtain ⟨it, rest⟩ := p
      simp only [hi] at h
      have hP := hitem cs it rest hi
      cases hs : skipWs rest with
      | nil => simp [hs] at h
      | cons c rest2 =>
        simp only [hs] at h
        by_cases hc : c = ','
        · simp only [hc, if_true, Option.map_eq_some'] at h
          obtain ⟨q, hq, hq2⟩ := h
          obtain ⟨its2, r2⟩ := q
          simp only [Prod.mk.injEq] at hq2
          obtain ⟨rfl, rfl⟩ := hq2
          intro e he
          rcases List.mem_cons.mp he with rfl | he
          · exact hP
          · exact ih _ _ _ hq e he
        · simp only [hc, if_false] at h
          by_cases hcl : c = close
          · simp only [hcl, if_true, Option.some.injEq, Prod.mk.injEq] at h
            obtain ⟨rfl, rfl⟩ := h
            intro e he
            simp only [List.mem_singleton] at he
            subst he
            exact hP
          · simp [hcl] at h

theorem scalarValue_wf (ty : JsonType) (t : List Char) (h : ty ≠ JsonType.STRING) :
    (scalarValue ty t t).item.wf ∧ ∀ e ∈ (scalarValue ty t t).elems, e.wf := by
  simp [scalarValue, JsonItem.wf, h]

theorem jsonValue_wf : ∀ (n : Nat) (cs : List Char) (v : JsonValue) (r : List Char),
    jsonValue n cs = some (v, r) → v.item.wf ∧ ∀ e ∈ v.elems, e.wf := by
  intro n
  induction n with
  | zero => intro cs v r h; simp [jsonValue] at h
  | succ n ih =>
    intro cs v r h
    cases cs with
    | nil => simp [jsonValue] at h
    | cons c rest =>
      rw [jsonValue] at h
      split_ifs at h with h1 h2 h3 h4 h5 h6
      · -- array
        split at h
        · rename_i c1 r1 hs
          split_ifs at h with hc1
          · simp only [Option.some.injEq, Prod.mk.injEq] at h
            obtain ⟨rfl, rfl⟩ := h
            simp [JsonItem.wf]
          · simp only [Option.map_eq_some'] at h
            obtain ⟨q, hq, hq2⟩ := h
            simp only [Prod.mk.injEq] at hq2
            obtain ⟨rfl, rfl⟩ := hq2
            refine ⟨by simp [JsonItem.wf], ?_⟩
            refine jsonItems_forall JsonItem.wf _ ']' ?_ _ _ _ _ hq
            intro xs it r2 hit
            simp only [Option.map_eq_some'] at hit
            obtain ⟨p, hp, hp2⟩ := hit
            obtain ⟨v2, r3⟩ := p
            simp only [Prod.mk.injEq] at hp2
            obtain ⟨rfl, rfl⟩ := hp2
            exact (ih _ _ _ hp).1
        · simp at h
      · -- object
        split at h
        · split_ifs at h with hc1
          · simp only [Option.some.injEq, Prod.mk.injEq] at h
            obtain ⟨rfl, rfl⟩ := h
            exact scalarValue_wf _ _ (by decide)
          · simp only [Option.map_eq_some'] at h
            obtain ⟨q, hq, hq2⟩ := h
            simp only [Prod.mk.injEq] at hq2
            obtain ⟨rfl, rfl⟩ := hq2
            exact scalarValue_wf _ _ (by decide)
        · simp at h
      · -- string
        simp only [Option.map_eq_some'] at h
        obtain ⟨q, hq, hq2⟩ := h
        simp only [Prod.mk.injEq] at hq2
        obtain ⟨rfl, rfl⟩ := hq2
        simp [scalarValue, JsonItem.wf]
      · simp only [Option.some.injEq, Prod.mk.injEq] at h
        obtain ⟨rfl, rfl⟩ := h
        exact scalarValue_wf _ _ (by decide)
      · simp only [Option.some.injEq, Prod.mk.injEq] at h
        obtain ⟨rfl, rfl⟩ := h
        exact scalarValue_wf _ _ (by decide)
      · simp only [Option.some.injEq, Prod.mk.injEq] at h
        obtain ⟨rfl, rfl⟩ := h
        exact scalarValue_wf _ _ (by decide)
      · simp only [Option.map_eq_some'] at h
        obtain ⟨q, hq, hq2⟩ := h
        simp only [Prod.mk.injEq] at hq2
        obtain ⟨rfl, rfl⟩ := hq2
        exact scalarValue_wf _ _ (by decide)

theorem jsonDocument_wf (s : String) (d : JsonValue) (h : jsonDocument s = some d) :
    d.item.wf ∧ ∀ e ∈ d.elems, e.wf := by
  unfold jsonDocument at h
  split at h
  · simp at h
  · rename_i v rest hv
    split_ifs at h
    simp only [Option.some.injEq] at h
    subst h
    exact jsonValue_wf _ _ _ _ hv

theorem typeName_eq_array (t : JsonType) : (t.name == "ARRAY") = true ↔ t = JsonType.ARRAY := by
  cases t <;> simp [JsonType.name]

theorem isJsonArray_some (s : String) :
    isJsonArray (some s) =
      (match jsonDocument s with
       | none => false
       | some d => decide (d.item.type = JsonType.ARRAY)) := by
  have hunf : isJsonArray (some s) =
      (some (jsonDocument s).isSome == some true &&
        (jsonDocument s).map (fun d => d.item.type.name) == some "ARRAY") := rfl
  rw [hunf]
  cases h : jsonDocument s with
  | none => rfl
  | some d =>
    by_cases ht : d.item.type = JsonType.ARRAY
    · simp [ht, JsonType.name]
    · have hn : (d.item.type.name == "ARRAY") = false := by
        rw [Bool.eq_false_iff]
        intro hc
        exact ht ((typeName_eq_array _).mp hc)
      have hn2 : ¬ d.item.type.name = "ARRAY" := by simpa using hn
      simp [ht, hn2]

theorem multipleToSingle_eq_stripped (v : SqlValue) :
    multipleToSingle v = multipleToSingleStripped v := by
  cases v with
  | none => rfl
  | some s =>
    unfold multipleToSingle
    by_cases hs : s = "[]"
    · subst hs
      decide
    · have hc : ¬ COALESCE (some s) "[]" = "[]" := by simpa [COALESCE] using hs
      simp only [hc, if_false]
      rw [isJsonArray_some]
      have hx : JSON_EXTRACT_0 (some s) =
          (match jsonDocument s with
           | none => none
           | some d =>
             if d.item.type = JsonType.ARRAY then d.elems.head?.map (fun e => String.mk e.text)
             else some (String.mk d.item.text)) := rfl
      rw [hx]
      have hst : multipleToSingleStripped (some s) =
          (match jsonDocument s with
           | none => some s
           | some d =>
             if d.item.type = JsonType.ARRAY then
               (match d.elems with
                | [] => some ""
                | e :: _ => some (String.mk (e.text.filter (fun ch => ch != '"'))))
             else some s) := rfl
      rw [hst]
      cases hd : jsonDocument s with
      | none => simp
      | some d =>
        by_cases ht : d.item.type = JsonType.ARRAY
        · simp only [ht, decide_True, if_true]
          cases he : d.elems with
          | nil => rfl
          | cons e rest =>
            have hr : REPLACE (some (String.mk e.text)) "\"" "" =
                some (String.mk (replaceAllChars ['"'] [] e.text.length e.text)) := rfl
            simp only [List.head?_cons, Option.map_some', hr, COALESCE]
            rw [replaceAll_quote _ _ (Nat.le_refl _)]
        · simp [ht]

theorem filter_quote_plain (s : List Char) (h : ∀ c ∈ s, plainChar c = true) :
    s.filter (fun ch => ch != '"') = s := by
  rw [List.filter_eq_self]
  intro c hc
  have := h c hc
  simp only [plainChar, Bool.and_eq_true] at this
  exact this.1.1

/-! ## C1: column operations are decided by field identity -/

theorem dropDeletedColumns_ok {σ : Type} (B : Backend σ) (tbl : String)
    (news olds : List SchemaField) (w : World σ)
    (hok : (dropDeletedColumns B tbl news olds w).1 = .ok ()) :
    (dropDeletedColumns B tbl news olds w).2.log = w.log ++ dropStmts tbl news olds := by
  induction olds generalizing w with
  | nil => simp [dropDeletedColumns, dropStmts]
  | cons g rest ih =>
    unfold dropDeletedColumns at hok ⊢
    cases hg : GetFieldById news g.Id with
    | some f =>
      simp only [hg] at hok ⊢
      rw [ih w hok]
      simp [dropStmts, hg]
    | none =>
      simp only [hg] at hok ⊢
      have hl := execute_log B (Stmt.DropColumn tbl g.Name) w
      rcases hx : execute B (Stmt.DropColumn tbl g.Name) w with ⟨r, w1⟩
      rw [hx] at hok hl
      cases r with
      | error e => simp at hok
      | ok u =>
        simp only at hok hl ⊢
        rw [ih w1 hok, hl]
        simp [dropStmts, hg]

theorem dropDeletedColumns_rng {σ : Type} (B : Backend σ) (tbl : String)
    (news olds : List SchemaField) (w : World σ) :
    (dropDeletedColumns B tbl news olds w).2.rng = w.rng := by
  induction olds generalizing w with
  | nil => simp [dropDeletedColumns]
  | cons g rest ih =>
    unfold dropDeletedColumns
    cases hg : GetFieldById news g.Id with
    | some f =>
      simp only [hg]
      exact ih w
    | none =>
      simp only [hg]
      have hr := execute_rng B (Stmt.DropColumn tbl g.Name) w
      rcases hx : execute B (Stmt.DropColumn tbl g.Name) w with ⟨r, w1⟩
      rw [hx] at hr
      cases r with
      | error e => simpa using hr
      | ok u =>
        simp only at hr ⊢
        rw [ih w1, hr]

theorem addOrRenameColumns_plan {σ : Type} (D : External) (B : Backend σ) (tbl : String)
    (olds news : List SchemaField) (m m2 : List (String × String)) (w : World σ)
    (hok : (addOrRenameColumns D B tbl olds news m w).1 = .ok m2) :
    (addOrRenameColumns D B tbl olds news m w).2.log =
        w.log ++ firstPassStmts D tbl olds news w.rng ∧
    m2 = (firstPassRenames D olds news w.rng).foldl (fun acc p => mapSet acc p.1 p.2) m := by
  induction news generalizing m w with
  | nil =>
    simp only [addOrRenameColumns, Except.ok.injEq] at hok
    simp [addOrRenameColumns, firstPassStmts, firstPassRenames, hok]
  | cons f rest ih =>
    unfold addOrRenameColumns at hok ⊢
    unfold firstPassStmts firstPassRenames
    cases hg : GetFieldById olds f.Id with
    | none =>
      simp only [hg] at hok ⊢
      have hl := execute_log B
        (Stmt.AddColumn tbl (f.Name ++ D.PseudorandomString w.rng) f.ColDefinition)
        { w with rng := w.rng + 1 }
      have hr := execute_rng B
        (Stmt.AddColumn tbl (f.Name ++ D.PseudorandomString w.rng) f.ColDefinition)
        { w with rng := w.rng + 1 }
      rcases hx : execute B
        (Stmt.AddColumn tbl (f.Name ++ D.PseudorandomString w.rng) f.ColDefinition)
        { w with rng := w.rng + 1 } with ⟨r, w1⟩
      rw [hx] at hok hl hr
      cases r with
      | error e => simp at hok
      | ok u =>
        simp only at hok hl hr ⊢
        obtain ⟨hlog, hmap⟩ := ih _ w1 hok
        rw [hr] at hlog hmap
        exact ⟨by rw [hlog, hl]; simp, by simpa using hmap⟩
    | some g =>
      simp only [hg] at hok ⊢
      by_cases hn : g.Name = f.Name
      · simp only [hn, bne_self_eq_false, Bool.false_eq_true, if_false, if_true] at hok ⊢
        exact ih _ w hok
      · have hne : (g.Name != f.Name) = true := by simpa using hn
        simp only [hne, hn, if_true, if_false] at hok ⊢
        have hl := execute_log B
          (Stmt.RenameColumn tbl g.Name (f.Name ++ D.PseudorandomString w.rng))
          { w with rng := w.rng + 1 }
        have hr := execute_rng B
          (Stmt.RenameColumn tbl g.Name (f.Name ++ D.PseudorandomString w.rng))
          { w with rng := w.rng + 1 }
        rcases hx : execute B
          (Stmt.RenameColumn tbl g.Name (f.Name ++ D.PseudorandomString w.rng))
          { w with rng := w.rng + 1 } with ⟨r, w1⟩
        rw [hx] at hok hl hr
        cases r with
        | error e => simp at hok
        | ok u =>
          simp only at hok hl hr ⊢
          obtain ⟨hlog, hmap⟩ := ih _ w1 hok
          rw [hr] at hlog hmap
          exact ⟨by rw [hlog, hl]; simp, by simpa using hmap⟩

theorem applyRenames_ok {σ : Type} (B : Backend σ) (tbl : String)
    (m : List (String × String)) (w : World σ)
    (hok : (applyRenames B tbl m w).1 = .ok ()) :
    (applyRenames B tbl m w).2.log =
      w.log ++ m.map (fun p => Stmt.RenameColumn tbl p.1 p.2) := by
  induction m generalizing w with
  | nil => simp [applyRenames]
  | cons p rest ih =>
    obtain ⟨t, a⟩ := p
    unfold applyRenames at hok ⊢
    have hl := execute_log B (Stmt.RenameColumn tbl t a) w
    rcases hx : execute B (Stmt.RenameColumn tbl t a) w with ⟨r, w1⟩
    rw [hx] at hok hl
    cases r with
    | error e => simp at hok
    | ok u =>
      simp only at hok hl ⊢
      rw [ih w1 hok, hl]
      simp

theorem firstPassStmts_per_field (D : External) (tbl : String) (olds : List SchemaField) :
    ∀ (news : List SchemaField) (n : Nat),
      ∃ per : List (List Stmt),
        firstPassStmts D tbl olds news n = per.flatten ∧
        List.Forall₂ (firstPassFor tbl olds) news per := by
  intro news
  induction news with
  | nil => intro n; exact ⟨[], by simp [firstPassStmts], List.Forall₂.nil⟩
  | cons f rest ih =>
    intro n
    unfold firstPassStmts
    cases hg : GetFieldById olds f.Id with
    | none =>
      obtain ⟨per, hflat, hrel⟩ := ih (n + 1)
      refine ⟨[Stmt.AddColumn tbl (f.Name ++ D.PseudorandomString n) f.ColDefinition] :: per,
        by simp [hflat], List.Forall₂.cons ?_ hrel⟩
      simp only [firstPassFor, hg]
      exact ⟨_, rfl⟩
    | some g =>
      simp only
      by_cases hn : g.Name = f.Name
      · obtain ⟨per, hflat, hrel⟩ := ih n
        refine ⟨[] :: per, by simp [hn, hflat], List.Forall₂.cons ?_ hrel⟩
        simp [firstPassFor, hg, hn]
      · obtain ⟨per, hflat, hrel⟩ := ih (n + 1)
        refine ⟨[Stmt.RenameColumn tbl g.Name (f.Name ++ D.PseudorandomString n)] :: per,
          by simp [hn, hflat], List.Forall₂.cons ?_ hrel⟩
        simp only [firstPassFor, hg, hn, if_false]
        exact ⟨_, rfl⟩

theorem mem_mapSet {β : Type} (m : List (String × β)) (k : String) (v : β) (p : String × β)
    (h : p ∈ mapSet m k v) : p = (k, v) ∨ p ∈ m := by
  induction m with
  | nil => simpa [mapSet] using h
  | cons q rest ih =>
    obtain ⟨k0, v0⟩ := q
    unfold mapSet at h
    by_cases hk : k0 = k
    · simp only [hk, if_true, List.mem_cons] at h
      rcases h with h | h
      · exact Or.inl h
      · exact Or.inr (List.mem_cons_of_mem _ h)
    · simp only [hk, if_false, List.mem_cons] at h
      rcases h with h | h
      · exact Or.inr (by simp [h])
      · rcases ih h with h2 | h2
        · exact Or.inl h2
        · exact Or.inr (List.mem_cons_of_mem _ h2)

theorem mem_foldl_mapSet (l m : List (String × String)) (p : String × String)
    (h : p ∈ l.foldl (fun acc q => mapSet acc q.1 q.2) m) : p ∈ m ∨ p ∈ l := by
  induction l generalizing m with
  | nil => exact Or.inl (by simpa using h)
  | cons q rest ih =>
    simp only [List.foldl_cons] at h
    rcases ih _ h with h2 | h2
    · rcases mem_mapSet m q.1 q.2 p h2 with h3 | h3
      · exact Or.inr (by simp [h3])
      · exact Or.inl h3
    · exact Or.inr (List.mem_cons_of_mem _ h2)

theorem firstPassRenames_entry (D : External) (olds : List SchemaField) :
    ∀ (news : List SchemaField) (n : Nat) (p : String × String),
      p ∈ firstPassRenames D olds news n →
      ∃ f ∈ news, p.2 = f.Name ∧ (∃ suffix : String, p.1 = f.Name ++ suffix) ∧
        (GetFieldById olds f.Id = none ∨
          ∃ g, GetFieldById olds f.Id = some g ∧ g.Name ≠ f.Name) := by
  intro news
  induction news with
  | nil => intro n p h; simp [firstPassRenames] at h
  | cons f rest ih =>
    intro n p h
    unfold firstPassRenames at h
    cases hg : GetFieldById olds f.Id with
    | none =>
      simp only [hg, List.mem_cons] at h
      rcases h with rfl | h
      · exact ⟨f, by simp, rfl, ⟨_, rfl⟩, Or.inl hg⟩
      · obtain ⟨f2, hf2, h1, h2, h3⟩ := ih (n + 1) p h
        exact ⟨f2, List.mem_cons_of_mem _ hf2, h1, h2, h3⟩
    | some g =>
      simp only [hg] at h
      by_cases hn : g.Name = f.Name
      · simp only [hn, if_true] at h
        obtain ⟨f2, hf2, h1, h2, h3⟩ := ih n p h
        exact ⟨f2, List.mem_cons_of_mem _ hf2, h1, h2, h3⟩
      · simp only [hn, if_false, List.mem_cons] at h
        rcases h with rfl | h
        · exact ⟨f, by simp, rfl, ⟨_, rfl⟩, Or.inr ⟨g, hg, hn⟩⟩
        · obtain ⟨f2, hf2, h1, h2, h3⟩ := ih (n + 1) p h
          exact ⟨f2, List.mem_cons_of_mem _ hf2, h1, h2, h3⟩

/-- C1: when the column phase of the update path (lines 107-162) succeeds, the statements
it has issued are exactly these, in order.  For the old fields, a DROP COLUMN of the old
name for each field whose Id no new field carries, and none for the others.  Then for the
new fields, field by field: an ADD COLUMN under a temporary name when no old field has the
Id, a RENAME COLUMN from the old name to a temporary name when the old field with the Id
has another Name, and nothing when it has the same Name.  Last the second pass: one RENAME
COLUMN from the temporary name to the final name for each entry of the map `toRename`, in
the order `range` yields them; the map holds the entries recorded by the added and the
renamed fields and no other entry, so a field whose old counterpart has the same Name
causes no column statement in either pass. -/
theorem syncColumns_by_identity {σ : Type} (D : External) (B : Backend σ) (tbl : String)
    (olds news : List SchemaField) (w : World σ)
    (hok : (syncColumns D B tbl olds news w).1 = .ok ()) :
    (syncColumns D B tbl olds news w).2.log =
        w.log ++ dropStmts tbl news olds ++ firstPassStmts D tbl olds news w.rng ++
          (D.rangeOrder (recordedRenames D olds news w.rng)).map
            (fun p => Stmt.RenameColumn tbl p.1 p.2) ∧
    (∃ per : List (List Stmt),
        firstPassStmts D tbl olds news w.rng = per.flatten ∧
        List.Forall₂ (firstPassFor tbl olds) news per) ∧
    (∀ p ∈ recordedRenames D olds news w.rng,
        ∃ f ∈ news, p.2 = f.Name ∧ (∃ suffix : String, p.1 = f.Name ++ suffix) ∧
          (GetFieldById olds f.Id = none ∨
            ∃ g, GetFieldById olds f.Id = some g ∧ g.Name ≠ f.Name)) := by
  refine ⟨?_, firstPassStmts_per_field D tbl olds news w.rng, ?_⟩
  · unfold syncColumns at hok ⊢
    have h1 := dropDeletedColumns_ok B tbl news olds w
    have h1r := dropDeletedColumns_rng B tbl news olds w
    rcases h1e : dropDeletedColumns B tbl news olds w with ⟨r1, w1⟩
    rw [h1e] at hok h1 h1r
    cases r1 with
    | error e => simp at hok
    | ok u1 =>
      simp only at hok h1 h1r ⊢
      have h2 := fun m2 => addOrRenameColumns_plan D B tbl olds news [] m2 w1
      rcases h2e : addOrRenameColumns D B tbl olds news [] w1 with ⟨r2, w2⟩
      rw [h2e] at hok h2
      cases r2 with
      | error e => simp at hok
      | ok m =>
        simp only at hok h2 ⊢
        obtain ⟨hlog, hmap⟩ := h2 m rfl
        rw [h1r] at hlog hmap
        rw [applyRenames_ok B tbl _ w2 hok, hlog, h1 trivial, hmap]
        rfl
  · intro p hp
    rcases mem_foldl_mapSet _ [] p hp with h | h
    · simp at h
    · exact firstPassRenames_entry D olds news w.rng p h

/-- C1 witness: two fields swap their names, one field is removed, one is kept and one is
added, on a database where every statement succeeds; the kept field `keep` occurs in no
statement. -/
theorem syncColumns_by_identity_witness :
    (syncColumns demoExternal allExist "posts" schemaBefore schemaAfter (World.start ())).1 =
      .ok () ∧
    (syncColumns demoExternal allExist "posts" schemaBefore schemaAfter (World.start ())).2.log =
      [Stmt.DropColumn "posts" "gone",
       Stmt.RenameColumn "posts" "x" "y_tmp0",
       Stmt.RenameColumn "posts" "y" "x_tmp1",
       Stmt.AddColumn "posts" "fresh_tmp2" "TEXT",
       Stmt.RenameColumn "posts" "fresh_tmp2" "fresh",
       Stmt.RenameColumn "posts" "x_tmp1" "x",
       Stmt.RenameColumn "posts" "y_tmp0" "y"] ∧
    (syncColumns demoExternal allExist "posts" schemaBefore schemaAfter (World.start ())).2.log =
      (World.start ()).log ++ dropStmts "posts" schemaAfter schemaBefore ++
        firstPassStmts demoExternal "posts" schemaBefore schemaAfter (World.start ()).rng ++
        (demoExternal.rangeOrder
          (recordedRenames demoExternal schemaBefore schemaAfter (World.start ()).rng)).map
            (fun p => Stmt.RenameColumn "posts" p.1 p.2) :=
  ⟨by decide, by decide,
   (syncColumns_by_identity demoExternal allExist "posts" schemaBefore schemaAfter
     (World.start ()) (by decide)).1⟩

/-! ## C2: the column statements on a table -/

theorem Table.set_same {δ : Type} (T : Table δ) (c : String) (v : Option δ) :
    (T.set c v) c = v := by
  simp [Table.set]

theorem Table.set_other {δ : Type} (T : Table δ) (c : String) (v : Option δ) (x : String)
    (h : x ≠ c) : (T.set c v) x = T x := by
  simp [Table.set, h]

theorem runTable_independent {δ : Type} (fresh : δ) :
    ∀ (ops : List Stmt) (T : Table δ),
      (∀ s ∈ ops, s.isColumn = true) →
      ops.Pairwise Stmt.independent →
      (∀ s ∈ ops, ∀ a, s.src = some a → (T a).isSome = true) →
      (∀ s ∈ ops, ∀ b, s.dst = some b → T b = none) →
      ∃ T1 : Table δ, runTable fresh ops T = some T1 ∧
        (∀ s ∈ ops, ∀ b, s.dst = some b →
          T1 b = (match s.src with
                  | some a => T a
                  | none => some fresh)) ∧
        (∀ c, (∃ s ∈ ops, s.src = some c) → T1 c = none) ∧
        (∀ c, (∀ s ∈ ops, s.src ≠ some c ∧ s.dst ≠ some c) → T1 c = T c) := by
  intro ops
  induction ops with
  | nil =>
    intro T _ _ _ _
    exact ⟨T, rfl, by simp, by simp, by simp⟩
  | cons s rest ih =>
    intro T hcol hpw hsrc hdst
    have hpair : ∀ t ∈ rest, Stmt.independent s t := (List.pairwise_cons.mp hpw).1
    have hpw2 : rest.Pairwise Stmt.independent := (List.pairwise_cons.mp hpw).2
    have hcol2 : ∀ t ∈ rest, t.isColumn = true := fun t ht => hcol t (by simp [ht])
    have hsrc2 : ∀ t ∈ rest, ∀ a, t.src = some a → (T a).isSome = true :=
      fun t ht => hsrc t (by simp [ht])
    have hdst2 : ∀ t ∈ rest, ∀ b, t.dst = some b → T b = none :=
      fun t ht => hdst t (by simp [ht])
    have hs := hcol s (by simp)
    cases s with
    | DropColumn tb c =>
      have hc : (T c).isSome = true := hsrc (Stmt.DropColumn tb c) (by simp) c rfl
      obtain ⟨d, hd⟩ := Option.isSome_iff_exists.mp hc
      have hnosrc : ∀ t ∈ rest, t.src ≠ some c := fun t ht => (hpair t ht).1 c rfl
      have hnodst : ∀ t ∈ rest, t.dst ≠ some c := by
        intro t ht hcon
        have := hdst2 t ht c hcon
        rw [hd] at this; cases this
      obtain ⟨T1, hrun, i1, i2, i3⟩ := ih (T.set c none) hcol2 hpw2
        (by
          intro t ht a ha
          have hne : a ≠ c := by rintro rfl; exact hnosrc t ht ha
          rw [Table.set_other _ _ _ _ hne]; exact hsrc2 t ht a ha)
        (by
          intro t ht b hb
          by_cases hbc : b = c
          · subst hbc; exact Table.set_same _ _ _
          · rw [Table.set_other _ _ _ _ hbc]; exact hdst2 t ht b hb)
      refine ⟨T1, by simp [runTable, tableExec, hd, hrun], ?_, ?_, ?_⟩
      · intro s1 hs1 b hb
        rcases List.mem_cons.mp hs1 with rfl | hs2
        · simp [Stmt.dst] at hb
        · rw [i1 s1 hs2 b hb]
          cases hsa : s1.src with
          | none => rfl
          | some a =>
            have hne : a ≠ c := by rintro rfl; exact hnosrc s1 hs2 hsa
            simp only [Table.set_other _ _ _ _ hne]
      · rintro c1 ⟨s1, hs1, hs1c⟩
        rcases List.mem_cons.mp hs1 with rfl | hs1
        · simp only [Stmt.src, Option.some.injEq] at hs1c
          subst hs1c
          rw [i3 c (fun t ht => ⟨hnosrc t ht, hnodst t ht⟩)]
          exact Table.set_same _ _ _
        · exact i2 c1 ⟨s1, hs1, hs1c⟩
      · intro c1 hc1
        have hne : c1 ≠ c := by
          rintro rfl
          exact (hc1 _ (List.mem_cons_self _ _)).1 rfl
        rw [i3 c1 (fun t ht => hc1 t (by simp [ht])), Table.set_other _ _ _ _ hne]
    | AddColumn tb b0 ty =>
      have hb0 : T b0 = none := hdst (Stmt.AddColumn tb b0 ty) (by simp) b0 rfl
      have hnodst : ∀ t ∈ rest, t.dst ≠ some b0 := fun t ht => (hpair t ht).2 b0 rfl
      have hnosrc : ∀ t ∈ rest, t.src ≠ some b0 := by
        intro t ht hcon
        have := hsrc2 t ht b0 hcon
        rw [hb0] at this; cases this
      obtain ⟨T1, hrun, i1, i2, i3⟩ := ih (T.set b0 (some fresh)) hcol2 hpw2
        (by
          intro t ht a ha
          have hne : a ≠ b0 := by rintro rfl; exact hnosrc t ht ha
          rw [Table.set_other _ _ _ _ hne]; exact hsrc2 t ht a ha)
        (by
          intro t ht b hb
          have hne : b ≠ b0 := by rintro rfl; exact hnodst t ht hb
          rw [Table.set_other _ _ _ _ hne]; exact hdst2 t ht b hb)
      refine ⟨T1, by simp [runTable, tableExec, hb0, hrun], ?_, ?_, ?_⟩
      · intro s1 hs1 b hb
        rcases List.mem_cons.mp hs1 with rfl | hs2
        · simp only [Stmt.dst, Option.some.injEq] at hb
          subst hb
          rw [i3 b0 (fun t ht => ⟨hnosrc t ht, hnodst t ht⟩)]
          simp [Stmt.src, Table.set_same]
        · rw [i1 s1 hs2 b hb]
          cases hsa : s1.src with
          | none => rfl
          | some a =>
            have hne : a ≠ b0 := by rintro rfl; exact hnosrc s1 hs2 hsa
            simp only [Table.set_other _ _ _ _ hne]
      · rintro c1 ⟨s1, hs1, hs1c⟩
        rcases List.mem_cons.mp hs1 with rfl | hs1
        · simp [Stmt.src] at hs1c
        · exact i2 c1 ⟨s1, hs1, hs1c⟩
      · intro c1 hc1
        have hne : c1 ≠ b0 := by
          rintro rfl
          exact (hc1 _ (List.mem_cons_self _ _)).2 rfl
        rw [i3 c1 (fun t ht => hc1 t (by simp [ht])), Table.set_other _ _ _ _ hne]
    | RenameColumn tb a0 b0 =>
      have ha0 : (T a0).isSome = true := hsrc (Stmt.RenameColumn tb a0 b0) (by simp) a0 rfl
      obtain ⟨d, hd⟩ := Option.isSome_iff_exists.mp ha0
      have hb0 : T b0 = none := hdst (Stmt.RenameColumn tb a0 b0) (by simp) b0 rfl
      have hab : a0 ≠ b0 := by
        rintro rfl
        rw [hd] at hb0; cases hb0
      have hnosrcA : ∀ t ∈ rest, t.src ≠ some a0 := fun t ht => (hpair t ht).1 a0 rfl
      have hnodstB : ∀ t ∈ rest, t.dst ≠ some b0 := fun t ht => (hpair t ht).2 b0 rfl
      have hnosrcB : ∀ t ∈ rest, t.src ≠ some b0 := by
        intro t ht hcon
        have := hsrc2 t ht b0 hcon
        rw [hb0] at this; cases this
      have hnodstA : ∀ t ∈ rest, t.dst ≠ some a0 := by
        intro t ht hcon
        have := hdst2 t ht a0 hcon
        rw [hd] at this; cases this
      obtain ⟨T1, hrun, i1, i2, i3⟩ := ih ((T.set a0 none).set b0 (some d)) hcol2 hpw2
        (by
          intro t ht a ha
          have hne : a ≠ b0 := by rintro rfl; exact hnosrcB t ht ha
          have hne2 : a ≠ a0 := by rintro rfl; exact hnosrcA t ht ha
          rw [Table.set_other _ _ _ _ hne, Table.set_other _ _ _ _ hne2]
          exact hsrc2 t ht a ha)
        (by
          intro t ht b hb
          have hne : b ≠ b0 := by rintro rfl; exact hnodstB t ht hb
          have hne2 : b ≠ a0 := by rintro rfl; exact hnodstA t ht hb
          rw [Table.set_other _ _ _ _ hne, Table.set_other _ _ _ _ hne2]
          exact hdst2 t ht b hb)
      refine ⟨T1, by simp [runTable, tableExec, hd, hb0, hrun], ?_, ?_, ?_⟩
      · intro s1 hs1 b hb
        rcases List.mem_cons.mp hs1 with rfl | hs2
        · simp only [Stmt.dst, Option.some.injEq] at hb
          subst hb
          rw [i3 b0 (fun t ht => ⟨hnosrcB t ht, hnodstB t ht⟩)]
          simp [Stmt.src, Table.set_same, hd]
        · rw [i1 s1 hs2 b hb]
          cases hsa : s1.src with
          | none => rfl
          | some a =>
            have hne : a ≠ b0 := by rintro rfl; exact hnosrcB s1 hs2 hsa
            have hne2 : a ≠ a0 := by rintro rfl; exact hnosrcA s1 hs2 hsa
            simp only [Table.set_other _ _ _ _ hne, Table.set_other _ _ _ _ hne2]
      · rintro c1 ⟨s1, hs1, hs1c⟩
        rcases List.mem_cons.mp hs1 with rfl | hs1
        · simp only [Stmt.src, Option.some.injEq] at hs1c
          subst hs1c
          rw [i3 a0 (fun t ht => ⟨hnosrcA t ht, hnodstA t ht⟩),
            Table.set_other _ _ _ _ hab, Table.set_same]
        · exact i2 c1 ⟨s1, hs1, hs1c⟩
      · intro c1 hc1
        have hne : c1 ≠ b0 := by
          rintro rfl
          exact (hc1 _ (List.mem_cons_self _ _)).2 rfl
        have hne2 : c1 ≠ a0 := by
          rintro rfl
          exact (hc1 _ (List.mem_cons_self _ _)).1 rfl
        rw [i3 c1 (fun t ht => hc1 t (by simp [ht])), Table.set_other _ _ _ _ hne,
          Table.set_other _ _ _ _ hne2]
    | CreateTable _ _ => simp [Stmt.isColumn] at hs
    | NewQuery _ => simp [Stmt.isColumn] at hs
    | SelectIndexes _ _ => simp [Stmt.isColumn] at hs
    | RenameTable _ _ => simp [Stmt.isColumn] at hs
    | UpdateSingleToMultiple _ _ _ => simp [Stmt.isColumn] at hs
    | UpdateMultipleToSingle _ _ _ => simp [Stmt.isColumn] at hs

theorem runTable_cons {δ : Type} (fresh : δ) (s : Stmt) (rest : List Stmt) (T T2 : Table δ)
    (h : runTable fresh (s :: rest) T = some T2) :
    ∃ T1, tableExec fresh s T = .ok T1 ∧ runTable fresh rest T1 = some T2 := by
  unfold runTable at h
  cases hx : tableExec fresh s T with
  | error e => simp [hx] at h
  | ok T1 => exact ⟨T1, rfl, by simpa [hx] using h⟩

theorem execute_table {δ : Type} (fresh : δ) (s : Stmt) (w : World (Table δ)) (T1 : Table δ)
    (h : tableExec fresh s w.db = .ok T1) :
    execute (tableBackend fresh) s w = (.ok (), { w with db := T1, log := w.log ++ [s] }) := by
  simp [execute, tableBackend, h]

theorem dropStmts_cons (tbl : String) (news : List SchemaField) (g : SchemaField)
    (rest : List SchemaField) :
    dropStmts tbl news (g :: rest) =
      (if (GetFieldById news g.Id).isNone then [Stmt.DropColumn tbl g.Name] else []) ++
        dropStmts tbl news rest := by
  simp [dropStmts]

theorem dropDeletedColumns_table {δ : Type} (fresh : δ) (tbl : String)
    (news olds : List SchemaField) (w : World (Table δ)) (T2 : Table δ)
    (h : runTable fresh (dropStmts tbl news olds) w.db = some T2) :
    (dropDeletedColumns (tableBackend fresh) tbl news olds w).1 = .ok () ∧
    (dropDeletedColumns (tableBackend fresh) tbl news olds w).2.db = T2 ∧
    (dropDeletedColumns (tableBackend fresh) tbl news olds w).2.rng = w.rng := by
  induction olds generalizing w with
  | nil =>
    simp only [dropStmts, List.map_nil, List.flatten_nil, runTable, Option.some.injEq] at h
    simp [dropDeletedColumns, h]
  | cons g rest ih =>
    rw [dropStmts_cons] at h
    unfold dropDeletedColumns
    cases hg : GetFieldById news g.Id with
    | some f =>
      simp only [hg, Option.isNone_some, Bool.false_eq_true, if_false, List.nil_append] at h
      exact ih w h
    | none =>
      simp only [hg, Option.isNone_none, if_true, List.singleton_append] at h
      obtain ⟨T1, hx, hrest⟩ := runTable_cons fresh _ _ _ _ h
      simp only [execute_table fresh _ w T1 hx]
      exact ih _ hrest

theorem mapSet_fresh {β : Type} (m : List (String × β)) (k : String) (v : β)
    (h : k ∉ m.map Prod.fst) : mapSet m k v = m ++ [(k, v)] := by
  induction m with
  | nil => rfl
  | cons p rest ih =>
    obtain ⟨k0, v0⟩ := p
    simp only [List.map_cons, List.mem_cons, not_or] at h
    unfold mapSet
    simp [Ne.symm h.1, ih h.2]

theorem addOrRenameColumns_table {δ : Type} (D : External) (fresh : δ) (tbl : String)
    (olds news : List SchemaField) (m : List (String × String)) (w : World (Table δ))
    (T2 : Table δ)
    (h : runTable fresh (firstPassStmts D tbl olds news w.rng) w.db = some T2)
    (hm : ∀ t ∈ tempNames D olds news w.rng, t ∉ m.map Prod.fst)
    (hnd : (tempNames D olds news w.rng).Nodup) :
    (addOrRenameColumns D (tableBackend fresh) tbl olds news m w).1 =
        .ok (m ++ firstPassRenames D olds news w.rng) ∧
    (addOrRenameColumns D (tableBackend fresh) tbl olds news m w).2.db = T2 := by
  induction news generalizing m w with
  | nil =>
    simp only [firstPassStmts, runTable, Option.some.injEq] at h
    simp [addOrRenameColumns, firstPassRenames, h]
  | cons f rest ih =>
    unfold addOrRenameColumns
    unfold firstPassStmts at h
    unfold tempNames firstPassRenames at hm hnd
    cases hg : GetFieldById olds f.Id with
    | none =>
      simp only [hg] at h hm hnd ⊢
      simp only [List.map_cons, List.mem_cons, forall_eq_or_imp, List.nodup_cons] at hm hnd
      obtain ⟨T1, hx, hrest⟩ := runTable_cons fresh _ _ _ _ h
      have hx2 : tableExec fresh
          (Stmt.AddColumn tbl (f.Name ++ D.PseudorandomString w.rng) f.ColDefinition)
          ({ w with rng := w.rng + 1 } : World (Table δ)).db = .ok T1 := hx
      simp only [execute_table fresh _ _ T1 hx2]
      rw [mapSet_fresh m _ _ hm.1]
      have := ih (m ++ [(f.Name ++ D.PseudorandomString w.rng, f.Name)])
        { db := T1, log := w.log ++
            [Stmt.AddColumn tbl (f.Name ++ D.PseudorandomString w.rng) f.ColDefinition],
          rng := w.rng + 1, inTx := w.inTx } hrest
        (by
          intro t ht
          simp only [List.map_append, List.map_cons, List.map_nil, List.mem_append,
            List.mem_singleton, not_or]
          refine ⟨hm.2 t ht, ?_⟩
          rintro rfl
          exact hnd.1 ht)
        hnd.2
      simpa [firstPassRenames, hg] using this
    | some g =>
      simp only [hg] at h hm hnd ⊢
      by_cases hn : g.Name = f.Name
      · simp only [hn, if_true, bne_self_eq_false, Bool.false_eq_true, if_false] at h hm hnd ⊢
        have := ih m w h hm hnd
        simpa [firstPassRenames, hg, hn] using this
      · have hne : (g.Name != f.Name) = true := by simpa using hn
        simp only [hn, if_false, hne, if_true] at h hm hnd ⊢
        simp only [List.map_cons, List.mem_cons, forall_eq_or_imp, List.nodup_cons] at hm hnd
        obtain ⟨T1, hx, hrest⟩ := runTable_cons fresh _ _ _ _ h
        have hx2 : tableExec fresh
            (Stmt.RenameColumn tbl g.Name (f.Name ++ D.PseudorandomString w.rng))
            ({ w with rng := w.rng + 1 } : World (Table δ)).db = .ok T1 := hx
        simp only [execute_table fresh _ _ T1 hx2]
        rw [mapSet_fresh m _ _ hm.1]
        have := ih (m ++ [(f.Name ++ D.PseudorandomString w.rng, f.Name)])
          { db := T1, log := w.log ++
              [Stmt.RenameColumn tbl g.Name (f.Name ++ D.PseudorandomString w.rng)],
            rng := w.rng + 1, inTx := w.inTx } hrest
          (by
            intro t ht
            simp only [List.map_append, List.map_cons, List.map_nil, List.mem_append,
              List.mem_singleton, not_or]
            refine ⟨hm.2 t ht, ?_⟩
            rintro rfl
            exact hnd.1 ht)
          hnd.2
        simpa [firstPassRenames, hg, hn] using this

theorem applyRenames_table {δ : Type} (fresh : δ) (tbl : String)
    (m : List (String × String)) (w : World (Table δ)) (T2 : Table δ)
    (h : runTable fresh (m.map (fun p => Stmt.RenameColumn tbl p.1 p.2)) w.db = some T2) :
    (applyRenames (tableBackend fresh) tbl m w).1 = .ok () ∧
    (applyRenames (tableBackend fresh) tbl m w).2.db = T2 := by
  induction m generalizing w with
  | nil =>
    simp only [List.map_nil, runTable, Option.some.injEq] at h
    simp [applyRenames, h]
  | cons p rest ih =>
    obtain ⟨t, a⟩ := p
    simp only [List.map_cons] at h
    obtain ⟨T1, hx, hrest⟩ := runTable_cons fresh _ _ _ _ h
    unfold applyRenames
    simp only [execute_table fresh _ w T1 hx]
    exact ih _ hrest

theorem runTable_append {δ : Type} (fresh : δ) (l1 l2 : List Stmt) (T T2 : Table δ)
    (h : runTable fresh (l1 ++ l2) T = some T2) :
    ∃ T1, runTable fresh l1 T = some T1 ∧ runTable fresh l2 T1 = some T2 := by
  induction l1 generalizing T with
  | nil => exact ⟨T, rfl, h⟩
  | cons s rest ih =>
    obtain ⟨T0, hx, hrest⟩ := runTable_cons fresh s (rest ++ l2) T T2 h
    obtain ⟨T1, h1, h2⟩ := ih T0 hrest
    exact ⟨T1, by simp [runTable, hx, h1], h2⟩

theorem GetFieldById_some {l : List SchemaField} {id : String} {g : SchemaField}
    (h : GetFieldById l id = some g) : g ∈ l ∧ g.Id = id := by
  unfold GetFieldById at h
  exact ⟨List.mem_of_find?_eq_some h, by simpa using List.find?_some h⟩

theorem GetFieldById_none {l : List SchemaField} {id : String}
    (h : GetFieldById l id = none) : ∀ g ∈ l, g.Id ≠ id := by
  unfold GetFieldById at h
  intro g hg
  have := List.find?_eq_none.mp h g hg
  simpa using this

theorem field_of_id {l : List SchemaField} (hnd : (l.map SchemaField.Id).Nodup)
    {g g2 : SchemaField} (hg : g ∈ l) (hg2 : g2 ∈ l) (h : g.Id = g2.Id) : g = g2 :=
  List.inj_on_of_nodup_map hnd hg hg2 h

theorem field_of_name {l : List SchemaField} (hnd : (l.map SchemaField.Name).Nodup)
    {g g2 : SchemaField} (hg : g ∈ l) (hg2 : g2 ∈ l) (h : g.Name = g2.Name) : g = g2 :=
  List.inj_on_of_nodup_map hnd hg hg2 h

theorem GetFieldById_of_mem {l : List SchemaField} (hnd : (l.map SchemaField.Id).Nodup)
    {g : SchemaField} (hg : g ∈ l) : GetFieldById l g.Id = some g := by
  cases h : GetFieldById l g.Id with
  | none => exact absurd rfl (GetFieldById_none h g hg)
  | some g2 =>
    obtain ⟨hg2, hid⟩ := GetFieldById_some h
    rw [field_of_id hnd hg2 hg hid]

theorem tableOf_of_mem {δ : Type} {l : List SchemaField} (hnd : (l.map SchemaField.Name).Nodup)
    (data : String → δ) {g : SchemaField} (hg : g ∈ l) :
    tableOf l data g.Name = some (data g.Id) := by
  unfold tableOf
  cases h : l.find? (fun f => f.Name == g.Name) with
  | none =>
    have := List.find?_eq_none.mp h g hg
    simp at this
  | some g2 =>
    have hg2 : g2 ∈ l := List.mem_of_find?_eq_some h
    have hn : g2.Name = g.Name := by simpa using List.find?_some h
    rw [field_of_name hnd hg2 hg hn]
    rfl

theorem tableOf_of_not_mem {δ : Type} {l : List SchemaField} (data : String → δ) {c : String}
    (hc : c ∉ l.map SchemaField.Name) : tableOf l data c = none := by
  unfold tableOf
  cases h : l.find? (fun f => f.Name == c) with
  | none => rfl
  | some g2 =>
    have hg2 : g2 ∈ l := List.mem_of_find?_eq_some h
    have hn : g2.Name = c := by simpa using List.find?_some h
    exact absurd (List.mem_map.mpr ⟨g2, hg2, hn⟩) hc

theorem mem_dropStmts {tbl : String} {news olds : List SchemaField} {s : Stmt}
    (h : s ∈ dropStmts tbl news olds) :
    ∃ g ∈ olds, GetFieldById news g.Id = none ∧ s = Stmt.DropColumn tbl g.Name := by
  unfold dropStmts at h
  simp only [List.mem_flatten, List.mem_map] at h
  obtain ⟨l, ⟨g, hg, rfl⟩, hs⟩ := h
  cases hgn : GetFieldById news g.Id with
  | none =>
    simp only [hgn, Option.isNone_none, if_true, List.mem_singleton] at hs
    exact ⟨g, hg, hgn, hs⟩
  | some f => simp [hgn] at hs

theorem dropStmts_of_mem {tbl : String} {news olds : List SchemaField} {g : SchemaField}
    (hg : g ∈ olds) (h : GetFieldById news g.Id = none) :
    Stmt.DropColumn tbl g.Name ∈ dropStmts tbl news olds := by
  unfold dropStmts
  simp only [List.mem_flatten, List.mem_map]
  exact ⟨[Stmt.DropColumn tbl g.Name], ⟨g, hg, by simp [h]⟩, by simp⟩

theorem mem_firstPassStmts (D : External) (tbl : String) (olds : List SchemaField) :
    ∀ (news : List SchemaField) (n : Nat) (s : Stmt), s ∈ firstPassStmts D tbl olds news n →
      ∃ f ∈ news, ∃ t ∈ tempNames D olds news n,
        (GetFieldById olds f.Id = none ∧ s = Stmt.AddColumn tbl t f.ColDefinition) ∨
        (∃ g, GetFieldById olds f.Id = some g ∧ g.Name ≠ f.Name ∧
          s = Stmt.RenameColumn tbl g.Name t) := by
  intro news
  induction news with
  | nil => intro n s h; simp [firstPassStmts] at h
  | cons f rest ih =>
    intro n s h
    unfold firstPassStmts at h
    unfold tempNames firstPassRenames
    cases hg : GetFieldById olds f.Id with
    | none =>
      simp only [hg, List.mem_cons] at h ⊢
      rcases h with rfl | h
      · exact ⟨f, Or.inl rfl, _, by simp, Or.inl ⟨hg, rfl⟩⟩
      · obtain ⟨f2, hf2, t, ht, hcase⟩ := ih (n + 1) s h
        exact ⟨f2, Or.inr hf2, t, by simp [tempNames] at ht ⊢; exact Or.inr ht, hcase⟩
    | some g =>
      simp only [hg] at h ⊢
      by_cases hn : g.Name = f.Name
      · simp only [hn, if_true] at h ⊢
        obtain ⟨f2, hf2, t, ht, hcase⟩ := ih n s h
        exact ⟨f2, List.mem_cons_of_mem _ hf2, t, ht, hcase⟩
      · simp only [hn, if_false, List.mem_cons] at h ⊢
        rcases h with rfl | h
        · exact ⟨f, Or.inl rfl, _, by simp, Or.inr ⟨g, hg, hn, rfl⟩⟩
        · obtain ⟨f2, hf2, t, ht, hcase⟩ := ih (n + 1) s h
          exact ⟨f2, Or.inr hf2, t, by simp [tempNames] at ht ⊢; exact Or.inr ht, hcase⟩

theorem mem_firstPassRenames (D : External) (tbl : String) (olds : List SchemaField) :
    ∀ (news : List SchemaField) (n : Nat) (t a : String),
      (t, a) ∈ firstPassRenames D olds news n →
      ∃ f ∈ news, a = f.Name ∧
        ((GetFieldById olds f.Id = none ∧
            Stmt.AddColumn tbl t f.ColDefinition ∈ firstPassStmts D tbl olds news n) ∨
         (∃ g, GetFieldById olds f.Id = some g ∧ g.Name ≠ f.Name ∧
            Stmt.RenameColumn tbl g.Name t ∈ firstPassStmts D tbl olds news n)) := by
  intro news
  induction news with
  | nil => intro n t a h; simp [firstPassRenames] at h
  | cons f rest ih =>
    intro n t a h
    unfold firstPassRenames at h
    unfold firstPassStmts
    cases hg : GetFieldById olds f.Id with
    | none =>
      simp only [hg, List.mem_cons, Prod.mk.injEq] at h ⊢
      rcases h with ⟨rfl, rfl⟩ | h
      · exact ⟨f, Or.inl rfl, rfl, Or.inl ⟨hg, Or.inl rfl⟩⟩
      · obtain ⟨f2, hf2, ha, hcase⟩ := ih (n + 1) t a h
        refine ⟨f2, Or.inr hf2, ha, ?_⟩
        rcases hcase with ⟨h1, h2⟩ | ⟨g, h1, h2, h3⟩
        · exact Or.inl ⟨h1, Or.inr h2⟩
        · exact Or.inr ⟨g, h1, h2, Or.inr h3⟩
    | some g =>
      simp only [hg] at h ⊢
      by_cases hn : g.Name = f.Name
      · simp only [hn, if_true] at h ⊢
        obtain ⟨f2, hf2, ha, hcase⟩ := ih n t a h
        exact ⟨f2, List.mem_cons_of_mem _ hf2, ha, hcase⟩
      · simp only [hn, if_false, List.mem_cons, Prod.mk.injEq] at h ⊢
        rcases h with ⟨rfl, rfl⟩ | h
        · exact ⟨f, Or.inl rfl, rfl, Or.inr ⟨g, hg, hn, Or.inl rfl⟩⟩
        · obtain ⟨f2, hf2, ha, hcase⟩ := ih (n + 1) t a h
          refine ⟨f2, Or.inr hf2, ha, ?_⟩
          rcases hcase with ⟨h1, h2⟩ | ⟨g2, h1, h2, h3⟩
          · exact Or.inl ⟨h1, Or.inr h2⟩
          · exact Or.inr ⟨g2, h1, h2, Or.inr h3⟩

theorem firstPass_of_added (D : External) (tbl : String) (olds : List SchemaField) :
    ∀ (news : List SchemaField) (n : Nat) (f : SchemaField), f ∈ news →
      GetFieldById olds f.Id = none →
      ∃ t, (t, f.Name) ∈ firstPassRenames D olds news n ∧
        Stmt.AddColumn tbl t f.ColDefinition ∈ firstPassStmts D tbl olds news n := by
  intro news
  induction news with
  | nil => intro n f hf; simp at hf
  | cons f0 rest ih =>
    intro n f hf hlook
    unfold firstPassRenames firstPassStmts
    rcases List.mem_cons.mp hf with rfl | hf
    · simp only [hlook]
      exact ⟨f.Name ++ D.PseudorandomString n, by simp, by simp⟩
    · cases hg : GetFieldById olds f0.Id with
      | none =>
        obtain ⟨t, h1, h2⟩ := ih (n + 1) f hf hlook
        exact ⟨t, by simp [h1], by simp [h2]⟩
      | some g =>
        simp only
        by_cases hn : g.Name = f0.Name
        · simp only [hn, if_true]
          exact ih n f hf hlook
        · simp only [hn, if_false]
          obtain ⟨t, h1, h2⟩ := ih (n + 1) f hf hlook
          exact ⟨t, by simp [h1], by simp [h2]⟩

theorem firstPass_of_renamed (D : External) (tbl : String) (olds : List SchemaField) :
    ∀ (news : List SchemaField) (n : Nat) (f g : SchemaField), f ∈ news →
      GetFieldById olds f.Id = some g → g.Name ≠ f.Name →
      ∃ t, (t, f.Name) ∈ firstPassRenames D olds news n ∧
        Stmt.RenameColumn tbl g.Name t ∈ firstPassStmts D tbl olds news n := by
  intro news
  induction news with
  | nil => intro n f g hf; simp at hf
  | cons f0 rest ih =>
    intro n f g hf hlook hne
    unfold firstPassRenames firstPassStmts
    rcases List.mem_cons.mp hf with rfl | hf
    · simp only [hlook, hne, if_false]
      exact ⟨f.Name ++ D.PseudorandomString n, by simp, by simp⟩
    · cases hg : GetFieldById olds f0.Id with
      | none =>
        obtain ⟨t, h1, h2⟩ := ih (n + 1) f g hf hlook hne
        exact ⟨t, by simp [h1], by simp [h2]⟩
      | some g0 =>
        simp only
        by_cases hn : g0.Name = f0.Name
        · simp only [hn, if_true]
          exact ih n f g hf hlook hne
        · simp only [hn, if_false]
          obtain ⟨t, h1, h2⟩ := ih (n + 1) f g hf hlook hne
          exact ⟨t, by simp [h1], by simp [h2]⟩

theorem firstPassRenames_finals (D : External) (olds : List SchemaField) :
    ∀ (news : List SchemaField) (n : Nat),
      ((firstPassRenames D olds news n).map Prod.snd).Sublist (news.map SchemaField.Name) := by
  intro news
  induction news with
  | nil => intro n; simp [firstPassRenames]
  | cons f rest ih =>
    intro n
    unfold firstPassRenames
    cases hg : GetFieldById olds f.Id with
    | none =>
      simp only [List.map_cons]
      exact (ih (n + 1)).cons₂ _
    | some g =>
      simp only
      by_cases hn : g.Name = f.Name
      · simp only [hn, if_true, List.map_cons]
        exact (ih n).cons _
      · simp only [hn, if_false, List.map_cons]
        exact (ih (n + 1)).cons₂ _

theorem pairwise_dropStmts (tbl : String) (news olds : List SchemaField)
    (hnd : (olds.map SchemaField.Name).Nodup) :
    (dropStmts tbl news olds).Pairwise Stmt.independent := by
  induction olds with
  | nil => simp [dropStmts]
  | cons g rest ih =>
    simp only [List.map_cons, List.nodup_cons] at hnd
    rw [dropStmts_cons, List.pairwise_append]
    refine ⟨?_, ih hnd.2, ?_⟩
    · split <;> simp
    · intro s hs t ht
      split at hs
      · simp only [List.mem_singleton] at hs
        subst hs
        obtain ⟨g2, hg2, _, rfl⟩ := mem_dropStmts ht
        refine ⟨?_, by simp [Stmt.dst]⟩
        intro a ha
        simp only [Stmt.src, Option.some.injEq] at ha ⊢
        subst ha
        intro hcon
        exact hnd.1 (List.mem_map.mpr ⟨g2, hg2, Option.some.inj hcon⟩)
      · simp at hs

theorem pairwise_firstPassStmts (D : External) (tbl : String) (olds : List SchemaField)
    (holdNames : (olds.map SchemaField.Name).Nodup) :
    ∀ (news : List SchemaField) (n : Nat), (news.map SchemaField.Id).Nodup →
      (tempNames D olds news n).Nodup →
      (firstPassStmts D tbl olds news n).Pairwise Stmt.independent := by
  intro news
  induction news with
  | nil => intro n _ _; simp [firstPassStmts]
  | cons f rest ih =>
    intro n hids htemps
    simp only [List.map_cons, List.nodup_cons] at hids
    unfold firstPassStmts
    unfold tempNames firstPassRenames at htemps
    cases hg : GetFieldById olds f.Id with
    | none =>
      simp only [hg, List.map_cons, List.nodup_cons] at htemps ⊢
      rw [List.pairwise_cons]
      refine ⟨?_, ih (n + 1) hids.2 htemps.2⟩
      intro s hs
      obtain ⟨f2, hf2, t, ht, hcase⟩ := mem_firstPassStmts D tbl olds rest (n + 1) s hs
      refine ⟨by simp [Stmt.src], ?_⟩
      intro b hb
      simp only [Stmt.dst, Option.some.injEq] at hb
      subst hb
      rcases hcase with ⟨_, rfl⟩ | ⟨g2, _, _, rfl⟩
      · simp only [Stmt.dst, ne_eq, Option.some.injEq]
        rintro rfl
        exact htemps.1 ht
      · simp only [Stmt.dst, ne_eq, Option.some.injEq]
        rintro rfl
        exact htemps.1 ht
    | some g =>
      simp only [hg] at htemps ⊢
      by_cases hn : g.Name = f.Name
      · simp only [hn, if_true] at htemps ⊢
        exact ih n hids.2 htemps
      · simp only [hn, if_false, List.map_cons, List.nodup_cons] at htemps ⊢
        rw [List.pairwise_cons]
        refine ⟨?_, ih (n + 1) hids.2 htemps.2⟩
        intro s hs
        obtain ⟨f2, hf2, t, ht, hcase⟩ := mem_firstPassStmts D tbl olds rest (n + 1) s hs
        constructor
        · intro a ha
          simp only [Stmt.src, Option.some.injEq] at ha
          subst ha
          rcases hcase with ⟨_, rfl⟩ | ⟨g2, hg2, _, rfl⟩
          · simp [Stmt.src]
          · simp only [Stmt.src, ne_eq, Option.some.injEq]
            intro hcon
            have e1 := GetFieldById_some hg
            have e2 := GetFieldById_some hg2
            have : g2 = g := field_of_name holdNames e2.1 e1.1 hcon
            subst this
            have hid : f2.Id = f.Id := by rw [← e2.2, e1.2]
            exact hids.1 (List.mem_map.mpr ⟨f2, hf2, hid⟩)
        · intro b hb
          simp only [Stmt.dst, Option.some.injEq] at hb
          subst hb
          rcases hcase with ⟨_, rfl⟩ | ⟨g2, _, _, rfl⟩
          · simp only [Stmt.dst, ne_eq, Option.some.injEq]
            rintro rfl
            exact htemps.1 ht
          · simp only [Stmt.dst, ne_eq, Option.some.injEq]
            rintro rfl
            exact htemps.1 ht

theorem firstPhases_on_table {δ : Type} (D : External) (fresh : δ) (tbl : String)
    (olds news : List SchemaField) (data : String → δ) (n : Nat)
    (h : CleanMigration D olds news n) :
    ∃ T2 : Table δ,
      runTable fresh (dropStmts tbl news olds ++ firstPassStmts D tbl olds news n)
        (tableOf olds data) = some T2 ∧
      (∀ s ∈ dropStmts tbl news olds ++ firstPassStmts D tbl olds news n, ∀ b,
        s.dst = some b →
          T2 b = (match s.src with
                  | some a => tableOf olds data a
                  | none => some fresh)) ∧
      (∀ c, (∃ s ∈ dropStmts tbl news olds ++ firstPassStmts D tbl olds news n,
          s.src = some c) → T2 c = none) ∧
      (∀ c, (∀ s ∈ dropStmts tbl news olds ++ firstPassStmts D tbl olds news n,
          s.src ≠ some c ∧ s.dst ≠ some c) → T2 c = tableOf olds data c) := by
  apply runTable_independent
  · intro s hs
    rcases List.mem_append.mp hs with hs | hs
    · obtain ⟨g, _, _, rfl⟩ := mem_dropStmts hs
      rfl
    · obtain ⟨f, _, t, _, ⟨_, rfl⟩ | ⟨g, _, _, rfl⟩⟩ := mem_firstPassStmts D tbl olds news n s hs
      · rfl
      · rfl
  · rw [List.pairwise_append]
    refine ⟨pairwise_dropStmts tbl news olds h.oldNames,
      pairwise_firstPassStmts D tbl olds h.oldNames news n h.newIds h.temps, ?_⟩
    intro s hs t ht
    obtain ⟨g, hg, hgn, rfl⟩ := mem_dropStmts hs
    refine ⟨?_, by simp [Stmt.dst]⟩
    intro a ha
    simp only [Stmt.src, Option.some.injEq] at ha
    subst ha
    obtain ⟨f, hf, t2, _, ⟨_, rfl⟩ | ⟨g2, hg2, _, rfl⟩⟩ := mem_firstPassStmts D tbl olds news n t ht
    · simp [Stmt.src]
    · simp only [Stmt.src, ne_eq, Option.some.injEq]
      intro hcon
      have e2 := GetFieldById_some hg2
      have : g2 = g := field_of_name h.oldNames e2.1 hg hcon
      subst this
      exact GetFieldById_none hgn f hf e2.2.symm
  · intro s hs a ha
    rcases List.mem_append.mp hs with hs | hs
    · obtain ⟨g, hg, _, rfl⟩ := mem_dropStmts hs
      simp only [Stmt.src, Option.some.injEq] at ha
      subst ha
      simp [tableOf_of_mem h.oldNames data hg]
    · obtain ⟨f, _, t, _, ⟨_, rfl⟩ | ⟨g, hg, _, rfl⟩⟩ := mem_firstPassStmts D tbl olds news n s hs
      · simp [Stmt.src] at ha
      · simp only [Stmt.src, Option.some.injEq] at ha
        subst ha
        simp [tableOf_of_mem h.oldNames data (GetFieldById_some hg).1]
  · intro s hs b hb
    rcases List.mem_append.mp hs with hs | hs
    · obtain ⟨g, _, _, rfl⟩ := mem_dropStmts hs
      simp [Stmt.dst] at hb
    · obtain ⟨f, _, t, ht, ⟨_, rfl⟩ | ⟨g, _, _, rfl⟩⟩ := mem_firstPassStmts D tbl olds news n s hs
      · simp only [Stmt.dst, Option.some.injEq] at hb
        subst hb
        exact tableOf_of_not_mem data (h.tempsOld _ ht)
      · simp only [Stmt.dst, Option.some.injEq] at hb
        subst hb
        exact tableOf_of_not_mem data (h.tempsOld _ ht)

theorem old_name_status (D : External) (tbl : String) (olds news : List SchemaField) (n : Nat)
    (h : CleanMigration D olds news n) (g : SchemaField) (hg : g ∈ olds) :
    (∃ s ∈ dropStmts tbl news olds ++ firstPassStmts D tbl olds news n, s.src = some g.Name) ∨
    (∃ f ∈ news, GetFieldById olds f.Id = some g ∧ g.Name = f.Name) := by
  cases hgn : GetFieldById news g.Id with
  | none =>
    exact Or.inl ⟨_, List.mem_append_left _ (dropStmts_of_mem hg hgn), rfl⟩
  | some f =>
    obtain ⟨hf, hid⟩ := GetFieldById_some hgn
    have hlook : GetFieldById olds f.Id = some g := by
      rw [hid]; exact GetFieldById_of_mem h.oldIds hg
    by_cases hn : g.Name = f.Name
    · exact Or.inr ⟨f, hf, hlook, hn⟩
    · obtain ⟨t, _, hs⟩ := firstPass_of_renamed D tbl olds news n f g hf hlook hn
      exact Or.inl ⟨_, List.mem_append_right _ hs, rfl⟩

theorem kept_name_untouched (D : External) (tbl : String) (olds news : List SchemaField)
    (n : Nat) (h : CleanMigration D olds news n) (f g : SchemaField) (hf : f ∈ news)
    (hlook : GetFieldById olds f.Id = some g) (hn : g.Name = f.Name) :
    ∀ s ∈ dropStmts tbl news olds ++ firstPassStmts D tbl olds news n,
      s.src ≠ some f.Name ∧ s.dst ≠ some f.Name := by
  obtain ⟨hg, hid⟩ := GetFieldById_some hlook
  intro s hs
  rcases List.mem_append.mp hs with hs | hs
  · obtain ⟨g2, hg2, hgn, rfl⟩ := mem_dropStmts hs
    refine ⟨?_, by simp [Stmt.dst]⟩
    simp only [Stmt.src, ne_eq, Option.some.injEq]
    intro hcon
    have : g2 = g := field_of_name h.oldNames hg2 hg (hcon.trans hn.symm)
    subst this
    exact GetFieldById_none hgn f hf hid.symm
  · obtain ⟨f2, hf2, t, ht, hcase⟩ := mem_firstPassStmts D tbl olds news n s hs
    have htn : t ≠ f.Name := by
      rintro rfl
      exact h.tempsNew _ ht (List.mem_map.mpr ⟨f, hf, rfl⟩)
    rcases hcase with ⟨_, rfl⟩ | ⟨g2, hg2, hne, rfl⟩
    · exact ⟨by simp [Stmt.src], by simpa [Stmt.dst] using htn⟩
    · refine ⟨?_, by simpa [Stmt.dst] using htn⟩
      simp only [Stmt.src, ne_eq, Option.some.injEq]
      intro hcon
      have e2 := GetFieldById_some hg2
      have : g2 = g := field_of_name h.oldNames e2.1 hg (hcon.trans hn.symm)
      subst this
      have : f2 = f := field_of_id h.newIds hf2 hf (e2.2.symm.trans hid)
      subst this
      exact hne hn

theorem changed_name_free {δ : Type} (D : External) (tbl : String)
    (olds news : List SchemaField) (data : String → δ) (n : Nat)
    (h : CleanMigration D olds news n) (T2 : Table δ)
    (a2 : ∀ c, (∃ s ∈ dropStmts tbl news olds ++ firstPassStmts D tbl olds news n,
        s.src = some c) → T2 c = none)
    (a3 : ∀ c, (∀ s ∈ dropStmts tbl news olds ++ firstPassStmts D tbl olds news n,
        s.src ≠ some c ∧ s.dst ≠ some c) → T2 c = tableOf olds data c)
    (t a : String) (hta : (t, a) ∈ firstPassRenames D olds news n) : T2 a = none := by
  obtain ⟨f, hf, rfl, hchanged⟩ := mem_firstPassRenames D tbl olds news n t a hta
  by_cases hsrc : ∃ s ∈ dropStmts tbl news olds ++ firstPassStmts D tbl olds news n,
      s.src = some f.Name
  · exact a2 _ hsrc
  · have hnodst : ∀ s ∈ dropStmts tbl news olds ++ firstPassStmts D tbl olds news n,
        s.dst ≠ some f.Name := by
      intro s hs hd
      rcases List.mem_append.mp hs with hs | hs
      · obtain ⟨g2, _, _, rfl⟩ := mem_dropStmts hs
        simp [Stmt.dst] at hd
      · obtain ⟨f2, _, t2, ht2, hcase⟩ := mem_firstPassStmts D tbl olds news n s hs
        have : t2 = f.Name := by
          rcases hcase with ⟨_, rfl⟩ | ⟨g2, _, _, rfl⟩ <;> simpa [Stmt.dst] using hd
        subst this
        exact h.tempsNew _ ht2 (List.mem_map.mpr ⟨f, hf, rfl⟩)
    rw [a3 f.Name (fun s hs => ⟨fun hc => hsrc ⟨s, hs, hc⟩, hnodst s hs⟩)]
    by_cases hmem : f.Name ∈ olds.map SchemaField.Name
    · exfalso
      obtain ⟨g, hg, hgn⟩ := List.mem_map.mp hmem
      rcases old_name_status D tbl olds news n h g hg with ⟨s, hs, hsc⟩ | ⟨f2, hf2, hlook2, hn2⟩
      · exact hsrc ⟨s, hs, by rw [hsc, hgn]⟩
      · have : f2 = f := field_of_name h.newNames hf2 hf (hn2.symm.trans hgn)
        subst this
        rcases hchanged with ⟨hnone, _⟩ | ⟨g3, hg3, hne, _⟩
        · rw [hnone] at hlook2; cases hlook2
        · rw [hg3] at hlook2
          cases hlook2
          exact hne hn2
    · exact tableOf_of_not_mem data hmem

theorem secondPhase_on_table {δ : Type} (D : External) (fresh : δ) (tbl : String)
    (olds news : List SchemaField) (data : String → δ) (n : Nat)
    (h : CleanMigration D olds news n) (T2 : Table δ)
    (a1 : ∀ s ∈ dropStmts tbl news olds ++ firstPassStmts D tbl olds news n, ∀ b,
        s.dst = some b →
          T2 b = (match s.src with
                  | some a => tableOf olds data a
                  | none => some fresh))
    (a2 : ∀ c, (∃ s ∈ dropStmts tbl news olds ++ firstPassStmts D tbl olds news n,
        s.src = some c) → T2 c = none)
    (a3 : ∀ c, (∀ s ∈ dropStmts tbl news olds ++ firstPassStmts D tbl olds news n,
        s.src ≠ some c ∧ s.dst ≠ some c) → T2 c = tableOf olds data c) :
    ∃ T3 : Table δ,
      runTable fresh ((D.rangeOrder (firstPassRenames D olds news n)).map
        (fun p => Stmt.RenameColumn tbl p.1 p.2)) T2 = some T3 ∧
      (∀ t a, (t, a) ∈ firstPassRenames D olds news n → T3 a = T2 t) ∧
      (∀ t a, (t, a) ∈ firstPassRenames D olds news n → T3 t = none) ∧
      (∀ c, (∀ t a, (t, a) ∈ firstPassRenames D olds news n → t ≠ c ∧ a ≠ c) →
        T3 c = T2 c) := by
  have hmem : ∀ s, s ∈ (D.rangeOrder (firstPassRenames D olds news n)).map
      (fun p => Stmt.RenameColumn tbl p.1 p.2) ↔
      ∃ t a, (t, a) ∈ firstPassRenames D olds news n ∧ s = Stmt.RenameColumn tbl t a := by
    intro s
    simp only [List.mem_map, Prod.exists]
    constructor
    · rintro ⟨t, a, hp, rfl⟩
      exact ⟨t, a, h.order.mem_iff.mp hp, rfl⟩
    · rintro ⟨t, a, hp, rfl⟩
      exact ⟨t, a, h.order.mem_iff.mpr hp, rfl⟩
  have hpw0 : (firstPassRenames D olds news n).Pairwise
      (fun p q => Stmt.independent (Stmt.RenameColumn tbl p.1 p.2)
        (Stmt.RenameColumn tbl q.1 q.2)) := by
    have h1 : (firstPassRenames D olds news n).Pairwise (fun p q => p.1 ≠ q.1) :=
      List.pairwise_map.mp h.temps
    have h2 : (firstPassRenames D olds news n).Pairwise (fun p q => p.2 ≠ q.2) :=
      List.pairwise_map.mp
        (List.Nodup.sublist (firstPassRenames_finals D olds news n) h.newNames)
    refine (h1.and h2).imp ?_
    intro p q hpq
    exact ⟨by simpa [Stmt.src] using Ne.symm hpq.1, by simpa [Stmt.dst] using Ne.symm hpq.2⟩
  have hsymm : Symmetric Stmt.independent := by
    intro s t hst
    exact ⟨fun a ha hb => hst.1 a hb ha, fun b hb hc => hst.2 b hc hb⟩
  have hpw : ((D.rangeOrder (firstPassRenames D olds news n)).map
      (fun p => Stmt.RenameColumn tbl p.1 p.2)).Pairwise Stmt.independent :=
    ((h.order.map _).pairwise_iff (fun {s t} hst => hsymm hst)).mpr
      (List.pairwise_map.mpr hpw0)
  obtain ⟨T3, hrun, b1, b2, b3⟩ := runTable_independent fresh _ T2
    (by
      intro s hs
      obtain ⟨t, a, _, rfl⟩ := (hmem s).mp hs
      rfl)
    hpw
    (by
      intro s hs a0 ha0
      obtain ⟨t, a, hta, rfl⟩ := (hmem s).mp hs
      simp only [Stmt.src, Option.some.injEq] at ha0
      subst ha0
      obtain ⟨f, hf, _, hcase⟩ := mem_firstPassRenames D tbl olds news n t a hta
      rcases hcase with ⟨_, hs2⟩ | ⟨g, hg, _, hs2⟩
      · rw [a1 _ (List.mem_append_right _ hs2) t rfl]
        rfl
      · rw [a1 _ (List.mem_append_right _ hs2) t rfl]
        simp [Stmt.src, tableOf_of_mem h.oldNames data (GetFieldById_some hg).1])
    (by
      intro s hs b0 hb0
      obtain ⟨t, a, hta, rfl⟩ := (hmem s).mp hs
      simp only [Stmt.dst, Option.some.injEq] at hb0
      subst hb0
      exact changed_name_free D tbl olds news data n h T2 a2 a3 t a hta)
  refine ⟨T3, hrun, ?_, ?_, ?_⟩
  · intro t a hta
    exact b1 _ ((hmem _).mpr ⟨t, a, hta, rfl⟩) a rfl
  · intro t a hta
    exact b2 t ⟨_, (hmem _).mpr ⟨t, a, hta, rfl⟩, rfl⟩
  · intro c hc
    apply b3
    intro s hs
    obtain ⟨t, a, hta, rfl⟩ := (hmem s).mp hs
    have := hc t a hta
    exact ⟨by simpa [Stmt.src] using this.1, by simpa [Stmt.dst] using this.2⟩

theorem final_table {δ : Type} (D : External) (fresh : δ) (tbl : String)
    (olds news : List SchemaField) (data : String → δ) (n : Nat)
    (h : CleanMigration D olds news n) (T2 T3 : Table δ)
    (a1 : ∀ s ∈ dropStmts tbl news olds ++ firstPassStmts D tbl olds news n, ∀ b,
        s.dst = some b →
          T2 b = (match s.src with
                  | some a => tableOf olds data a
                  | none => some fresh))
    (a2 : ∀ c, (∃ s ∈ dropStmts tbl news olds ++ firstPassStmts D tbl olds news n,
        s.src = some c) → T2 c = none)
    (a3 : ∀ c, (∀ s ∈ dropStmts tbl news olds ++ firstPassStmts D tbl olds news n,
        s.src ≠ some c ∧ s.dst ≠ some c) → T2 c = tableOf olds data c)
    (b1 : ∀ t a, (t, a) ∈ firstPassRenames D olds news n → T3 a = T2 t)
    (b2 : ∀ t a, (t, a) ∈ firstPassRenames D olds news n → T3 t = none)
    (b3 : ∀ c, (∀ t a, (t, a) ∈ firstPassRenames D olds news n → t ≠ c ∧ a ≠ c) →
        T3 c = T2 c) :
    T3 = tableOf news (migratedData fresh olds data) := by
  have htemp : ∀ t a, (t, a) ∈ firstPassRenames D olds news n → t ∈ tempNames D olds news n :=
    fun t a hta => List.mem_map.mpr ⟨(t, a), hta, rfl⟩
  funext c
  by_cases hc : c ∈ news.map SchemaField.Name
  · obtain ⟨f, hf, rfl⟩ := List.mem_map.mp hc
    rw [tableOf_of_mem h.newNames _ hf]
    cases hlook : GetFieldById olds f.Id with
    | none =>
      obtain ⟨t, hta, hs⟩ := firstPass_of_added D tbl olds news n f hf hlook
      rw [b1 t _ hta, a1 _ (List.mem_append_right _ hs) t rfl]
      simp [Stmt.src, migratedData, hlook]
    | some g =>
      obtain ⟨hg, hid⟩ := GetFieldById_some hlook
      by_cases hn : g.Name = f.Name
      · rw [b3 f.Name, a3 f.Name (kept_name_untouched D tbl olds news n h f g hf hlook hn),
          ← hn, tableOf_of_mem h.oldNames data hg]
        · simp [migratedData, hlook, hid]
        · intro t a hta
          constructor
          · rintro rfl
            exact h.tempsNew _ (htemp _ a hta) hc
          · intro hcon
            obtain ⟨f2, hf2, ha, hchanged⟩ := mem_firstPassRenames D tbl olds news n t a hta
            have : f2 = f := field_of_name h.newNames hf2 hf (ha.symm.trans hcon)
            subst this
            rcases hchanged with ⟨hnone, _⟩ | ⟨g3, hg3, hne, _⟩
            · rw [hnone] at hlook; cases hlook
            · rw [hg3] at hlook
              cases hlook
              exact hne hn
      · obtain ⟨t, hta, hs⟩ := firstPass_of_renamed D tbl olds news n f g hf hlook hn
        rw [b1 t _ hta, a1 _ (List.mem_append_right _ hs) t rfl]
        simp [Stmt.src, migratedData, hlook, tableOf_of_mem h.oldNames data hg, hid]
  · rw [tableOf_of_not_mem _ hc]
    by_cases htc : ∃ a, (c, a) ∈ firstPassRenames D olds news n
    · obtain ⟨a, hca⟩ := htc
      exact b2 c a hca
    · have hnotfinal : ∀ t a, (t, a) ∈ firstPassRenames D olds news n → t ≠ c ∧ a ≠ c := by
        intro t a hta
        constructor
        · rintro rfl
          exact htc ⟨a, hta⟩
        · rintro rfl
          obtain ⟨f2, hf2, ha, _⟩ := mem_firstPassRenames D tbl olds news n t a hta
          exact hc (List.mem_map.mpr ⟨f2, hf2, ha.symm⟩)
      rw [b3 c hnotfinal]
      by_cases hsrc : ∃ s ∈ dropStmts tbl news olds ++ firstPassStmts D tbl olds news n,
          s.src = some c
      · exact a2 c hsrc
      · have hnodst : ∀ s ∈ dropStmts tbl news olds ++ firstPassStmts D tbl olds news n,
            s.dst ≠ some c := by
          intro s hs hd
          rcases List.mem_append.mp hs with hs | hs
          · obtain ⟨g2, _, _, rfl⟩ := mem_dropStmts hs
            simp [Stmt.dst] at hd
          · obtain ⟨f2, _, t2, ht2, hcase⟩ := mem_firstPassStmts D tbl olds news n s hs
            have : t2 = c := by
              rcases hcase with ⟨_, rfl⟩ | ⟨g2, _, _, rfl⟩ <;> simpa [Stmt.dst] using hd
            subst this
            obtain ⟨p, hp, hp1⟩ := List.mem_map.mp ht2
            exact htc ⟨p.2, by rw [← hp1]; exact hp⟩
        rw [a3 c (fun s hs => ⟨fun hcon => hsrc ⟨s, hs, hcon⟩, hnodst s hs⟩)]
        by_cases hmem : c ∈ olds.map SchemaField.Name
        · exfalso
          obtain ⟨g, hg, rfl⟩ := List.mem_map.mp hmem
          rcases old_name_status D tbl olds news n h g hg with ⟨s, hs, hsc⟩ | ⟨f2, hf2, _, hn2⟩
          · exact hsrc ⟨s, hs, hsc⟩
          · exact hc (List.mem_map.mpr ⟨f2, hf2, hn2.symm⟩)
        · exact tableOf_of_not_mem data hmem

/-- C2: for old and new schemas with unique field Ids and unique field names, and temporary
names distinct from each other and from every old and new column name, the column
statements of the update path (drops, first-pass adds and renames to temporary names,
second-pass renames in whatever order `range` yields the entries), executed on the table
holding one column per old field, never fail and leave exactly one column per new field,
named by the new field's Name and holding the data of the old column with the same Id, or
fresh data for an added field. -/
theorem syncColumns_on_table {δ : Type} (D : External) (fresh : δ) (tbl : String)
    (olds news : List SchemaField) (data : String → δ) (w : World (Table δ))
    (h : CleanMigration D olds news w.rng) (hdb : w.db = tableOf olds data) :
    (syncColumns D (tableBackend fresh) tbl olds news w).1 = .ok () ∧
    (syncColumns D (tableBackend fresh) tbl olds news w).2.db =
      tableOf news (migratedData fresh olds data) := by
  obtain ⟨T2, hrunA, a1, a2, a3⟩ := firstPhases_on_table D fresh tbl olds news data w.rng h
  obtain ⟨T3, hrunB, b1, b2, b3⟩ :=
    secondPhase_on_table D fresh tbl olds news data w.rng h T2 a1 a2 a3
  have hfinal := final_table D fresh tbl olds news data w.rng h T2 T3 a1 a2 a3 b1 b2 b3
  obtain ⟨T1, hr1, hr2⟩ := runTable_append fresh _ _ _ _ hrunA
  have d1 := dropDeletedColumns_table fresh tbl news olds w T1 (by rw [hdb]; exact hr1)
  unfold syncColumns
  rcases h1e : dropDeletedColumns (tableBackend fresh) tbl news olds w with ⟨r1, w1⟩
  rw [h1e] at d1
  obtain ⟨hr, hdb1, hrng1⟩ := d1
  simp only at hr hdb1 hrng1
  subst hr
  simp only
  have d2 := addOrRenameColumns_table D fresh tbl olds news [] w1 T2
    (by rw [hrng1, hdb1]; exact hr2) (by simp) (by rw [hrng1]; exact h.temps)
  rcases h2e : addOrRenameColumns D (tableBackend fresh) tbl olds news [] w1 with ⟨r2, w2⟩
  rw [h2e] at d2
  obtain ⟨hr2', hdb2⟩ := d2
  simp only [List.nil_append, hrng1] at hr2' hdb2
  subst hr2'
  simp only
  have d3 := applyRenames_table fresh tbl (D.rangeOrder (firstPassRenames D olds news w.rng))
    w2 T3 (by rw [hdb2]; exact hrunB)
  exact ⟨d3.1, d3.2.trans hfinal⟩

/-- C2 witness: the fields A (`fa`, name `x`) and B (`fb`, name `y`) swap their names while
`gone` is removed, `keep` is kept and `fresh` is added, the second pass running in reverse
order of insertion: no statement fails, the column `y` ends with the old data of A, the column
`x` with the old data of B, `keep` keeps its data, `fresh` is empty and `gone` is no more. -/
theorem syncColumns_on_table_witness :
    (CleanMigration demoExternal schemaBefore schemaAfter
        (World.start (tableOf schemaBefore exampleData)).rng ∧
      (World.start (tableOf schemaBefore exampleData)).db = tableOf schemaBefore exampleData) ∧
    ((syncColumns demoExternal (tableBackend "") "posts" schemaBefore schemaAfter
        (World.start (tableOf schemaBefore exampleData))).1 = .ok () ∧
      (syncColumns demoExternal (tableBackend "") "posts" schemaBefore schemaAfter
        (World.start (tableOf schemaBefore exampleData))).2.db =
        tableOf schemaAfter (migratedData "" schemaBefore exampleData)) ∧
    (tableOf schemaAfter (migratedData "" schemaBefore exampleData) "y" = some "data of fa" ∧
      tableOf schemaAfter (migratedData "" schemaBefore exampleData) "x" = some "data of fb" ∧
      tableOf schemaAfter (migratedData "" schemaBefore exampleData) "keep" =
        some "data of fd" ∧
      tableOf schemaAfter (migratedData "" schemaBefore exampleData) "fresh" = some "" ∧
      tableOf schemaAfter (migratedData "" schemaBefore exampleData) "gone" = none) :=
  have hclean : CleanMigration demoExternal schemaBefore schemaAfter
      (World.start (tableOf schemaBefore exampleData)).rng :=
    { oldIds := by decide
      oldNames := by decide
      newIds := by decide
      newNames := by decide
      temps := by decide
      tempsOld := by decide
      tempsNew := by decide
      order := List.reverse_perm _ }
  ⟨⟨hclean, rfl⟩,
   syncColumns_on_table demoExternal "" "posts" schemaBefore schemaAfter exampleData
     (World.start (tableOf schemaBefore exampleData)) hclean rfl,
   by decide⟩

/-! ## C3: the drop phase -/

/-- C3 (the code at the failing input): for the collection `posts` with two valid index
specs whose indexes both exist, `dropCollectionIndex` succeeds after looking up and dropping
the first index only; the second spec is never reached, so one DROP INDEX is issued and
not two. -/
theorem dropCollectionIndex_stops_after_first_index :
    (postsTwoIndexes.Indexes.map
      (fun raw => demoExternal.IsValid (demoExternal.ParseIndex raw))) = [true, true] ∧
    (dropCollectionIndex demoExternal allExist postsTwoIndexes (World.start ())).1 = .ok () ∧
    (dropCollectionIndex demoExternal allExist postsTwoIndexes (World.start ())).2.log =
      [Stmt.SelectIndexes "posts" "idx_a",
       Stmt.NewQuery "DROP INDEX [[idx_a]] ON [[posts]]"] := by
  decide

/-! ## C4: the create phase collects the index errors -/

theorem digitChar_toNat (d : Nat) (h : d < 10) : (digitChar d).toNat - 48 = d := by
  interval_cases d <;> rfl

theorem decimalValue_append (l : List Char) (ch : Char) :
    decimalValue (l ++ [ch]) = 10 * decimalValue l + (ch.toNat - 48) := by
  simp [decimalValue, List.foldl_append]

theorem decimalValue_decimalDigits (f n : Nat) (h : n < f) :
    decimalValue (decimalDigits f n) = n := by
  induction f generalizing n with
  | zero => omega
  | succ f ih =>
    unfold decimalDigits
    by_cases h10 : n < 10
    · simp only [h10, if_true]
      simpa [decimalValue] using digitChar_toNat n h10
    · simp only [h10, if_false]
      rw [decimalValue_append, ih (n / 10) (by omega),
        digitChar_toNat (n % 10) (Nat.mod_lt _ (by decide))]
      omega

theorem Itoa_injective (a b : Nat) (h : Itoa a = Itoa b) : a = b := by
  unfold Itoa at h
  have h2 : decimalDigits (a + 1) a = decimalDigits (b + 1) b := by
    simpa using congrArg String.data h
  have h3 := congrArg decimalValue h2
  rwa [decimalValue_decimalDigits _ _ (Nat.lt_succ_self a),
    decimalValue_decimalDigits _ _ (Nat.lt_succ_self b)] at h3

theorem mem_mapSet_key {β : Type} (m : List (String × β)) (k : String) (v : β) (a : String) :
    (∃ e, (a, e) ∈ mapSet m k v) ↔ a = k ∨ ∃ e, (a, e) ∈ m := by
  induction m with
  | nil => simp [mapSet]
  | cons p rest ih =>
    obtain ⟨k0, v0⟩ := p
    unfold mapSet
    by_cases hk : k0 = k
    · subst hk
      simp only [if_true, List.mem_cons, Prod.mk.injEq]
      constructor
      · rintro ⟨e, h | h⟩
        · exact Or.inl h.1
        · exact Or.inr ⟨e, Or.inr h⟩
      · rintro (h | ⟨e, h | h⟩)
        · exact ⟨v, Or.inl ⟨h, rfl⟩⟩
        · exact ⟨v, Or.inl ⟨h.1, rfl⟩⟩
        · exact ⟨e, Or.inr h⟩
    · simp only [hk, if_false, List.mem_cons, Prod.mk.injEq]
      constructor
      · rintro ⟨e, h | h⟩
        · exact Or.inr ⟨e, Or.inl h⟩
        · rcases ih.mp ⟨e, h⟩ with h1 | ⟨e1, h1⟩
          · exact Or.inl h1
          · exact Or.inr ⟨e1, Or.inr h1⟩
      · rintro (h | ⟨e, h | h⟩)
        · obtain ⟨e1, h1⟩ := ih.mpr (Or.inl h)
          exact ⟨e1, Or.inr h1⟩
        · exact ⟨e, Or.inl h⟩
        · obtain ⟨e1, h1⟩ := ih.mpr (Or.inr ⟨e, h⟩)
          exact ⟨e1, Or.inr h1⟩

theorem createIndexesLoop_invalid {σ : Type} (D : External) (B : Backend σ) (c : Collection)
    (idx : String) (rest : List String) (i : Nat) (errs : List (String × ValidationError))
    (w : World σ) (hv : D.IsValid (parsedFor D c idx) = false) :
    createIndexesLoop D B c i (idx :: rest) errs w =
      createIndexesLoop D B c (i + 1) rest (mapSet errs (Itoa i) invalidIndexError) w := by
  rw [createIndexesLoop]
  simp [hv]

theorem createIndexesLoop_failed {σ : Type} (D : External) (B : Backend σ) (c : Collection)
    (idx : String) (rest : List String) (i : Nat) (errs : List (String × ValidationError))
    (w w1 : World σ) (e : Error) (hv : D.IsValid (parsedFor D c idx) = true)
    (hx : execute B (Stmt.NewQuery (createIndexSql D (parsedFor D c idx))) w = (.error e, w1)) :
    createIndexesLoop D B c i (idx :: rest) errs w =
      createIndexesLoop D B c (i + 1) rest
        (mapSet errs (Itoa i) (failedIndexError (parsedFor D c idx).IndexName e.text)) w1 := by
  rw [createIndexesLoop]
  simp [hv, hx]

theorem createIndexesLoop_created {σ : Type} (D : External) (B : Backend σ) (c : Collection)
    (idx : String) (rest : List String) (i : Nat) (errs : List (String × ValidationError))
    (w w1 : World σ) (u : Unit) (hv : D.IsValid (parsedFor D c idx) = true)
    (hx : execute B (Stmt.NewQuery (createIndexSql D (parsedFor D c idx))) w = (.ok u, w1)) :
    createIndexesLoop D B c i (idx :: rest) errs w =
      createIndexesLoop D B c (i + 1) rest errs w1 := by
  rw [createIndexesLoop]
  simp [hv, hx]

theorem createIndexesLoop_append {σ : Type} (D : External) (B : Backend σ) (c : Collection)
    (l1 l2 : List String) (i : Nat) (errs : List (String × ValidationError)) (w : World σ) :
    createIndexesLoop D B c i (l1 ++ l2) errs w =
      createIndexesLoop D B c (i + l1.length) l2 (createIndexesLoop D B c i l1 errs w).1
        (createIndexesLoop D B c i l1 errs w).2 := by
  induction l1 generalizing i errs w with
  | nil => simp [createIndexesLoop]
  | cons idx rest ih =>
    have harith : i + (rest.length + 1) = i + 1 + rest.length := by omega
    simp only [List.cons_append, List.length_cons, harith]
    by_cases hv : D.IsValid (parsedFor D c idx) = true
    · rcases hx : execute B (Stmt.NewQuery (createIndexSql D (parsedFor D c idx))) w
        with ⟨r, w1⟩
      cases r with
      | error e =>
        rw [createIndexesLoop_failed D B c idx _ i errs w w1 e hv hx,
          createIndexesLoop_failed D B c idx _ i errs w w1 e hv hx]
        exact ih _ _ _
      | ok u =>
        rw [createIndexesLoop_created D B c idx _ i errs w w1 u hv hx,
          createIndexesLoop_created D B c idx _ i errs w w1 u hv hx]
        exact ih _ _ _
    · have hv2 : D.IsValid (parsedFor D c idx) = false := by simpa using hv
      rw [createIndexesLoop_invalid D B c idx _ i errs w hv2,
        createIndexesLoop_invalid D B c idx _ i errs w hv2]
      exact ih _ _ _

theorem createIndexesLoop_world {σ : Type} (D : External) (B : Backend σ) (c : Collection)
    (l : List String) (i j : Nat) (errs errs2 : List (String × ValidationError)) (w : World σ) :
    (createIndexesLoop D B c i l errs w).2 = (createIndexesLoop D B c j l errs2 w).2 := by
  induction l generalizing i j errs errs2 w with
  | nil => simp [createIndexesLoop]
  | cons idx rest ih =>
    by_cases hv : D.IsValid (parsedFor D c idx) = true
    · rcases hx : execute B (Stmt.NewQuery (createIndexSql D (parsedFor D c idx))) w
        with ⟨r, w1⟩
      cases r with
      | error e =>
        rw [createIndexesLoop_failed D B c idx _ i errs w w1 e hv hx,
          createIndexesLoop_failed D B c idx _ j errs2 w w1 e hv hx]
        exact ih _ _ _ _ _
      | ok u =>
        rw [createIndexesLoop_created D B c idx _ i errs w w1 u hv hx,
          createIndexesLoop_created D B c idx _ j errs2 w w1 u hv hx]
        exact ih _ _ _ _ _
    · have hv2 : D.IsValid (parsedFor D c idx) = false := by simpa using hv
      rw [createIndexesLoop_invalid D B c idx _ i errs w hv2,
        createIndexesLoop_invalid D B c idx _ j errs2 w hv2]
      exact ih _ _ _ _ _

theorem createIndexesLoop_prefix {σ : Type} (D : External) (B : Backend σ) (c : Collection)
    (w : World σ) (m : Nat) :
    (createIndexesLoop D B c 0 (c.Indexes.take m) [] w).2.log =
        w.log ++ ((c.Indexes.take m).filter (fun idx => D.IsValid (parsedFor D c idx))).map
          (fun idx => Stmt.NewQuery (createIndexSql D (parsedFor D c idx))) ∧
    ∀ key : String,
      (∃ e, (key, e) ∈ (createIndexesLoop D B c 0 (c.Indexes.take m) [] w).1) ↔
        ∃ i, i < m ∧ key = Itoa i ∧ indexRejected D B c w i = true := by
  induction m with
  | zero => simp [createIndexesLoop]
  | succ m ih =>
    obtain ⟨ihlog, ihkeys⟩ := ih
    rw [List.take_succ]
    cases hidx : c.Indexes[m]? with
    | none =>
      simp only [Option.toList, List.append_nil]
      refine ⟨ihlog, fun key => ?_⟩
      rw [ihkeys key]
      constructor
      · rintro ⟨i, hi, hk, hr⟩
        exact ⟨i, by omega, hk, hr⟩
      · rintro ⟨i, hi, hk, hr⟩
        by_cases him : i = m
        · subst him
          simp [indexRejected, hidx] at hr
        · exact ⟨i, by omega, hk, hr⟩
    | some idx =>
      have hm : m < c.Indexes.length := by
        by_contra hcon
        rw [List.getElem?_eq_none (by omega)] at hidx
        cases hidx
      have hlen : (c.Indexes.take m).length = m := by
        rw [List.length_take]; omega
      simp only [Option.toList]
      rw [createIndexesLoop_append, hlen, Nat.zero_add, List.filter_append, List.map_append,
        ← List.append_assoc, ← ihlog]
      have hstep : ∀ key : String,
          (∃ i, i < m + 1 ∧ key = Itoa i ∧ indexRejected D B c w i = true) ↔
            ((key = Itoa m ∧ indexRejected D B c w m = true) ∨
              ∃ i, i < m ∧ key = Itoa i ∧ indexRejected D B c w i = true) := by
        intro key
        constructor
        · rintro ⟨i, hi, hk, hr⟩
          by_cases him : i = m
          · subst him; exact Or.inl ⟨hk, hr⟩
          · exact Or.inr ⟨i, by omega, hk, hr⟩
        · rintro (⟨hk, hr⟩ | ⟨i, hi, hk, hr⟩)
          · exact ⟨m, by omega, hk, hr⟩
          · exact ⟨i, by omega, hk, hr⟩
      by_cases hv : D.IsValid (parsedFor D c idx) = true
      · rcases hx : execute B (Stmt.NewQuery (createIndexSql D (parsedFor D c idx)))
            (createIndexesLoop D B c 0 (c.Indexes.take m) [] w).2 with ⟨r, w1⟩
        have hl := execute_log B (Stmt.NewQuery (createIndexSql D (parsedFor D c idx)))
            (createIndexesLoop D B c 0 (c.Indexes.take m) [] w).2
        rw [hx] at hl
        cases r with
        | error e =>
          rw [createIndexesLoop_failed D B c idx _ m _ _ w1 e hv hx]
          have hrej : indexRejected D B c w m = true := by
            simp [indexRejected, hidx, hv, hx]
          refine ⟨by simpa [createIndexesLoop, hv] using hl, fun key => ?_⟩
          simp only [createIndexesLoop]
          rw [mem_mapSet_key, hstep key, ihkeys key]
          simp [hrej]
        | ok u =>
          rw [createIndexesLoop_created D B c idx _ m _ _ w1 u hv hx]
          have hrej : indexRejected D B c w m = false := by
            simp [indexRejected, hidx, hv, hx]
          refine ⟨by simpa [createIndexesLoop, hv] using hl, fun key => ?_⟩
          simp only [createIndexesLoop]
          rw [hstep key, ihkeys key]
          simp [hrej]
      · have hv2 : D.IsValid (parsedFor D c idx) = false := by simpa using hv
        rw [createIndexesLoop_invalid D B c idx _ m _ _ hv2]
        have hrej : indexRejected D B c w m = true := by
          simp [indexRejected, hidx, hv2]
        refine ⟨by simp [createIndexesLoop, hv2], fun key => ?_⟩
        simp only [createIndexesLoop]
        rw [mem_mapSet_key, hstep key, ihkeys key]
        simp [hrej]

theorem createIndexesLoop_errors {σ : Type} (D : External) (B : Backend σ) (c : Collection)
    (w : World σ) (m : Nat) :
    (createIndexesLoop D B c 0 (c.Indexes.take m) [] w).1 =
      (List.range m).filterMap (fun i => (indexError D B c w i).map (fun e => (Itoa i, e))) := by
  induction m with
  | zero => simp [createIndexesLoop]
  | succ m ih =>
    have hfresh : Itoa m ∉ (createIndexesLoop D B c 0 (c.Indexes.take m) [] w).1.map Prod.fst := by
      intro hmem
      obtain ⟨p, hp, hkey⟩ := List.mem_map.mp hmem
      obtain ⟨j, hj, hk, _⟩ :=
        (( createIndexesLoop_prefix D B c w m).2 (Itoa m)).mp ⟨p.2, by rw [← hkey]; exact hp⟩
      have := Itoa_injective m j hk
      omega
    rw [List.take_succ, List.range_succ, List.filterMap_append]
    cases hidx : c.Indexes[m]? with
    | none =>
      simp only [Option.toList, List.append_nil]
      rw [ih]
      simp [indexError, hidx]
    | some idx =>
      have hm : m < c.Indexes.length := by
        by_contra hcon
        rw [List.getElem?_eq_none (by omega)] at hidx
        cases hidx
      have hlen : (c.Indexes.take m).length = m := by
        rw [List.length_take]; omega
      simp only [Option.toList]
      rw [createIndexesLoop_append, hlen, Nat.zero_add]
      by_cases hv : D.IsValid (parsedFor D c idx) = true
      · rcases hx : execute B (Stmt.NewQuery (createIndexSql D (parsedFor D c idx)))
            (createIndexesLoop D B c 0 (c.Indexes.take m) [] w).2 with ⟨r, w1⟩
        cases r with
        | error e =>
          rw [createIndexesLoop_failed D B c idx _ m _ _ w1 e hv hx]
          simp only [createIndexesLoop]
          rw [mapSet_fresh _ _ _ hfresh, ih]
          simp [indexError, hidx, hv, hx]
        | ok u =>
          rw [createIndexesLoop_created D B c idx _ m _ _ w1 u hv hx]
          simp only [createIndexesLoop]
          rw [ih]
          simp [indexError, hidx, hv, hx]
      · have hv2 : D.IsValid (parsedFor D c idx) = false := by simpa using hv
        rw [createIndexesLoop_invalid D B c idx _ m _ _ hv2]
        simp only [createIndexesLoop]
        rw [mapSet_fresh _ _ _ hfresh, ih]
        simp [indexError, hidx, hv2]

theorem length_filterMap_isSome {α β : Type} (f : α → Option β) (l : List α) :
    (l.filterMap f).length = (l.filter (fun a => (f a).isSome)).length := by
  induction l with
  | nil => rfl
  | cons a rest ih =>
    cases ha : f a with
    | none => simp [List.filterMap_cons, List.filter_cons, ha, ih]
    | some b => simp [List.filterMap_cons, List.filter_cons, ha, ih]

theorem execute_error_plain {σ : Type} (B : Backend σ) (s : Stmt) (w : World σ) :
    ∀ e, (execute B s w).1 = .error e → ∃ msg, e = Error.plain msg := by
  intro e h
  unfold execute at h
  split at h
  · simp only [Except.error.injEq] at h
    exact ⟨_, h.symm⟩
  · simp at h

theorem queryIndexes_error_plain {σ : Type} (B : Backend σ) (t i : String) (w : World σ) :
    ∀ e, (queryIndexes B t i w).1 = .error e → ∃ msg, e = Error.plain msg := by
  intro e h
  unfold queryIndexes at h
  split at h
  · simp only [Except.error.injEq] at h
    exact ⟨_, h.symm⟩
  · simp at h

theorem dropCollectionIndexLoop_error_plain {σ : Type} (D : External) (B : Backend σ)
    (l : List String) (w : World σ) (e : Error)
    (h : (dropCollectionIndexLoop D B l w).1 = .error e) : ∃ msg, e = Error.plain msg := by
  induction l generalizing w with
  | nil => simp [dropCollectionIndexLoop] at h
  | cons raw rest ih =>
    unfold dropCollectionIndexLoop at h
    by_cases hv : D.IsValid (D.ParseIndex raw) = true
    · simp only [hv, Bool.not_true, Bool.false_eq_true, if_false] at h
      have hq := queryIndexes_error_plain B (D.ParseIndex raw).TableName
        (D.ParseIndex raw).IndexName w
      rcases hqe : queryIndexes B (D.ParseIndex raw).TableName (D.ParseIndex raw).IndexName w
        with ⟨r, w1⟩
      rw [hqe] at h hq
      cases r with
      | error e1 =>
        simp only [Except.error.injEq] at h
        subst h
        exact hq e1 rfl
      | ok n =>
        simp only at h
        by_cases hn : n > 0
        · simp only [hn, if_true] at h
          have hx := execute_error_plain B
            (Stmt.NewQuery (dropIndexSql (D.ParseIndex raw).IndexName
              (D.ParseIndex raw).TableName)) w1
          rcases hxe : execute B (Stmt.NewQuery (dropIndexSql (D.ParseIndex raw).IndexName
              (D.ParseIndex raw).TableName)) w1 with ⟨r2, w2⟩
          rw [hxe] at h hx
          cases r2 with
          | error e2 =>
            simp only [Except.error.injEq] at h
            subst h
            exact hx e2 rfl
          | ok u => simp at h
        · simp [hn] at h
    · simp only [hv, Bool.not_false, if_true] at h
      exact ih w h

theorem dropCollectionIndex_error_plain {σ : Type} (D : External) (B : Backend σ)
    (c : Collection) (w : World σ) (e : Error)
    (h : (dropCollectionIndex D B c w).1 = .error e) : ∃ msg, e = Error.plain msg := by
  unfold dropCollectionIndex at h
  split at h
  · simp at h
  · rw [RunInTransaction_fst] at h
    exact dropCollectionIndexLoop_error_plain D B _ _ e h

/-- C4 (as stated, refuted): when the DROP INDEX of the preliminary drop phase fails,
`createCollectionIndexes` returns that plain error and attempts no CREATE statement; the
spec at position 1 is invalid, yet the result is not the aggregated validation error.  And
with one invalid and one valid spec whose CREATE statement the database refuses, two
validation errors are reported, not one. -/
theorem createCollectionIndexes_drop_failure_is_fatal :
    (demoExternal.IsValid (parsedFor demoExternal postsGoodAndBad "CREATE INDEX") = false ∧
      (createCollectionIndexes demoExternal dropIndexFails postsGoodAndBad (World.start ())).1 =
        .error (Error.plain "statement failed") ∧
      (createCollectionIndexes demoExternal dropIndexFails postsGoodAndBad
        (World.start ())).2.log =
        [Stmt.SelectIndexes "posts" "idx_a",
         Stmt.NewQuery "DROP INDEX [[idx_a]] ON [[posts]]"]) ∧
    (postsBadAndGood.Indexes.map
        (fun idx => demoExternal.IsValid (parsedFor demoExternal postsBadAndGood idx)) =
        [false, true] ∧
      (createCollectionIndexes demoExternal createIndexFails postsBadAndGood
        (World.start ())).1 =
        .error (Error.indexes
          [("0", invalidIndexError), ("1", failedIndexError "idx_a" "statement failed")])) := by
  decide

/-- C4 (amended): `createCollectionIndexes` on a non-view collection first re-runs the drop
phase.  Whenever the drop phase fails, its error - a plain error - is the result, and no
statement is issued beyond those of the drop phase: no index spec is attempted.  Whenever
the drop phase succeeds, every valid index spec is attempted - the CREATE statements issued
are those of all valid specs, in order, whatever the outcome of the others.  The result is
then the aggregated validation error exactly when some position is rejected (its spec is
invalid or its CREATE statement fails); the aggregated error holds, in the order of the
positions, one entry for each rejected position and no other entry, keyed by the decimal
text of the position; and at every position that is not rejected the spec is valid and its
CREATE statement has been accepted by the database: the index is created. -/
theorem createCollectionIndexes_collects {σ : Type} (D : External) (B : Backend σ)
    (c : Collection) (w : World σ) (hview : c.IsView = false) :
    (∀ e, (dropCollectionIndex D B c w.enter).1 = .error e →
      (∃ msg, e = Error.plain msg) ∧
      (createCollectionIndexes D B c w).1 = .error e ∧
      (createCollectionIndexes D B c w).2.log = (dropCollectionIndex D B c w.enter).2.log) ∧
    ((dropCollectionIndex D B c w.enter).1 = .ok () →
      (createCollectionIndexes D B c w).2.log =
          (dropCollectionIndex D B c w.enter).2.log ++
            (c.Indexes.filter (fun idx => D.IsValid (parsedFor D c idx))).map
              (fun idx => Stmt.NewQuery (createIndexSql D (parsedFor D c idx))) ∧
      (((createCollectionIndexes D B c w).1 = .ok () ∧
          ∀ i, indexRejected D B c (dropCollectionIndex D B c w.enter).2 i = false) ∨
        ((createCollectionIndexes D B c w).1 =
            .error (Error.indexes (indexErrors D B c (dropCollectionIndex D B c w.enter).2)) ∧
          (∃ i, indexRejected D B c (dropCollectionIndex D B c w.enter).2 i = true) ∧
          ∀ i, (∃ e, (Itoa i, e) ∈ indexErrors D B c (dropCollectionIndex D B c w.enter).2) ↔
            indexRejected D B c (dropCollectionIndex D B c w.enter).2 i = true)) ∧
      (indexErrors D B c (dropCollectionIndex D B c w.enter).2).length =
        ((List.range c.Indexes.length).filter
          (fun i => indexRejected D B c (dropCollectionIndex D B c w.enter).2 i)).length ∧
      ∀ i idx, c.Indexes[i]? = some idx →
        indexRejected D B c (dropCollectionIndex D B c w.enter).2 i = false →
        D.IsValid (parsedFor D c idx) = true ∧
        (execute B (Stmt.NewQuery (createIndexSql D (parsedFor D c idx)))
          (createIndexesLoop D B c 0 (c.Indexes.take i) []
            (dropCollectionIndex D B c w.enter).2).2).1 = .ok ()) := by
  have hfst : (createCollectionIndexes D B c w).1 =
      (createCollectionIndexesBody D B c w.enter).1 := by
    simp only [createCollectionIndexes, hview, Bool.false_eq_true, if_false]
    exact RunInTransaction_fst _ w
  have hlog : (createCollectionIndexes D B c w).2.log =
      (createCollectionIndexesBody D B c w.enter).2.log := by
    simp only [createCollectionIndexes, hview, Bool.false_eq_true, if_false]
    exact RunInTransaction_log _ w
  rw [hfst, hlog]
  unfold createCollectionIndexesBody
  have hplain := dropCollectionIndex_error_plain D B c w.enter
  rcases hde : dropCollectionIndex D B c w.enter with ⟨r, w1⟩
  rw [hde] at hplain
  simp only at hplain ⊢
  constructor
  · intro e he
    subst he
    exact ⟨hplain e rfl, rfl, rfl⟩
  · intro hdrop
    subst hdrop
    simp only
    obtain ⟨plog, pkeys⟩ := createIndexesLoop_prefix D B c w1 c.Indexes.length
    have perrs := createIndexesLoop_errors D B c w1 c.Indexes.length
    rw [List.take_length] at plog pkeys perrs
    have perrs2 : (createIndexesLoop D B c 0 c.Indexes [] w1).1 = indexErrors D B c w1 := perrs
    rcases hle : createIndexesLoop D B c 0 c.Indexes [] w1 with ⟨errs, w2⟩
    rw [hle] at plog pkeys perrs2
    simp only at plog pkeys perrs2
    subst perrs2
    have hkey : ∀ i, (∃ e, (Itoa i, e) ∈ indexErrors D B c w1) ↔
        indexRejected D B c w1 i = true := by
      intro i
      rw [pkeys (Itoa i)]
      constructor
      · rintro ⟨j, _, hk, hr⟩
        rw [Itoa_injective i j hk]; exact hr
      · intro hr
        refine ⟨i, ?_, rfl, hr⟩
        by_contra hcon
        have hnone : c.Indexes[i]? = none := List.getElem?_eq_none (by omega)
        simp [indexRejected, hnone] at hr
    have hsome : ∀ i, (indexError D B c w1 i).isSome = indexRejected D B c w1 i := by
      intro i
      unfold indexError indexRejected
      cases hidx : c.Indexes[i]? with
      | none => rfl
      | some idx =>
        simp only
        by_cases hv : D.IsValid (parsedFor D c idx) = true
        · simp only [hv, Bool.not_true, Bool.false_eq_true, if_false, Bool.false_or]
          split <;> rfl
        · have hv2 : D.IsValid (parsedFor D c idx) = false := by simpa using hv
          simp [hv2]
    refine ⟨by split <;> simpa using plog, ?_, ?_, ?_⟩
    · cases herrs : indexErrors D B c w1 with
      | nil =>
        refine Or.inl ⟨by simp, fun i => ?_⟩
        have := hkey i
        rw [herrs] at this
        simp only [List.not_mem_nil, exists_false, false_iff] at this
        simpa using this
      | cons p rest =>
        refine Or.inr ⟨by simp, ?_, by rw [← herrs]; exact hkey⟩
        obtain ⟨j, _, _, hr⟩ := (pkeys p.1).mp ⟨p.2, by rw [herrs]; simp⟩
        exact ⟨j, hr⟩
    · unfold indexErrors
      rw [length_filterMap_isSome]
      congr 1
      apply List.filter_congr
      intro i _
      rw [← hsome i]
      cases indexError D B c w1 i <;> rfl
    · intro i idx hidx hrej
      unfold indexRejected at hrej
      simp only [hidx, Bool.or_eq_false_iff, Bool.not_eq_false'] at hrej
      refine ⟨hrej.1, ?_⟩
      rcases hres : (execute B (Stmt.NewQuery (createIndexSql D (parsedFor D c idx)))
          (createIndexesLoop D B c 0 (c.Indexes.take i) [] w1).2).1 with e | u
      · rw [hres] at hrej
        simp at hrej
      · rfl

/-- C4 (amended) witness: one invalid and one valid spec, inside the transaction of the
caller, on a database that keeps what it has executed and where no index exists yet - the
valid index is created and exactly one validation error, keyed "0", is reported. -/
theorem createCollectionIndexes_collects_witness :
    postsBadAndGood.IsView = false ∧
    (createCollectionIndexes demoExternal recordingBackend postsBadAndGood
        (World.start ([] : List Stmt)).enter).1 =
      .error (Error.indexes [("0", invalidIndexError)]) ∧
    (createCollectionIndexes demoExternal recordingBackend postsBadAndGood
        (World.start ([] : List Stmt)).enter).2.log =
      [Stmt.SelectIndexes "posts" "idx_a",
       Stmt.NewQuery "CREATE FULLTEXT INDEX idx_a ON posts (a)"] ∧
    (createCollectionIndexes demoExternal recordingBackend postsBadAndGood
        (World.start ([] : List Stmt)).enter).2.db =
      [Stmt.NewQuery "CREATE FULLTEXT INDEX idx_a ON posts (a)"] ∧
    (indexErrors demoExternal recordingBackend postsBadAndGood
        (dropCollectionIndex demoExternal recordingBackend postsBadAndGood
          (World.start ([] : List Stmt)).enter.enter).2).length =
      ((List.range postsBadAndGood.Indexes.length).filter
        (fun i => indexRejected demoExternal recordingBackend postsBadAndGood
          (dropCollectionIndex demoExternal recordingBackend postsBadAndGood
            (World.start ([] : List Stmt)).enter.enter).2 i)).length :=
  ⟨by decide, by decide, by decide, by decide,
   ((createCollectionIndexes_collects demoExternal recordingBackend postsBadAndGood
     (World.start ([] : List Stmt)).enter (by decide)).2 (by decide)).2.2.1⟩

/-! ## C5: the statement executed for an index -/

/-- C5 (the code at the failing input): for the non-unique index `idx_a` the text built
from the parsed index is `CREATE INDEX idx_a ON posts (a)`, but the statement executed is
`CREATE FULLTEXT INDEX idx_a ON posts (a)`; the unique index `idx_b` is executed as
built. -/
theorem createCollectionIndexes_issues_fulltext :
    demoExternal.Build (parsedFor demoExternal postsPlainAndUnique
      "CREATE INDEX idx_a ON posts (a)") = "CREATE INDEX idx_a ON posts (a)" ∧
    (createCollectionIndexes demoExternal noneExist postsPlainAndUnique
      (World.start ())).1 = .ok () ∧
    (createCollectionIndexes demoExternal noneExist postsPlainAndUnique
      (World.start ())).2.log =
      [Stmt.SelectIndexes "posts" "idx_a",
       Stmt.NewQuery "CREATE FULLTEXT INDEX idx_a ON posts (a)",
       Stmt.NewQuery "CREATE UNIQUE INDEX idx_b ON posts (b)"] := by
  decide

/-! ## C6: the table addressed by index statements -/

/-- C6 (the code at the failing input): for the collection `posts` whose index spec names
the table `users`, the metadata lookup and the DROP INDEX of the drop phase address `users`,
the table named in the spec; only the CREATE statement addresses `posts`. -/
theorem dropCollectionIndex_targets_spec_table :
    postsForeignIndex.Name = "posts" ∧
    (dropCollectionIndex demoExternal allExist postsForeignIndex (World.start ())).2.log =
      [Stmt.SelectIndexes "users" "idx_u",
       Stmt.NewQuery "DROP INDEX [[idx_u]] ON [[users]]"] ∧
    (createCollectionIndexes demoExternal allExist postsForeignIndex (World.start ())).2.log =
      [Stmt.SelectIndexes "users" "idx_u",
       Stmt.NewQuery "DROP INDEX [[idx_u]] ON [[users]]",
       Stmt.NewQuery "CREATE FULLTEXT INDEX idx_u ON posts (a)"] := by
  decide

/-! ## C7: the table rename of the update path -/

/-- C7 (as stated, refuted): the collection `Posts` renamed to `posts` has a new name that
differs from the old one as a string, the synchronisation succeeds, and yet no statement at
all - so no table rename - is issued. -/
theorem rename_table_skipped_for_case_change :
    upperPosts.Name ≠ lowerPosts.Name ∧
    (SyncRecordTableSchema demoExternal allExist lowerPosts (some upperPosts)
      (World.start ())).1 = .ok () ∧
    (SyncRecordTableSchema demoExternal allExist lowerPosts (some upperPosts)
      (World.start ())).2.log = [] := by
  decide

/-- C7 (amended): in the update path, once the old indexes have been dropped, the statements
issued are: the index statements of that drop, then the table rename from the old to the new
name exactly when `strings.EqualFold` does not hold of the two names, then statements none
of which renames a table and whose column statements all address the table by the new
name. -/
theorem SyncRecordTableSchema_rename_table {σ : Type} (D : External) (B : Backend σ)
    (newC oldC : Collection) (w : World σ)
    (hdrop : (dropCollectionIndex D B oldC w.enter).1 = .ok ()) :
    ∃ pre rest : List Stmt,
      (SyncRecordTableSchema D B newC (some oldC) w).2.log =
        w.log ++ pre ++
          (if D.EqualFold oldC.Name newC.Name = true then []
           else [Stmt.RenameTable ("\x7b\x7b" ++ oldC.Name ++ "\x7d\x7d")
                  ("\x7b\x7b" ++ newC.Name ++ "\x7d\x7d")]) ++ rest ∧
      (∀ s ∈ pre, s.isIndexStmt = true) ∧
      (∀ s ∈ rest, s.isRenameTable = false ∧
        (s.columnTable = none ∨ s.columnTable = some newC.Name)) := by
  have hlog : (SyncRecordTableSchema D B newC (some oldC) w).2.log =
      (syncUpdate D B newC oldC w.enter).2.log := by
    unfold SyncRecordTableSchema
    rw [RunInTransaction_log]
  rw [hlog]
  obtain ⟨pre, hpre, hpreP⟩ :=
    dropCollectionIndex_extends D B (fun s => s.isIndexStmt = true) (fun _ h => h) oldC w.enter
  refine ⟨pre, ?_⟩
  unfold syncUpdate
  rcases hde : dropCollectionIndex D B oldC w.enter with ⟨r, w1⟩
  rw [hde] at hdrop hpre
  simp only at hdrop hpre
  subst hdrop
  simp only [enter_log] at hpre
  simp only
  unfold renameTableIfNeeded
  by_cases hf : D.EqualFold oldC.Name newC.Name = true
  · simp only [hf, Bool.not_true, Bool.false_eq_true, if_false, if_true, List.append_nil]
    have h3 := syncColumns_extends D B newC.Name oldC.Schema newC.Schema w1
    rcases h3e : syncColumns D B newC.Name oldC.Schema newC.Schema w1 with ⟨r3, w3⟩
    rw [h3e] at h3
    cases r3 with
    | error e =>
      obtain ⟨ext, hext, hP⟩ := h3
      exact ⟨ext, by simpa [hpre, List.append_assoc] using hext, hpreP, hP⟩
    | ok u3 =>
      simp only
      have h4 := normalize_extends D B newC (some oldC) w3
      rcases h4e : normalizeSingleVsMultipleFieldChanges D B newC (some oldC) w3 with ⟨r4, w4⟩
      rw [h4e] at h4
      cases r4 with
      | error e =>
        obtain ⟨ext, hext, hP⟩ := h3.trans h4
        exact ⟨ext, by simpa [hpre, List.append_assoc] using hext, hpreP, hP⟩
      | ok u4 =>
        simp only
        have h5 := createCollectionIndexes_extends D B (Stmt.addresses newC.Name)
          (fun s h => addresses_of_index s h) newC w4
        obtain ⟨ext, hext, hP⟩ := (h3.trans h4).trans h5
        exact ⟨ext, by simpa [hpre, List.append_assoc] using hext, hpreP, hP⟩
  · simp only [hf, Bool.not_false, if_true, if_false]
    have hlog2 := execute_log B (Stmt.RenameTable ("\x7b\x7b" ++ oldC.Name ++ "\x7d\x7d")
      ("\x7b\x7b" ++ newC.Name ++ "\x7d\x7d")) w1
    rcases h2e : execute B (Stmt.RenameTable ("\x7b\x7b" ++ oldC.Name ++ "\x7d\x7d")
      ("\x7b\x7b" ++ newC.Name ++ "\x7d\x7d")) w1 with ⟨r2, w2⟩
    rw [h2e] at hlog2
    simp only at hlog2
    cases r2 with
    | error e =>
      exact ⟨[], by simp [hlog2, hpre], hpreP, by simp⟩
    | ok u2 =>
      simp only
      have h3 := syncColumns_extends D B newC.Name oldC.Schema newC.Schema w2
      rcases h3e : syncColumns D B newC.Name oldC.Schema newC.Schema w2 with ⟨r3, w3⟩
      rw [h3e] at h3
      cases r3 with
      | error e =>
        obtain ⟨ext, hext, hP⟩ := h3
        exact ⟨ext, by simpa [hpre, hlog2, List.append_assoc] using hext, hpreP, hP⟩
      | ok u3 =>
        simp only
        have h4 := normalize_extends D B newC (some oldC) w3
        rcases h4e : normalizeSingleVsMultipleFieldChanges D B newC (some oldC) w3
          with ⟨r4, w4⟩
        rw [h4e] at h4
        cases r4 with
        | error e =>
          obtain ⟨ext, hext, hP⟩ := h3.trans h4
          exact ⟨ext, by simpa [hpre, hlog2, List.append_assoc] using hext, hpreP, hP⟩
        | ok u4 =>
          simp only
          have h5 := createCollectionIndexes_extends D B (Stmt.addresses newC.Name)
            (fun s h => addresses_of_index s h) newC w4
          obtain ⟨ext, hext, hP⟩ := (h3.trans h4).trans h5
          exact ⟨ext, by simpa [hpre, hlog2, List.append_assoc] using hext, hpreP, hP⟩

/-- C7 witness: `Posts` renamed to `articles` with its two fields swapping names, on a
database where every statement succeeds. -/
theorem SyncRecordTableSchema_rename_table_witness :
    (dropCollectionIndex demoExternal allExist postsBefore (World.start ()).enter).1 = .ok () ∧
    ∃ pre rest : List Stmt,
      (SyncRecordTableSchema demoExternal allExist articlesAfter (some postsBefore)
          (World.start ())).2.log =
        (World.start ()).log ++ pre ++
          (if demoExternal.EqualFold postsBefore.Name articlesAfter.Name = true then []
           else [Stmt.RenameTable ("\x7b\x7b" ++ postsBefore.Name ++ "\x7d\x7d")
                  ("\x7b\x7b" ++ articlesAfter.Name ++ "\x7d\x7d")]) ++ rest ∧
      (∀ s ∈ pre, s.isIndexStmt = true) ∧
      (∀ s ∈ rest, s.isRenameTable = false ∧
        (s.columnTable = none ∨ s.columnTable = some articlesAfter.Name)) :=
  ⟨by decide,
   SyncRecordTableSchema_rename_table demoExternal allExist articlesAfter postsBefore
     (World.start ()) (by decide)⟩

/-! ## C8: which fields are normalised -/

theorem normalizeLoop_ok {σ : Type} (D : External) (B : Backend σ) (newC oldC : Collection)
    (l : List SchemaField) (w : World σ)
    (hok : (normalizeLoop D B newC oldC l w).1 = .ok ()) :
    ∃ per : List (List Stmt),
      (normalizeLoop D B newC oldC l w).2.log = w.log ++ per.flatten ∧
      List.Forall₂
        (fun f ss =>
          if isOldMultiple oldC f = isNewMultiple f then ss = []
          else ∃ suffix : String,
            ss = normalizeStmts newC.Name ("_" ++ f.Name ++ suffix) f
              (isOldMultiple oldC f) (isNewMultiple f))
        l per := by
  induction l generalizing w with
  | nil => exact ⟨[], by simp [normalizeLoop], List.Forall₂.nil⟩
  | cons f rest ih =>
    unfold normalizeLoop at hok ⊢
    by_cases hsame : isOldMultiple oldC f = isNewMultiple f
    · simp only [hsame, if_true] at hok ⊢
      obtain ⟨per, hlog, hrel⟩ := ih w hok
      exact ⟨[] :: per, by simpa using hlog, List.Forall₂.cons (by simp [hsame]) hrel⟩
    · simp only [hsame, if_false] at hok ⊢
      have l1 := execute_log B
        (Stmt.AddColumn newC.Name ("_" ++ f.Name ++ D.PseudorandomString w.rng) f.ColDefinition)
        { w with rng := w.rng + 1 }
      rcases h1 : execute B
        (Stmt.AddColumn newC.Name ("_" ++ f.Name ++ D.PseudorandomString w.rng) f.ColDefinition)
        { w with rng := w.rng + 1 } with ⟨r1, w1⟩
      rw [h1] at hok l1
      cases r1 with
      | error e => simp at hok
      | ok u1 =>
        simp only at hok l1 ⊢
        have l2 := execute_log B
          (copyQuery newC.Name ("_" ++ f.Name ++ D.PseudorandomString w.rng) f.Name
            (isOldMultiple oldC f) (isNewMultiple f)) w1
        rcases h2 : execute B
          (copyQuery newC.Name ("_" ++ f.Name ++ D.PseudorandomString w.rng) f.Name
            (isOldMultiple oldC f) (isNewMultiple f)) w1 with ⟨r2, w2⟩
        rw [h2] at hok l2
        cases r2 with
        | error e => simp at hok
        | ok u2 =>
          simp only at hok l2 ⊢
          have l3 := execute_log B (Stmt.DropColumn newC.Name f.Name) w2
          rcases h3 : execute B (Stmt.DropColumn newC.Name f.Name) w2 with ⟨r3, w3⟩
          rw [h3] at hok l3
          cases r3 with
          | error e => simp at hok
          | ok u3 =>
            simp only at hok l3 ⊢
            have l4 := execute_log B
              (Stmt.RenameColumn newC.Name ("_" ++ f.Name ++ D.PseudorandomString w.rng) f.Name)
              w3
            rcases h4 : execute B
              (Stmt.RenameColumn newC.Name ("_" ++ f.Name ++ D.PseudorandomString w.rng) f.Name)
              w3 with ⟨r4, w4⟩
            rw [h4] at hok l4
            cases r4 with
            | error e => simp at hok
            | ok u4 =>
              simp only at hok l4 ⊢
              obtain ⟨per, hlog, hrel⟩ := ih w4 hok
              refine ⟨normalizeStmts newC.Name ("_" ++ f.Name ++ D.PseudorandomString w.rng) f
                (isOldMultiple oldC f) (isNewMultiple f) :: per, ?_, ?_⟩
              · rw [hlog, l4, l3, l2, l1]
                simp [normalizeStmts]
              · exact List.Forall₂.cons (by simp only [hsame, if_false]; exact ⟨_, rfl⟩) hrel

/-- C8 (as stated, refuted): the new field `tags` is multi-valued and no old field has its
id, yet the add-temp-column / copy / drop-original / rename-temp statements are issued
for it. -/
theorem normalize_field_without_old_counterpart :
    GetFieldById postsNoFields.Schema "f1" = none ∧
    (normalizeSingleVsMultipleFieldChanges demoExternal allExist postsWithTags
      (some postsNoFields) (World.start ())).2.log =
      [Stmt.AddColumn "posts" "_tags_tmp0" "JSON",
       Stmt.UpdateSingleToMultiple "posts" "_tags_tmp0" "tags",
       Stmt.DropColumn "posts" "tags",
       Stmt.RenameColumn "posts" "_tags_tmp0" "tags"] := by
  decide

/-- C8 (amended): `normalizeSingleVsMultipleFieldChanges` issues nothing when the new
collection is a view or the old collection is absent.  Otherwise, when it succeeds, it has
issued, field by field of the new schema in order, nothing for a field whose multiple flag
equals the old flag, and the add-temp-column / copy / drop-original / rename-temp
statements for a field whose flag differs - where the old flag is that of the old field
with the same Id, and is "single" when there is no such field. -/
theorem normalize_emits {σ : Type} (D : External) (B : Backend σ) (newC : Collection)
    (oldC : Option Collection) (w : World σ) :
    ((newC.IsView = true ∨ oldC = none) →
      normalizeSingleVsMultipleFieldChanges D B newC oldC w = (.ok (), w)) ∧
    (∀ o : Collection, oldC = some o → newC.IsView = false →
      (∀ f : SchemaField, GetFieldById o.Schema f.Id = none → isOldMultiple o f = false) ∧
      ((normalizeSingleVsMultipleFieldChanges D B newC oldC w).1 = .ok () →
        ∃ per : List (List Stmt),
          (normalizeSingleVsMultipleFieldChanges D B newC oldC w).2.log =
            w.log ++ per.flatten ∧
          List.Forall₂
            (fun f ss =>
              if isOldMultiple o f = isNewMultiple f then ss = []
              else ∃ suffix : String,
                ss = normalizeStmts newC.Name ("_" ++ f.Name ++ suffix) f
                  (isOldMultiple o f) (isNewMultiple f))
            newC.Schema per)) := by
  constructor
  · intro h
    unfold normalizeSingleVsMultipleFieldChanges
    cases oldC with
    | none => rfl
    | some o =>
      rcases h with h | h
      · simp [h]
      · simp at h
  · intro o ho hview
    subst ho
    constructor
    · intro f hf
      simp [isOldMultiple, hf]
    · intro hok
      have hfst : (normalizeSingleVsMultipleFieldChanges D B newC (some o) w).1 =
          (normalizeLoop D B newC o newC.Schema w.enter).1 := by
        simp only [normalizeSingleVsMultipleFieldChanges, hview, Bool.false_eq_true, if_false]
        exact RunInTransaction_fst _ w
      have hlog : (normalizeSingleVsMultipleFieldChanges D B newC (some o) w).2.log =
          (normalizeLoop D B newC o newC.Schema w.enter).2.log := by
        simp only [normalizeSingleVsMultipleFieldChanges, hview, Bool.false_eq_true, if_false]
        exact RunInTransaction_log _ w
      rw [hfst] at hok
      obtain ⟨per, hper, hrel⟩ := normalizeLoop_ok D B newC o newC.Schema w.enter hok
      exact ⟨per, by rw [hlog, hper, enter_log], hrel⟩

/-- C8 witness: the field `tags` turns from single to multiple, the field `title` keeps
its cardinality, on a database where every statement succeeds. -/
theorem normalize_emits_witness :
    (normalizeSingleVsMultipleFieldChanges demoExternal allExist
        { postsMultiTag with Kind := CollectionType.view } (some postsSingleTag)
        (World.start ())).2.log = [] ∧
    (normalizeSingleVsMultipleFieldChanges demoExternal allExist postsMultiTag
      (some postsSingleTag) (World.start ())).1 = .ok () ∧
    ∃ per : List (List Stmt),
      (normalizeSingleVsMultipleFieldChanges demoExternal allExist postsMultiTag
        (some postsSingleTag) (World.start ())).2.log = (World.start ()).log ++ per.flatten ∧
      List.Forall₂
        (fun f ss =>
          if isOldMultiple postsSingleTag f = isNewMultiple f then ss = []
          else ∃ suffix : String,
            ss = normalizeStmts postsMultiTag.Name ("_" ++ f.Name ++ suffix) f
              (isOldMultiple postsSingleTag f) (isNewMultiple f))
        postsMultiTag.Schema per :=
  ⟨by
    rw [(normalize_emits demoExternal allExist { postsMultiTag with Kind := CollectionType.view }
      (some postsSingleTag) (World.start ())).1 (Or.inl (by decide))]
    rfl,
   by decide,
   ((normalize_emits demoExternal allExist postsMultiTag (some postsSingleTag)
      (World.start ())).2 postsSingleTag rfl (by decide)).2 (by decide)⟩

/-! ## C9: single -> multiple -> single -/

theorem jsonDocument_singleton (s : List Char) (h : ∀ c ∈ s, plainChar c = true) :
    jsonDocument (String.mk ('[' :: quoteJson s ++ [']'])) =
      some { item := { type := JsonType.ARRAY, text := '[' :: quoteJson s ++ [']'],
                       own := '[' :: quoteJson s ++ [']'] },
             elems := [{ type := JsonType.STRING, text := quoteJson s, own := s }] } := by
  have hshape : '[' :: quoteJson s ++ [']'] = '[' :: '"' :: s ++ ['"', ']'] := by
    rw [quoteJson_plain s h]; simp
  have hws : skipWs ('[' :: '"' :: s ++ ['"', ']']) = '[' :: '"' :: s ++ ['"', ']'] := by
    simp [skipWs, isWs]
  have hlen : ('[' :: '"' :: s ++ ['"', ']']).length + 1 = (s.length + 3) + 2 := by
    simp
  unfold jsonDocument
  rw [show (String.mk ('[' :: quoteJson s ++ [']'])).data = '[' :: quoteJson s ++ [']'] from rfl,
    hshape, hws, hlen, jsonValue_singleton _ s h]
  simp [skipWs, quoteJson_plain s h]

/-- C9 (as stated, refuted): the scalar `a"b` comes back as `a\b`; the text `[1,2]` stored
in a single-valued column comes back as `1`; NULL comes back as the empty text. -/
theorem round_trip_loses_values :
    multipleToSingle (singleToMultiple (some "a\"b")) = some "a\\b" ∧
    multipleToSingle (singleToMultiple (some "[1,2]")) = some "1" ∧
    multipleToSingle (singleToMultiple none) = some "" := by
  decide

/-- C9 (amended): for every text `s` stored in a single-valued column that holds no double
quote, no backslash and no control character and is not itself a well-formed JSON array,
applying the single -> multiple copy expression and then the multiple -> single copy
expression yields `s` again (the empty text included). -/
theorem round_trip_plain (s : String) (hplain : ∀ c ∈ s.data, plainChar c = true)
    (harr : isJsonArray (some s) = false) :
    multipleToSingle (singleToMultiple (some s)) = some s := by
  by_cases hs : s = ""
  · subst hs
    decide
  · have h1 : singleToMultiple (some s) = some (String.mk ('[' :: quoteJson s.data ++ [']'])) := by
      unfold singleToMultiple
      have hc : ¬ COALESCE (some s) "" = "" := by simpa [COALESCE] using hs
      simp only [hc, if_false, harr, Bool.false_eq_true]
      rfl
    rw [h1, multipleToSingle_eq_stripped]
    have hst : multipleToSingleStripped (some (String.mk ('[' :: quoteJson s.data ++ [']']))) =
        (match jsonDocument (String.mk ('[' :: quoteJson s.data ++ [']'])) with
         | none => some (String.mk ('[' :: quoteJson s.data ++ [']']))
         | some d =>
           if d.item.type = JsonType.ARRAY then
             (match d.elems with
              | [] => some ""
              | e :: _ => some (String.mk (e.text.filter (fun ch => ch != '"'))))
           else some (String.mk ('[' :: quoteJson s.data ++ [']']))) := rfl
    rw [hst, jsonDocument_singleton s.data hplain]
    simp only [if_true]
    rw [quoteJson_plain s.data hplain]
    have hfil : (('"' :: s.data ++ ['"']).filter (fun ch => ch != '"')) = s.data := by
      simp [List.filter_cons, filter_quote_plain s.data hplain]
    rw [hfil]

/-- C9 (amended) witness: the scalar `abc`. -/
theorem round_trip_plain_witness :
    ((∀ c ∈ ("abc" : String).data, plainChar c = true) ∧ isJsonArray (some "abc") = false) ∧
    multipleToSingle (singleToMultiple (some "abc")) = some "abc" :=
  ⟨⟨by decide, by decide⟩, round_trip_plain "abc" (by decide) (by decide)⟩

/-! ## C10: the multiple -> single copy expression -/

theorem reader_isJsonArray_some (R : JsonReader) (s : String) :
    R.isJsonArray (some s) =
      (match R.read s with
       | none => false
       | some d => decide (d.item.type = JsonType.ARRAY)) := by
  have hunf : R.isJsonArray (some s) =
      (some (R.read s).isSome == some true &&
        (R.read s).map (fun d => d.item.type.name) == some "ARRAY") := rfl
  rw [hunf]
  cases h : R.read s with
  | none => rfl
  | some d =>
    by_cases ht : d.item.type = JsonType.ARRAY
    · simp [ht, JsonType.name]
    · have hn : (d.item.type.name == "ARRAY") = false := by
        rw [Bool.eq_false_iff]
        intro hc
        exact ht ((typeName_eq_array _).mp hc)
      have hn2 : ¬ d.item.type.name = "ARRAY" := by simpa using hn
      simp [ht, hn2]

theorem reader_eq_stripped (R : JsonReader) (v : SqlValue) :
    R.multipleToSingle v = R.multipleToSingleStripped v := by
  cases v with
  | none => rfl
  | some s =>
    unfold JsonReader.multipleToSingle
    have hst : R.multipleToSingleStripped (some s) =
        (if s = "[]" then some ""
         else
           match R.read s with
           | none => some s
           | some d =>
             if d.item.type = JsonType.ARRAY then
               (match d.elems with
                | [] => some ""
                | e :: _ => some (String.mk (e.text.filter (fun ch => ch != '"'))))
             else some s) := rfl
    rw [hst]
    by_cases hs : s = "[]"
    · simp [COALESCE, hs]
    · have hc : ¬ COALESCE (some s) "[]" = "[]" := by simpa [COALESCE] using hs
      simp only [hc, hs, if_false]
      rw [reader_isJsonArray_some]
      have hx : R.JSON_EXTRACT_0 (some s) =
          (match R.read s with
           | none => none
           | some d =>
             if d.item.type = JsonType.ARRAY then d.elems.head?.map (fun e => String.mk e.text)
             else some (String.mk d.item.text)) := rfl
      rw [hx]
      cases hd : R.read s with
      | none => simp
      | some d =>
        by_cases ht : d.item.type = JsonType.ARRAY
        · simp only [ht, decide_True, if_true]
          cases he : d.elems with
          | nil => rfl
          | cons e rest =>
            have hr : REPLACE (some (String.mk e.text)) "\"" "" =
                some (String.mk (replaceAllChars ['"'] [] e.text.length e.text)) := rfl
            simp only [List.head?_cons, Option.map_some', hr, COALESCE]
            rw [replaceAll_quote _ _ (Nat.le_refl _)]
        · simp [ht]

theorem reader_stripped_eq_spec (R : JsonReader) (v : SqlValue)
    (hwf : ∀ s d, R.read s = some d → ∀ e ∈ d.elems, e.wf)
    (hplain : R.plainFirstElement v = true) :
    R.multipleToSingleStripped v = R.multipleToSingleSpec v := by
  cases v with
  | none => rfl
  | some s =>
    have h1 : R.multipleToSingleStripped (some s) =
        (if s = "[]" then some ""
         else
           match R.read s with
           | none => some s
           | some d =>
             if d.item.type = JsonType.ARRAY then
               (match d.elems with
                | [] => some ""
                | e :: _ => some (String.mk (e.text.filter (fun ch => ch != '"'))))
             else some s) := rfl
    have h2 : R.multipleToSingleSpec (some s) =
        (if s = "[]" then some ""
         else
           match R.read s with
           | none => some s
           | some d =>
             if d.item.type = JsonType.ARRAY then
               (match d.elems with
                | [] => some ""
                | e :: _ => some (String.mk e.own))
             else some s) := rfl
    have h3 : R.plainFirstElement (some s) =
        (match R.read s with
         | none => true
         | some d =>
           match d.elems with
           | [] => true
           | e :: _ =>
             if e.type = JsonType.STRING then e.own.all plainChar
             else e.text.all (fun ch => ch != '"')) := rfl
    rw [h1, h2]
    rw [h3] at hplain
    by_cases hs : s = "[]"
    · simp [hs]
    · simp only [hs, if_false]
      cases hd : R.read s with
      | none => rfl
      | some d =>
        rw [hd] at hplain
        simp only at hplain ⊢
        by_cases ht : d.item.type = JsonType.ARRAY
        · simp only [ht, if_true]
          have hwf2 := hwf s d hd
          cases he : d.elems with
          | nil => rfl
          | cons e rest =>
            rw [he] at hplain hwf2
            simp only at hplain ⊢
            have hew := hwf2 e (by simp)
            by_cases hstr : e.type = JsonType.STRING
            · simp only [hstr, if_true, List.all_eq_true] at hplain
              rw [hew.1 hstr, quoteJson_plain e.own hplain]
              have hfil : (('"' :: e.own ++ ['"']).filter (fun ch => ch != '"')) = e.own := by
                simp [List.filter_cons, filter_quote_plain e.own hplain]
              rw [hfil]
            · simp only [hstr, if_false, List.all_eq_true] at hplain
              rw [hew.2 hstr, List.filter_eq_self.mpr hplain]
        · simp [ht]

/-- C10 (as stated, refuted): the array whose first element is the string `a"b` becomes
`a\b`, not the element's own text `a"b`; the array whose first element is the array
`["x"]` becomes `[x]`, not the element's text `["x"]`. -/
theorem multipleToSingle_strips_inner_quotes :
    textReader.multipleToSingle (some "[\"a\\\"b\"]") = some "a\\b" ∧
    textReader.multipleToSingleSpec (some "[\"a\\\"b\"]") = some "a\"b" ∧
    textReader.multipleToSingle (some "[[\"x\"],\"y\"]") = some "[x]" ∧
    textReader.multipleToSingleSpec (some "[[\"x\"],\"y\"]") = some "[\"x\"]" := by
  decide

/-- C10 (amended): whatever the JSON functions of the database make of the stored texts,
for every stored value the multiple -> single copy expression gives: the empty text for
NULL and for the empty array `[]`; for a well-formed JSON array with at least one element
the text the database prints for its first element (index 0) with every double quote
removed, and the empty text for an array without elements; an unchanged copy for a value
that is not a well-formed JSON array.  When the database prints a string as its quoted text
and the first element is a string without double quote, backslash or control character, or
a value that is not a string and is printed without a double quote, that is the element's
own text, as in the three-case definition. -/
theorem multipleToSingle_three_cases (R : JsonReader) (v : SqlValue) :
    R.multipleToSingle v = R.multipleToSingleStripped v ∧
    ((∀ s d, R.read s = some d → ∀ e ∈ d.elems, e.wf) → R.plainFirstElement v = true →
      R.multipleToSingle v = R.multipleToSingleSpec v) :=
  ⟨reader_eq_stripped R v,
   fun hwf h => (reader_eq_stripped R v).trans (reader_stripped_eq_spec R v hwf h)⟩

/-- C10 (amended) witness: read by the reader of this file, the array `["a","b"]` becomes
`a`, an empty array and NULL become the empty text, and a text that is no array is copied. -/
theorem multipleToSingle_three_cases_witness :
    (textReader.plainFirstElement (some "[\"a\",\"b\"]") = true ∧
      textReader.multipleToSingle (some "[\"a\",\"b\"]") =
        textReader.multipleToSingleSpec (some "[\"a\",\"b\"]")) ∧
    textReader.multipleToSingle (some "[\"a\",\"b\"]") = some "a" ∧
    textReader.multipleToSingle (some "[]") = some "" ∧
    textReader.multipleToSingle (some "[ ]") = some "" ∧
    textReader.multipleToSingle none = some "" ∧
    textReader.multipleToSingle (some "a,b") = some "a,b" ∧
    (∀ v, multipleToSingle v = textReader.multipleToSingle v) :=
  ⟨⟨by decide,
    (multipleToSingle_three_cases textReader (some "[\"a\",\"b\"]")).2
      (fun s d h => (jsonDocument_wf s d h).2) (by decide)⟩,
   by decide, by decide, by decide, by decide, by decide, fun _ => rfl⟩

/-! ## C11: atomicity -/

theorem RunInTransaction_restores {σ : Type} (fn : World σ → Step σ Unit) (w : World σ)
    (e : Error) (hout : w.inTx = false) (herr : (RunInTransaction fn w).1 = .error e) :
    (RunInTransaction fn w).2.db = w.db := by
  unfold RunInTransaction at herr ⊢
  simp only [hout, Bool.false_eq_true, if_false] at herr ⊢
  rcases hfn : fn w.enter with ⟨r, w1⟩
  rw [hfn] at herr
  cases r with
  | error e1 => rfl
  | ok u => simp at herr

/-- C11: when `SyncRecordTableSchema` is called outside a transaction and returns an error -
whichever statement failed, or the aggregated index validation error - the database
state after the call, table structure and data, is the state before the call. -/
theorem SyncRecordTableSchema_atomic {σ : Type} (D : External) (B : Backend σ)
    (newC : Collection) (oldC : Option Collection) (w : World σ) (e : Error)
    (hout : w.inTx = false)
    (herr : (SyncRecordTableSchema D B newC oldC w).1 = .error e) :
    (SyncRecordTableSchema D B newC oldC w).2.db = w.db :=
  RunInTransaction_restores _ w e hout herr

/-- C11 witness: both fields of `posts` are renamed to `z`.  The two renames to temporary
names and the first rename of the second pass succeed and change the table, the last
rename fails on the duplicate name, and the table after the call is the table before. -/
theorem SyncRecordTableSchema_atomic_witness :
    ((World.start (tableOf clashBefore.Schema exampleData)).inTx = false ∧
      (SyncRecordTableSchema demoExternal (tableBackend "") clashAfter (some clashBefore)
        (World.start (tableOf clashBefore.Schema exampleData))).1 =
        .error (Error.plain "duplicate column z")) ∧
    (SyncRecordTableSchema demoExternal (tableBackend "") clashAfter (some clashBefore)
      (World.start (tableOf clashBefore.Schema exampleData))).2.log =
      [Stmt.RenameColumn "posts" "x" "z_tmp0",
       Stmt.RenameColumn "posts" "y" "z_tmp1",
       Stmt.RenameColumn "posts" "z_tmp1" "z",
       Stmt.RenameColumn "posts" "z_tmp0" "z"] ∧
    (SyncRecordTableSchema demoExternal (tableBackend "") clashAfter (some clashBefore)
      (World.start (tableOf clashBefore.Schema exampleData))).2.db =
      (World.start (tableOf clashBefore.Schema exampleData)).db :=
  ⟨⟨rfl, by decide⟩, by decide,
   SyncRecordTableSchema_atomic demoExternal (tableBackend "") clashAfter (some clashBefore)
     (World.start (tableOf clashBefore.Schema exampleData))
     (Error.plain "duplicate column z") rfl (by decide)⟩

/-! ## C12: the columns of CREATE TABLE -/

theorem createCols_eq_foldl (c : Collection) :
    createCols c =
      c.Schema.foldl (fun cols field => mapSet cols field.Name field.ColDefinition)
        (fixedCols c) := by
  unfold createCols fixedCols
  simp only
  congr 1
  by_cases ha : c.IsAuth = true <;> by_cases hp : c.Name = "_params" <;>
    simp [ha, hp, mapSet, systemCols, authCols, FieldNameId, FieldNameCreated,
      FieldNameUpdated, FieldNameUsername, FieldNameEmail, FieldNameEmailVisibility,
      FieldNameVerified, FieldNameTokenKey, FieldNamePasswordHash, FieldNameLastResetSentAt,
      FieldNameLastVerificationSentAt]

theorem mem_foldl_mapSet_key (fields : List SchemaField) (m : List (String × String))
    (a : String) :
    (∃ d, (a, d) ∈ fields.foldl (fun cols f => mapSet cols f.Name f.ColDefinition) m) ↔
      (∃ d, (a, d) ∈ m) ∨ ∃ f ∈ fields, f.Name = a := by
  induction fields generalizing m with
  | nil => simp
  | cons f rest ih =>
    simp only [List.foldl_cons]
    rw [ih, mem_mapSet_key]
    constructor
    · rintro ((h | h) | ⟨f2, hf2, h⟩)
      · exact Or.inr ⟨f, by simp, h.symm⟩
      · exact Or.inl h
      · exact Or.inr ⟨f2, by simp [hf2], h⟩
    · rintro (h | ⟨f2, hf2, h⟩)
      · exact Or.inl (Or.inr h)
      · rcases List.mem_cons.mp hf2 with rfl | hf2
        · exact Or.inl (Or.inl h.symm)
        · exact Or.inr ⟨f2, hf2, h⟩

theorem foldl_mapSet_fresh (fields : List SchemaField) (m : List (String × String))
    (hnd : (fields.map SchemaField.Name).Nodup)
    (hfresh : ∀ f ∈ fields, f.Name ∉ m.map Prod.fst) :
    fields.foldl (fun cols f => mapSet cols f.Name f.ColDefinition) m =
      m ++ fields.map fieldCol := by
  induction fields generalizing m with
  | nil => simp
  | cons f rest ih =>
    simp only [List.map_cons, List.nodup_cons] at hnd
    simp only [List.foldl_cons, List.map_cons]
    rw [mapSet_fresh m _ _ (hfresh f (by simp)), ih _ hnd.2]
    · simp [fieldCol]
    · intro f2 hf2
      simp only [List.map_append, List.map_cons, List.map_nil, List.mem_append,
        List.mem_singleton, not_or]
      refine ⟨hfresh f2 (by simp [hf2]), ?_⟩
      intro hcon
      exact hnd.1 (List.mem_map.mpr ⟨f2, hf2, hcon⟩)

theorem runQueries_extends {σ : Type} (B : Backend σ) (P : Stmt → Prop)
    (hP : ∀ s, s.isIndexStmt = true → P s) (l : List String) (w : World σ) :
    Extends P w (runQueries B l w).2 := by
  induction l generalizing w with
  | nil => exact Extends.refl _ _
  | cons q qs ih =>
    unfold runQueries
    have hq := Extends.execute (P := P) B (Stmt.NewQuery q) w (hP _ rfl)
    rcases hqe : execute B (Stmt.NewQuery q) w with ⟨r2, w2⟩
    rw [hqe] at hq
    cases r2 with
    | error e => exact hq
    | ok u2 => exact hq.trans (ih w2)

theorem ensureId_Name (D : External) (c : Collection) : (ensureId D c).Name = c.Name := by
  unfold ensureId; split <;> rfl

theorem ensureId_IsAuth (D : External) (c : Collection) :
    (ensureId D c).IsAuth = c.IsAuth := by
  unfold ensureId; split <;> rfl

theorem syncCreate_first {σ : Type} (D : External) (B : Backend σ) (c : Collection)
    (w : World σ) :
    ∃ rest : List Stmt,
      (syncCreate D B c w).2.log = w.log ++ Stmt.CreateTable c.Name (createCols c) :: rest := by
  unfold syncCreate
  simp only [ensureId_Name]
  have hl := execute_log B (Stmt.CreateTable c.Name (createCols c)) w
  rcases hx : execute B (Stmt.CreateTable c.Name (createCols c)) w with ⟨r, w1⟩
  rw [hx] at hl
  simp only at hl
  cases r with
  | error e => exact ⟨[], by simpa using hl⟩
  | ok u =>
    simp only
    have h2 : Extends (fun _ => True) w1
        (if (ensureId D c).IsAuth = true then
          runQueries B (authIndexes (ensureId D c).Id c.Name) w1
         else (Except.ok (), w1)).2 := by
      split
      · exact runQueries_extends B _ (fun _ _ => trivial) _ w1
      · exact Extends.refl _ _
    rcases h2e : (if (ensureId D c).IsAuth = true then
          runQueries B (authIndexes (ensureId D c).Id c.Name) w1
         else (Except.ok (), w1)) with ⟨r2, w2⟩
    rw [h2e] at h2
    cases r2 with
    | error e =>
      obtain ⟨ext, hext, _⟩ := h2
      exact ⟨ext, by simp only at hext; rw [hext, hl]; simp⟩
    | ok u2 =>
      simp only
      have h3 := createCollectionIndexes_extends D B (fun _ => True) (fun _ _ => trivial)
        (ensureId D c) w2
      obtain ⟨ext, hext, _⟩ := h2.trans h3
      exact ⟨ext, by rw [hext, hl]; simp⟩

theorem fixedCols_names_nodup (c : Collection) : ((fixedCols c).map Prod.fst).Nodup := by
  unfold fixedCols
  by_cases ha : c.IsAuth = true <;> by_cases hp : c.Name = "_params" <;>
    simp [ha, hp, systemCols, authCols]

theorem pair_of_nodup_keys {m : List (String × String)} (hnd : (m.map Prod.fst).Nodup)
    {k d1 d2 : String} (h1 : (k, d1) ∈ m) (h2 : (k, d2) ∈ m) : d1 = d2 := by
  have := List.inj_on_of_nodup_map hnd h1 h2 rfl
  exact (Prod.mk.injEq _ _ _ _ ▸ this).2

/-- C12: in the create path the first statement issued is CREATE TABLE for the collection's
table with the column map `createCols`.  Its column names are exactly the names of the
fixed columns - the system columns id, created, updated; the eight auth columns exactly
when the collection is of kind auth; the column value exactly when the collection is
named _params - and the names of the schema fields.  For a schema whose field names
are distinct and differ from the fixed column names, the column map is the fixed columns
followed by one column per field, named by the field's Name with the field's ColDefinition;
so the number of columns is the number of fixed columns plus the number of fields, and
every fixed column keeps its fixed definition. -/
theorem createCols_columns {σ : Type} (D : External) (B : Backend σ) (c : Collection)
    (w : World σ) :
    (∃ rest : List Stmt,
      (SyncRecordTableSchema D B c none w).2.log =
        w.log ++ Stmt.CreateTable c.Name (createCols c) :: rest) ∧
    (∀ name : String,
      (∃ d, (name, d) ∈ createCols c) ↔
        (name ∈ (fixedCols c).map Prod.fst ∨ ∃ f ∈ c.Schema, f.Name = name)) ∧
    ((c.Schema.map SchemaField.Name).Nodup →
      (∀ f ∈ c.Schema, f.Name ∉ (fixedCols c).map Prod.fst) →
        createCols c = fixedCols c ++ c.Schema.map fieldCol ∧
        (createCols c).length = (fixedCols c).length + c.Schema.length ∧
        (∀ p ∈ fixedCols c, p ∈ createCols c ∧ ∀ d, (p.1, d) ∈ createCols c → d = p.2)) := by
  refine ⟨?_, ?_, ?_⟩
  · obtain ⟨rest, hrest⟩ := syncCreate_first D B c w.enter
    refine ⟨rest, ?_⟩
    unfold SyncRecordTableSchema
    rw [RunInTransaction_log]
    simpa using hrest
  · intro name
    rw [createCols_eq_foldl, mem_foldl_mapSet_key]
    constructor
    · rintro (⟨d, hd⟩ | h)
      · exact Or.inl (List.mem_map.mpr ⟨(name, d), hd, rfl⟩)
      · exact Or.inr h
    · rintro (h | h)
      · obtain ⟨p, hp, rfl⟩ := List.mem_map.mp h
        exact Or.inl ⟨p.2, hp⟩
      · exact Or.inr h
  · intro hnd hfresh
    have heq : createCols c = fixedCols c ++ c.Schema.map fieldCol := by
      rw [createCols_eq_foldl]
      exact foldl_mapSet_fresh c.Schema (fixedCols c) hnd hfresh
    refine ⟨heq, by rw [heq]; simp, ?_⟩
    intro p hp
    refine ⟨by rw [heq]; exact List.mem_append_left _ hp, ?_⟩
    intro d hd
    rw [heq] at hd
    rcases List.mem_append.mp hd with hd | hd
    · exact pair_of_nodup_keys (fixedCols_names_nodup c) hd hp
    · exfalso
      obtain ⟨f, hf, hfe⟩ := List.mem_map.mp hd
      simp only [fieldCol, Prod.mk.injEq] at hfe
      exact hfresh f hf (by rw [hfe.1]; exact List.mem_map.mpr ⟨p, hp, rfl⟩)

/-- C12 witness: the auth collection `users` with the fields `name` and `age` gets the three
system columns, the eight auth columns and its two field columns, thirteen in all. -/
theorem createCols_columns_witness :
    ((usersAuth.Schema.map SchemaField.Name).Nodup ∧
      (∀ f ∈ usersAuth.Schema, f.Name ∉ (fixedCols usersAuth).map Prod.fst)) ∧
    (createCols usersAuth).map Prod.fst =
      ["id", "created", "updated", "username", "email", "emailVisibility", "verified",
       "tokenKey", "passwordHash", "lastResetSentAt", "lastVerificationSentAt",
       "name", "age"] ∧
    (createCols usersAuth = fixedCols usersAuth ++ usersAuth.Schema.map fieldCol ∧
      (createCols usersAuth).length = (fixedCols usersAuth).length + usersAuth.Schema.length ∧
      (∀ p ∈ fixedCols usersAuth,
        p ∈ createCols usersAuth ∧ ∀ d, (p.1, d) ∈ createCols usersAuth → d = p.2)) :=
  ⟨⟨by decide, by decide⟩, by decide,
   (createCols_columns demoExternal allExist usersAuth (World.start ())).2.2
     (by decide) (by decide)⟩

/-! ## C13: the unique indexes of an auth collection -/

theorem authIndexes_eq (id tbl : String) :
    authIndexes id tbl =
      List.zipWith (authIndexSql tbl) (authIndexNames id) ["username", "email", "tokenKey"] := by
  simp only [authIndexes, authIndexNames, authIndexSql, List.zipWith_cons_cons,
    List.zipWith_nil_right]
  congr 1
  · apply String.ext
    simp [String.data_append]
  · congr 1
    · apply String.ext
      simp [String.data_append]
    · congr 1
      apply String.ext
      simp [String.data_append]

theorem suffix_clash (a b p q t : List Char) (x y : Char) (hxy : x ≠ y) :
    a ++ (p ++ x :: t) ≠ b ++ (q ++ y :: t) := by
  intro h
  have h2 : (a ++ p ++ [x]) ++ t = (b ++ q ++ [y]) ++ t := by
    simpa [List.append_assoc] using h
  have h3 := List.append_cancel_right h2
  have h4 := congrArg List.getLast? h3
  simp at h4
  exact hxy h4

theorem indexName_data (id sfx : String) :
    ("_" ++ id ++ sfx).data = '_' :: (id.data ++ sfx.data) := by
  simp [String.data_append]

theorem indexName_ne (id1 id2 s1 s2 : String) (p q : List Char) (x y : Char)
    (h1 : s1.data = p ++ x :: ['_', 'i', 'd', 'x'])
    (h2 : s2.data = q ++ y :: ['_', 'i', 'd', 'x']) (hxy : x ≠ y) :
    "_" ++ id1 ++ s1 ≠ "_" ++ id2 ++ s2 := by
  intro h
  have hd := congrArg String.data h
  rw [indexName_data, indexName_data, h1, h2] at hd
  exact suffix_clash id1.data id2.data p q _ x y hxy (List.cons.inj hd).2

theorem indexName_inj (id1 id2 sfx : String) (h : "_" ++ id1 ++ sfx = "_" ++ id2 ++ sfx) :
    id1 = id2 := by
  have hd := congrArg String.data h
  rw [indexName_data, indexName_data] at hd
  exact String.ext (List.append_cancel_right (List.cons.inj hd).2)

theorem authIndexNames_disjoint (id1 id2 : String) (hne : id1 ≠ id2) :
    ∀ n ∈ authIndexNames id1, n ∉ authIndexNames id2 := by
  have hu : ("_username_idx" : String).data =
      ['_', 'u', 's', 'e', 'r', 'n', 'a', 'm'] ++ 'e' :: ['_', 'i', 'd', 'x'] := rfl
  have he : ("_email_idx" : String).data =
      ['_', 'e', 'm', 'a', 'i'] ++ 'l' :: ['_', 'i', 'd', 'x'] := rfl
  have ht : ("_tokenKey_idx" : String).data =
      ['_', 't', 'o', 'k', 'e', 'n', 'K', 'e'] ++ 'y' :: ['_', 'i', 'd', 'x'] := rfl
  intro n h1 h2
  simp only [authIndexNames, List.mem_cons, List.mem_singleton, List.not_mem_nil,
    or_false] at h1 h2
  rcases h1 with rfl | rfl | rfl <;> rcases h2 with h2 | h2 | h2
  · exact hne (indexName_inj _ _ _ h2)
  · exact indexName_ne _ _ _ _ _ _ _ _ hu he (by decide) h2
  · exact indexName_ne _ _ _ _ _ _ _ _ hu ht (by decide) h2
  · exact indexName_ne _ _ _ _ _ _ _ _ he hu (by decide) h2
  · exact hne (indexName_inj _ _ _ h2)
  · exact indexName_ne _ _ _ _ _ _ _ _ he ht (by decide) h2
  · exact indexName_ne _ _ _ _ _ _ _ _ ht hu (by decide) h2
  · exact indexName_ne _ _ _ _ _ _ _ _ ht he (by decide) h2
  · exact hne (indexName_inj _ _ _ h2)

theorem runQueries_ok {σ : Type} (B : Backend σ) (l : List String) (w : World σ)
    (hok : (runQueries B l w).1 = .ok ()) :
    (runQueries B l w).2.log = w.log ++ l.map Stmt.NewQuery := by
  induction l generalizing w with
  | nil => simp [runQueries]
  | cons q qs ih =>
    unfold runQueries at hok ⊢
    have hl := execute_log B (Stmt.NewQuery q) w
    rcases hx : execute B (Stmt.NewQuery q) w with ⟨r, w1⟩
    rw [hx] at hok hl
    cases r with
    | error e => simp at hok
    | ok u =>
      simp only at hok hl ⊢
      rw [ih w1 hok, hl]
      simp

theorem syncCreate_ok {σ : Type} (D : External) (B : Backend σ) (c : Collection)
    (w : World σ) (hok : (syncCreate D B c w).1 = .ok ()) :
    ∃ (w2 : World σ) (rest : List Stmt),
      w2.log = w.log ++ createPrelude D c ∧
      (createCollectionIndexes D B (ensureId D c) w2).2.log = w2.log ++ rest ∧
      (syncCreate D B c w).2.log = w.log ++ createPrelude D c ++ rest := by
  unfold syncCreate at hok ⊢
  simp only [ensureId_Name, ensureId_IsAuth] at hok ⊢
  have hl := execute_log B (Stmt.CreateTable c.Name (createCols c)) w
  rcases hx : execute B (Stmt.CreateTable c.Name (createCols c)) w with ⟨r, w1⟩
  rw [hx] at hok hl
  simp only at hl
  cases r with
  | error e => simp at hok
  | ok u =>
    simp only at hok ⊢
    have hq : (if c.IsAuth = true then
          runQueries B (authIndexes (ensureId D c).Id c.Name) w1
         else (Except.ok (), w1)).1 = .ok () →
        (if c.IsAuth = true then
          runQueries B (authIndexes (ensureId D c).Id c.Name) w1
         else (Except.ok (), w1)).2.log = w.log ++ createPrelude D c := by
      intro h
      unfold createPrelude
      by_cases ha : c.IsAuth = true
      · simp only [ha, if_true] at h ⊢
        rw [runQueries_ok B _ w1 h, hl]
        simp
      · simp only [ha, Bool.false_eq_true, if_false] at h ⊢
        rw [hl]
    rcases h2e : (if c.IsAuth = true then
          runQueries B (authIndexes (ensureId D c).Id c.Name) w1
         else (Except.ok (), w1)) with ⟨r2, w2⟩
    rw [h2e] at hok hq
    cases r2 with
    | error e => simp at hok
    | ok u2 =>
      simp only at hok hq ⊢
      have hw2 := hq trivial
      obtain ⟨rest, hrest, _⟩ := createCollectionIndexes_extends D B (fun _ => True)
        (fun _ _ => trivial) (ensureId D c) w2
      exact ⟨w2, rest, hw2, hrest, by rw [hrest, hw2]⟩

/-- C13: when the creation of a collection succeeds, the statements issued are CREATE TABLE,
then the three unique index statements on username, email and tokenKey exactly when the
collection is of kind auth, then the statements reconciling the collection's own indexes.
The three statements create the indexes named `_<Id>_username_idx`, `_<Id>_email_idx` and
`_<Id>_tokenKey_idx` for the Id the collection has at creation, and for two different Ids
no index name of the one set is an index name of the other. -/
theorem create_auth_indexes {σ : Type} (D : External) (B : Backend σ) (c : Collection)
    (w : World σ) :
    ((SyncRecordTableSchema D B c none w).1 = .ok () →
      ∃ (w2 : World σ) (rest : List Stmt),
        w2.log = w.log ++ createPrelude D c ∧
        (createCollectionIndexes D B (ensureId D c) w2).2.log = w2.log ++ rest ∧
        (SyncRecordTableSchema D B c none w).2.log = w.log ++ createPrelude D c ++ rest) ∧
    (∀ id tbl : String,
      authIndexes id tbl =
        List.zipWith (authIndexSql tbl) (authIndexNames id) ["username", "email", "tokenKey"]) ∧
    (∀ id1 id2 : String, id1 ≠ id2 →
      ∀ n ∈ authIndexNames id1, n ∉ authIndexNames id2) := by
  refine ⟨?_, authIndexes_eq, authIndexNames_disjoint⟩
  intro hok
  have hfst : (SyncRecordTableSchema D B c none w).1 = (syncCreate D B c w.enter).1 := by
    unfold SyncRecordTableSchema
    rw [RunInTransaction_fst]
  have hlog : (SyncRecordTableSchema D B c none w).2.log =
      (syncCreate D B c w.enter).2.log := by
    unfold SyncRecordTableSchema
    rw [RunInTransaction_log]
  rw [hfst] at hok
  obtain ⟨w2, rest, h1, h2, h3⟩ := syncCreate_ok D B c w.enter hok
  exact ⟨w2, rest, by simpa using h1, h2, by rw [hlog, h3]; simp⟩

/-- C13 witness: creating the auth collection `users`, which gets the Id `r0a1b2c3d4e5f6`,
issues CREATE TABLE and then the three unique index statements; creating the base
collection `posts` issues CREATE TABLE only. -/
theorem create_auth_indexes_witness :
    ((SyncRecordTableSchema demoExternal allExist usersAuth none (World.start ())).1 = .ok () ∧
      (SyncRecordTableSchema demoExternal allExist usersAuth none (World.start ())).2.log =
        [Stmt.CreateTable "users" (createCols usersAuth),
         Stmt.NewQuery
           "CREATE UNIQUE INDEX _r0a1b2c3d4e5f6_username_idx ON \x7b\x7busers\x7d\x7d ([[username]]);",
         Stmt.NewQuery
           "CREATE UNIQUE INDEX _r0a1b2c3d4e5f6_email_idx ON \x7b\x7busers\x7d\x7d ([[email]]);",
         Stmt.NewQuery
           "CREATE UNIQUE INDEX _r0a1b2c3d4e5f6_tokenKey_idx ON \x7b\x7busers\x7d\x7d ([[tokenKey]]);"]) ∧
    (SyncRecordTableSchema demoExternal allExist postsNoFields none (World.start ())).2.log =
      [Stmt.CreateTable "posts" (createCols postsNoFields)] ∧
    (∃ (w2 : World Unit) (rest : List Stmt),
      w2.log = (World.start ()).log ++ createPrelude demoExternal usersAuth ∧
      (createCollectionIndexes demoExternal allExist (ensureId demoExternal usersAuth) w2).2.log =
        w2.log ++ rest ∧
      (SyncRecordTableSchema demoExternal allExist usersAuth none (World.start ())).2.log =
        (World.start ()).log ++ createPrelude demoExternal usersAuth ++ rest) :=
  ⟨⟨by decide, by decide⟩, by decide,
   (create_auth_indexes demoExternal allExist usersAuth (World.start ())).1 (by decide)⟩

end PocketBase
